import Mathlib

/-!
PLY parser (`code/PlyParser.h`, `code/PlyParser.cpp`)

A shallow embedding of the PLY header and data parser of Assimp.

* A text/data buffer is a list of bytes and a cursor (`const char*`) is an index into it.
  A read outside the list yields NUL, so a buffer is always NUL-terminated.
* Functions of the shape `bool f(const char* in, const char** out, T* res)` become functions
  returning the `bool`, the final value of `*out` and the final value of `*res`.
* `unsigned int`/`uint32_t` values are naturals reduced modulo `2^32`; `int32_t` values are
  integers in two's complement range.
-/

namespace PLY

/-! ## Buffers and lexical helpers (`PlyParser.h`, lines 437-478) -/

/-- A buffer of bytes (`char`), addressed by a cursor of type `Nat`. -/
abbrev Buf := List Nat

/-- The byte under the cursor, `*p`; NUL outside the buffer. -/
def peek (buf : Buf) (p : Nat) : Nat := buf.getD p 0

/-- The bytes of an ASCII string literal. -/
def bytes (s : String) : Buf := s.data.map Char.toNat

/-- `IsSpace`: blank or tab. -/
def IsSpace (c : Nat) : Bool := c == 32 || c == 9

/-- `IsLineEnd`: CR, LF or NUL. -/
def IsLineEnd (c : Nat) : Bool := c == 13 || c == 10 || c == 0

/-- `IsSpaceOrNewLine`. -/
def IsSpaceOrNewLine (c : Nat) : Bool := IsSpace c || IsLineEnd c

/-- The loop `while (f(*in)) in++;`: the cursor after the longest run of bytes satisfying `f`.
Every `f` used below is false on NUL, so such a loop stops at the end of the buffer at
the latest. -/
def scan (f : Nat → Bool) (buf : Buf) (p : Nat) : Nat :=
  p + ((buf.drop p).takeWhile f).length

/-- `SkipSpaces`: skip blanks and tabs; false when the cursor then stands on a line end. -/
def SkipSpaces (buf : Buf) (p : Nat) : Bool × Nat :=
  let q := scan (fun c => c == 32 || c == 9) buf p
  (!IsLineEnd (peek buf q), q)

/-- `SkipLine`: skip to the first CR, LF or NUL; step over it unless it is NUL. -/
def SkipLine (buf : Buf) (p : Nat) : Bool × Nat :=
  let q := scan (fun c => c != 13 && c != 10 && c != 0) buf p
  if peek buf q == 0 then (false, q) else (true, q + 1)

/-- `SkipSpacesAndLineEnd`: skip blanks, tabs, CR and LF. -/
def SkipSpacesAndLineEnd (buf : Buf) (p : Nat) : Nat :=
  scan (fun c => c == 32 || c == 9 || c == 13 || c == 10) buf p

/-! ## Library routines that are declared outside `PlyParser.*` -/

/-- ASCII `tolower`. -/
def toLower (c : Nat) : Nat := if 65 ≤ c ∧ c ≤ 90 then c + 32 else c

/-- The comparison loop of `ASSIMP_strincmp`: true when the first `n` characters agree
ignoring case, a common NUL ending the comparison early. -/
def strincmpLoop : Nat → Buf → Nat → List Nat → Bool
  | 0, _, _, _ => true
  | n + 1, buf, p, s2 =>
    let c1 := peek buf p
    let c2 := s2.headD 0
    if toLower c1 != toLower c2 then false
    else if c1 == 0 then true
    else strincmpLoop n buf (p + 1) s2.tail

/-- Modelled from the spec: `ASSIMP_strincmp(s1, s2, n)` (declared in a header that is not part
of the sources at hand) is the case-insensitive comparison of at most `n` characters that the
recognizers use for their "case-insensitive keywords"; the result is `0` exactly when the texts
agree. -/
def ASSIMP_strincmp (buf : Buf) (p : Nat) (s2 : String) (n : Nat) : Nat :=
  if strincmpLoop n buf p (bytes s2) then 0 else 1

/-- Decimal digit. -/
def isDigit (c : Nat) : Bool := 48 ≤ c && c ≤ 57

/-- Modelled from the spec: `strtol10(in, &out)` (declared in `fast_atof.h`, not part of the
sources at hand) is the "unsigned-digit scan" that "never consumes a sign": it reads the longest
run of decimal digits into an `unsigned int` and leaves the cursor after it. The result is the
value and the cursor. -/
def strtol10 (buf : Buf) (p : Nat) : Nat × Nat :=
  let ds := (buf.drop p).takeWhile isDigit
  (ds.foldl (fun v c => (v * 10 + (c - 48)) % 2 ^ 32) 0, p + ds.length)

/-! ## Enumerations (`PlyParser.h`, lines 41-159) -/

/-- `EDataType`. -/
inductive EDataType
  | EDT_Char | EDT_UChar | EDT_Short | EDT_UShort | EDT_Int | EDT_UInt | EDT_Float | EDT_Double
  | EDT_INVALID
  deriving DecidableEq, Repr

/-- `ESemantic`. -/
inductive ESemantic
  | EST_XCoord | EST_YCoord | EST_ZCoord
  | EST_XNormal | EST_YNormal | EST_ZNormal
  | EST_Red | EST_Green | EST_Blue | EST_Alpha
  | EST_VertexIndex | EST_TextureIndex | EST_TextureCoordinates | EST_MaterialIndex
  | EST_AmbientRed | EST_AmbientGreen | EST_AmbientBlue | EST_AmbientAlpha
  | EST_DiffuseRed | EST_DiffuseGreen | EST_DiffuseBlue | EST_DiffuseAlpha
  | EST_SpecularRed | EST_SpecularGreen | EST_SpecularBlue | EST_SpecularAlpha
  | EST_PhongPower | EST_Opacity
  | EST_INVALID
  deriving DecidableEq, Repr

/-- `EElementSemantic`. -/
inductive EElementSemantic
  | EEST_Vertex | EEST_Face | EEST_TriStrip | EEST_Edge | EEST_Material
  | EEST_INVALID
  deriving DecidableEq, Repr

open EDataType ESemantic EElementSemantic

/-! ## Recognizers (`PlyParser.cpp`, lines 18-366) -/

/-- `Property::ParseDataType` (lines 18-98): the first matching branch of the `if`/`else if`
chain advances the cursor by its constant and picks the tag; the final check resets the tag
(not the cursor) unless a blank or line end follows. -/
def Property.ParseDataType (buf : Buf) (p : Nat) : EDataType × Nat :=
  let r : EDataType × Nat :=
    if ASSIMP_strincmp buf p "char" 4 == 0 || ASSIMP_strincmp buf p "int8" 4 == 0 then
      (EDT_Char, p + 4)
    else if ASSIMP_strincmp buf p "uchar" 5 == 0 || ASSIMP_strincmp buf p "uint8" 5 == 0 then
      (EDT_UChar, p + 5)
    else if ASSIMP_strincmp buf p "short" 5 == 0 || ASSIMP_strincmp buf p "int16" 5 == 0 then
      (EDT_Short, p + 5)
    else if ASSIMP_strincmp buf p "ushort" 6 == 0 || ASSIMP_strincmp buf p "uint16" 6 == 0 then
      (EDT_UShort, p + 6)
    else if ASSIMP_strincmp buf p "int32" 5 == 0 then (EDT_Int, p + 5)
    else if ASSIMP_strincmp buf p "uint32" 6 == 0 then (EDT_UInt, p + 6)
    else if ASSIMP_strincmp buf p "int" 3 == 0 then (EDT_Int, p + 3)
    else if ASSIMP_strincmp buf p "uint" 4 == 0 then (EDT_UInt, p + 4)
    else if ASSIMP_strincmp buf p "float32" 7 == 0 then (EDT_Float, p + 7)
    else if ASSIMP_strincmp buf p "float" 5 == 0 then (EDT_Float, p + 5)
    else if ASSIMP_strincmp buf p "float64" 7 == 0 then (EDT_Double, p + 7)
    else if ASSIMP_strincmp buf p "double64" 8 == 0 then (EDT_Double, p + 8)
    else if ASSIMP_strincmp buf p "double" 6 == 0 then (EDT_Double, p + 6)
    else (EDT_INVALID, p)
  if !(IsSpace (peek buf r.2) || IsLineEnd (peek buf r.2)) then (EDT_INVALID, r.2) else r

/-- `Property::ParseSemantic` (lines 100-251). The comparison lengths and the cursor increments
are those of the source, also where they differ from the length of the keyword (`"green"`
compared over 4 characters and stepped over by 5, `"specular_power"` compared over 6 and
stepped over by 7). Only the final `else` scans to the next blank or line end. -/
def Property.ParseSemantic (buf : Buf) (p : Nat) : ESemantic × Nat :=
  let r : ESemantic × Nat :=
    if ASSIMP_strincmp buf p "x" 1 == 0 then (EST_XCoord, p + 1)
    else if ASSIMP_strincmp buf p "y" 1 == 0 then (EST_YCoord, p + 1)
    else if ASSIMP_strincmp buf p "z" 1 == 0 then (EST_ZCoord, p + 1)
    else if ASSIMP_strincmp buf p "red" 3 == 0 then (EST_Red, p + 3)
    else if ASSIMP_strincmp buf p "green" 4 == 0 then (EST_Green, p + 5)
    else if ASSIMP_strincmp buf p "blue" 4 == 0 then (EST_Blue, p + 4)
    else if ASSIMP_strincmp buf p "alpha" 5 == 0 then (EST_Alpha, p + 5)
    else if ASSIMP_strincmp buf p "vertex_index" 12 == 0 then (EST_VertexIndex, p + 12)
    else if ASSIMP_strincmp buf p "vertex_indices" 14 == 0 then (EST_VertexIndex, p + 14)
    else if ASSIMP_strincmp buf p "material_index" 14 == 0 then (EST_MaterialIndex, p + 14)
    else if ASSIMP_strincmp buf p "ambient_red" 11 == 0 then (EST_AmbientRed, p + 11)
    else if ASSIMP_strincmp buf p "ambient_green" 13 == 0 then (EST_AmbientGreen, p + 13)
    else if ASSIMP_strincmp buf p "ambient_blue" 12 == 0 then (EST_AmbientBlue, p + 12)
    else if ASSIMP_strincmp buf p "ambient_alpha" 13 == 0 then (EST_AmbientAlpha, p + 13)
    else if ASSIMP_strincmp buf p "diffuse_red" 11 == 0 then (EST_DiffuseRed, p + 11)
    else if ASSIMP_strincmp buf p "diffuse_green" 13 == 0 then (EST_DiffuseGreen, p + 13)
    else if ASSIMP_strincmp buf p "diffuse_blue" 12 == 0 then (EST_DiffuseBlue, p + 12)
    else if ASSIMP_strincmp buf p "diffuse_alpha" 13 == 0 then (EST_DiffuseAlpha, p + 13)
    else if ASSIMP_strincmp buf p "specular_red" 12 == 0 then (EST_SpecularRed, p + 12)
    else if ASSIMP_strincmp buf p "specular_green" 14 == 0 then (EST_SpecularGreen, p + 14)
    else if ASSIMP_strincmp buf p "specular_blue" 13 == 0 then (EST_SpecularBlue, p + 13)
    else if ASSIMP_strincmp buf p "specular_alpha" 14 == 0 then (EST_SpecularAlpha, p + 14)
    else if ASSIMP_strincmp buf p "opacity" 7 == 0 then (EST_Opacity, p + 7)
    else if ASSIMP_strincmp buf p "specular_power" 6 == 0 then (EST_PhongPower, p + 7)
    else if ASSIMP_strincmp buf p "r" 1 == 0 then (EST_Red, p + 1)
    else if ASSIMP_strincmp buf p "g" 1 == 0 then (EST_Green, p + 1)
    else if ASSIMP_strincmp buf p "b" 1 == 0 then (EST_Blue, p + 1)
    else
      (EST_INVALID, scan (fun c => c != 32 && c != 9 && c != 13 && c != 0 && c != 10) buf p)
  if !(IsSpace (peek buf r.2) || IsLineEnd (peek buf r.2)) then (EST_INVALID, r.2) else r

/-- `std::string(szCur, iDiff)`: the `n` bytes from cursor `p` on. -/
def substr (buf : Buf) (p n : Nat) : List Nat := (List.range n).map (fun i => peek buf (p + i))

/-- `Property` (`PlyParser.h`, lines 166-202). The constructor sets `eType`, `bIsList` and
`eFirstType`; `Semantic` is left unset by it (shown here as `EST_INVALID`) and is assigned by
`ParseProperty` on every path that returns true. -/
structure Property where
  eType : EDataType := EDT_Int
  Semantic : ESemantic := EST_INVALID
  szName : List Nat := []
  bIsList : Bool := false
  eFirstType : EDataType := EDT_UChar
  deriving DecidableEq, Repr

/-- The end of `Property::ParseProperty` (lines 306-320), shared by the scalar and the list
form: skip blanks, parse the semantic, keep the name of an unknown one, go to the next line.
`p` is the entry cursor of `ParseProperty` (what `*p_szOut` holds on `return false`), `q` the
cursor after the type keywords. -/
def Property.parseName (buf : Buf) (p q : Nat) (o : Property) : Bool × Nat × Property :=
  let s := SkipSpaces buf q
  if !s.1 then (false, p, o)
  else
    let szCur := s.2
    let sem := Property.ParseSemantic buf szCur
    let o := { o with Semantic := sem.1 }
    let o := if sem.1 = EST_INVALID then
      { o with szName := substr buf szCur (sem.2 - szCur) } else o
    (true, SkipSpacesAndLineEnd buf sem.2, o)

/-- `Property::ParseProperty` (lines 253-321). The result is the return value, `*p_szOut` and
`*pOut`. `*p_szOut` is the entry cursor on the early `return false` paths and the cursor after
the skipped line when a type keyword is invalid. -/
def Property.ParseProperty (buf : Buf) (p : Nat) (pOut : Property) : Bool × Nat × Property :=
  let s1 := SkipSpaces buf p
  if !s1.1 then (false, p, pOut)
  else if ASSIMP_strincmp buf s1.2 "property" 8 != 0 || !IsSpace (peek buf (s1.2 + 8)) then
    (false, p, pOut)
  else
    let s2 := SkipSpaces buf (s1.2 + 9)
    if !s2.1 then (false, p, pOut)
    else if ASSIMP_strincmp buf s2.2 "list" 4 == 0 && IsSpace (peek buf (s2.2 + 4)) then
      let o := { pOut with bIsList := true }
      let t1 := Property.ParseDataType buf (s2.2 + 5)
      let o := { o with eFirstType := t1.1 }
      if t1.1 = EDT_INVALID then (false, (SkipLine buf t1.2).2, o)
      else
        let s3 := SkipSpaces buf t1.2
        if !s3.1 then (false, p, o)
        else
          let t2 := Property.ParseDataType buf s3.2
          let o := { o with eType := t2.1 }
          if t2.1 = EDT_INVALID then (false, (SkipLine buf t2.2).2, o)
          else Property.parseName buf p t2.2 o
    else
      let t := Property.ParseDataType buf s2.2
      let o := { pOut with eType := t.1 }
      if t.1 = EDT_INVALID then (false, (SkipLine buf t.2).2, o)
      else Property.parseName buf p t.2 o

/-- `Element::ParseSemantic` (lines 323-366); the `range_grid` branch is compiled out
(`#if 0`). There is no branch that scans an unknown name: without a match the cursor stays. -/
def Element.ParseSemantic (buf : Buf) (p : Nat) : EElementSemantic × Nat :=
  let r : EElementSemantic × Nat :=
    if ASSIMP_strincmp buf p "vertex" 6 == 0 then (EEST_Vertex, p + 6)
    else if ASSIMP_strincmp buf p "face" 4 == 0 then (EEST_Face, p + 4)
    else if ASSIMP_strincmp buf p "tristrips" 9 == 0 then (EEST_TriStrip, p + 9)
    else if ASSIMP_strincmp buf p "edge" 4 == 0 then (EEST_Edge, p + 4)
    else if ASSIMP_strincmp buf p "material" 8 == 0 then (EEST_Material, p + 8)
    else (EEST_INVALID, p)
  if !(IsSpace (peek buf r.2) || IsLineEnd (peek buf r.2)) then (EEST_INVALID, r.2) else r

/-- `Element` (`PlyParser.h`, lines 210-242). -/
structure Element where
  alProperties : List Property := []
  eSemantic : EElementSemantic := EEST_INVALID
  szName : List Nat := []
  NumOccur : Nat := 0
  deriving DecidableEq, Repr

/-- `DOM::SkipComments` (lines 423-441) with its recursion unrolled at most `n` times. Every
recursive call is made with a cursor further on, and at the end of the buffer the source
returns false as the base case does: from the length of the buffer on the bound makes no
difference (`SkipComments_bound`). The recursive call's return value is dropped by the source,
its cursor is kept. -/
def DOM.SkipCommentsAux : Nat → Buf → Nat → Bool × Nat
  | 0, _, p => (false, p)
  | n + 1, buf, p =>
    let s := SkipSpaces buf p
    if !s.1 then (false, p)
    else if ASSIMP_strincmp buf s.2 "comment" 7 == 0 then
      let q := (SkipLine buf (s.2 + 7)).2
      (true, (DOM.SkipCommentsAux n buf q).2)
    else (false, p)

/-- `DOM::SkipComments`: the return value and `*p_szOut`. -/
def DOM.SkipComments (buf : Buf) (p : Nat) : Bool × Nat := DOM.SkipCommentsAux buf.length buf p

/-- The `while(true)` loop of `Element::ParseElement` (lines 408-418): skip comments, parse a
property into a fresh `Property`, append it, until `ParseProperty` fails. A property that
parses moves the cursor forward and none parses at the end of the buffer, so from the length of
the buffer on the bound `n` makes no difference (`parseProperties_bound`). The result is the
cursor and the properties. -/
def Element.parseProperties : Nat → Buf → Nat → List Property → Nat × List Property
  | 0, _, p, acc => (p, acc)
  | n + 1, buf, p, acc =>
    let q := (DOM.SkipComments buf p).2
    let r := Property.ParseProperty buf q {}
    if !r.1 then (r.2.1, acc)
    else Element.parseProperties n buf r.2.1 (acc ++ [r.2.2])

/-- `Element::ParseElement` (lines 368-421): the return value, `*p_szOut` and `*pOut`. -/
def Element.ParseElement (buf : Buf) (p : Nat) (pOut : Element) : Bool × Nat × Element :=
  let s1 := SkipSpaces buf p
  if !s1.1 then (false, p, pOut)
  else if ASSIMP_strincmp buf s1.2 "element" 7 != 0 || !IsSpace (peek buf (s1.2 + 7)) then
    (false, p, pOut)
  else
    let s2 := SkipSpaces buf (s1.2 + 8)
    if !s2.1 then (false, p, pOut)
    else
      let szCur := s2.2
      let sem := Element.ParseSemantic buf szCur
      let o := { pOut with eSemantic := sem.1 }
      let o := if sem.1 = EEST_INVALID then
        { o with szName := substr buf szCur (sem.2 - szCur) } else o
      let s3 := SkipSpaces buf sem.2
      if !s3.1 then (false, p, o)
      else
        let n := strtol10 buf s3.2
        let o := { o with NumOccur := n.1 }
        let q := SkipSpacesAndLineEnd buf n.2
        let r := Element.parseProperties buf.length buf q o.alProperties
        (true, r.1, { o with alProperties := r.2 })

/-- A slot of a value list: the C++ union `ValueUnion` together with the member that was
written last. Integer payloads are the 32-bit values, floating-point payloads are the IEEE
bit patterns (32 and 64 bits). `unset` is the state of a local `ValueUnion v;` before any
member is written. -/
inductive ValueUnion
  | iUInt (v : Nat)
  | iInt (v : Int)
  | fFloat (bits : Nat)
  | fDouble (bits : Nat)
  | unset
  deriving DecidableEq, Repr

/-- `PropertyInstance` (`PlyParser.h`, lines 247-300). -/
structure PropertyInstance where
  avList : List ValueUnion := []
  deriving DecidableEq, Repr

/-- `ElementInstance` (`PlyParser.h`, lines 305-323). -/
structure ElementInstance where
  alProperties : List PropertyInstance := []
  deriving DecidableEq, Repr

/-- `ElementInstanceList` (`PlyParser.h`, lines 328-351). -/
structure ElementInstanceList where
  alInstances : List ElementInstance := []
  deriving DecidableEq, Repr

/-- `DOM` (`PlyParser.h`, lines 356-388). -/
structure DOM where
  alElements : List Element := []
  alElementData : List ElementInstanceList := []
  deriving DecidableEq, Repr

/-- `DOM::ParseHeader` (lines 443-471). The `while (true)` loop has no bound of its own, so the
model counts its iterations: `none` means that `fuel` iterations did not reach `end_header`.
When an iteration neither parses an element nor finds `end_header`, the cursor is the one
`ParseElement` reported, which is the one it was given. -/
def DOM.ParseHeader : Nat → Buf → Nat → DOM → Option (Bool × Nat × DOM)
  | 0, _, _, _ => none
  | fuel + 1, buf, p, dom =>
    let q := (DOM.SkipComments buf p).2
    let r := Element.ParseElement buf q {}
    if r.1 then
      DOM.ParseHeader fuel buf r.2.1 { dom with alElements := dom.alElements ++ [r.2.2] }
    else if ASSIMP_strincmp buf r.2.1 "end_header" 10 == 0 &&
        IsSpaceOrNewLine (peek buf (r.2.1 + 10)) then
      some (true, SkipSpacesAndLineEnd buf (r.2.1 + 11), dom)
    else DOM.ParseHeader fuel buf r.2.1 dom

/-! ## Values (`PlyParser.h`, lines 255-300 and 414-436; `PlyParser.cpp`, lines 695-874) -/

/-- The floating-point routines the parser calls. `fast_atof_move` is declared in `fast_atof.h`,
which is not part of the sources at hand, and the conversions are those of the C++ language;
the parser is modelled for every choice of them. A `float` or `double` is its bit pattern. -/
structure FloatLib where
  /-- `fast_atof_move(c, out)`: the returned cursor and the `float` stored in `out`. -/
  fast_atof_move : Buf → Nat → Nat × Nat
  /-- The conversion `(double)f`. -/
  toDouble : Nat → Nat
  /-- The conversion `(unsigned int)f` of a `float`. -/
  floatToUInt : Nat → Nat
  /-- The conversion `(unsigned int)d` of a `double`. -/
  doubleToUInt : Nat → Nat

/-- The conversion to `int32_t` (two's complement wrap-around):
`2147483648 = 2^31`, `4294967296 = 2^32`. -/
def toInt32 (x : Int) : Int := (x + 2147483648) % 4294967296 - 2147483648

/-- The conversion to `int16_t`. -/
def toInt16 (x : Int) : Int := (x + 32768) % 65536 - 32768

/-- The conversion to `int8_t`. -/
def toInt8 (x : Int) : Int := (x + 128) % 256 - 128

/-- The conversion to `uint32_t`. -/
def toUInt32 (x : Int) : Nat := (x % 4294967296).toNat

/-- Reading member `iUInt` of the union on a little-endian host. -/
def ValueUnion.getUInt : ValueUnion → Nat
  | .iUInt v => v
  | .iInt v => toUInt32 v
  | .fFloat b => b
  | .fDouble b => b % 4294967296
  | .unset => 0

/-- Reading member `iInt` of the union. -/
def ValueUnion.getInt (v : ValueUnion) : Int := toInt32 v.getUInt

/-- Reading member `fFloat` of the union (bit pattern). -/
def ValueUnion.getFloat (v : ValueUnion) : Nat := v.getUInt

/-- Reading member `fDouble` of the union (bit pattern); after a write to a 4-byte member only
the low half is determined. -/
def ValueUnion.getDouble : ValueUnion → Nat
  | .fDouble b => b
  | v => v.getUInt

/-- `PropertyInstance::ConvertTo<unsigned int>` (`PlyParser.h`, lines 414-436). -/
def PropertyInstance.ConvertTo (F : FloatLib) (v : ValueUnion) (eType : EDataType) : Nat :=
  match eType with
  | EDT_Float => F.floatToUInt v.getFloat
  | EDT_Double => F.doubleToUInt v.getDouble
  | EDT_UInt | EDT_UShort | EDT_UChar => v.getUInt
  | EDT_Int | EDT_Short | EDT_Char => toUInt32 v.getInt
  | EDT_INVALID => 0

/-- `PropertyInstance::DefaultValue` (lines 695-712). -/
def PropertyInstance.DefaultValue (eType : EDataType) : ValueUnion :=
  match eType with
  | EDT_Float => .fFloat 0
  | EDT_Double => .fDouble 0
  | _ => .iUInt 0

/-- `PropertyInstance::ParseValue` (lines 714-767): the return value, `*p_szOut` and `*out`.
The `EDT_Double` case has no `break`: it stores the value and falls through to
`default: return false`, before `*p_szOut` is updated. -/
def PropertyInstance.ParseValue (F : FloatLib) (buf : Buf) (p : Nat) (eType : EDataType)
    (out : ValueUnion) : Bool × Nat × ValueUnion :=
  match eType with
  | EDT_UInt | EDT_UShort | EDT_UChar =>
    let r := strtol10 buf p
    (true, r.2, .iUInt r.1)
  | EDT_Int | EDT_Short | EDT_Char =>
    let bMinus := peek buf p == 45
    let r := strtol10 buf (if bMinus then p + 1 else p)
    let i := toInt32 r.1
    (true, r.2, .iInt (if bMinus then toInt32 (i * -1) else i))
  | EDT_Float =>
    let r := F.fast_atof_move buf p
    (true, r.1, .fFloat r.2)
  | EDT_Double =>
    let r := F.fast_atof_move buf p
    (false, p, .fDouble (F.toDouble r.2))
  | EDT_INVALID => (false, p, out)

/-- An `unsigned char` read at cursor `p`. -/
def u8 (buf : Buf) (p : Nat) : Nat := peek buf p % 256

/-- `*((uint16_t*)p)` on a little-endian host. -/
def load16 (buf : Buf) (p : Nat) : Nat := u8 buf p + 256 * u8 buf (p + 1)

/-- `*((uint32_t*)p)` on a little-endian host. -/
def load32 (buf : Buf) (p : Nat) : Nat :=
  u8 buf p + 256 * u8 buf (p + 1) + 65536 * u8 buf (p + 2) + 16777216 * u8 buf (p + 3)

/-- `*((double*)p)` on a little-endian host, as a bit pattern. -/
def load64 (buf : Buf) (p : Nat) : Nat := load32 buf p + 4294967296 * load32 buf (p + 4)

/-- Byte `i` of the object representation of `x`: `((unsigned char*)&x)[i]`. -/
def byteOf (x i : Nat) : Nat := x / 256 ^ i % 256

/-- The two `std::swap` calls on a 4-byte object: bytes 0 and 3, bytes 1 and 2. -/
def swap32 (x : Nat) : Nat :=
  byteOf x 3 + 256 * byteOf x 2 + 65536 * byteOf x 1 + 16777216 * byteOf x 0

/-- The `std::swap` call on a 2-byte object: bytes 0 and 1. -/
def swap16 (x : Nat) : Nat := byteOf x 1 + 256 * byteOf x 0

/-- `PropertyInstance::ParseValueBinary` (lines 769-874) on a little-endian host: the return
value, `*p_szOut` and `*out`. The cursor increments are those of the source (`p_szIn += 2` in
the `EDT_UChar` case). -/
def PropertyInstance.ParseValueBinary (buf : Buf) (p : Nat) (eType : EDataType)
    (out : ValueUnion) (p_bBE : Bool) : Bool × Nat × ValueUnion :=
  match eType with
  | EDT_UInt =>
    let x := load32 buf p
    (true, p + 4, .iUInt (if p_bBE then swap32 x else x))
  | EDT_UShort =>
    let i := load16 buf p
    let i := if p_bBE then swap16 i else i
    (true, p + 2, .iUInt i)
  | EDT_UChar =>
    let i := u8 buf p
    (true, p + 2, .iUInt i)
  | EDT_Int =>
    let x := load32 buf p
    (true, p + 4, .iInt (toInt32 (if p_bBE then swap32 x else x)))
  | EDT_Short =>
    let i := load16 buf p
    let i := if p_bBE then swap16 i else i
    (true, p + 2, .iInt (toInt16 i))
  | EDT_Char => (true, p + 1, .iInt (toInt8 (u8 buf p)))
  | EDT_Float =>
    let bits :=
      if p_bBE then
        u8 buf (p + 3) + 256 * u8 buf (p + 2) + 65536 * u8 buf (p + 1) + 16777216 * u8 buf p
      else load32 buf p
    (true, p + 4, .fFloat bits)
  | EDT_Double =>
    let bits :=
      if p_bBE then
        u8 buf (p + 7) + 256 * u8 buf (p + 6) + 65536 * u8 buf (p + 5)
          + 16777216 * u8 buf (p + 4) + 4294967296 * u8 buf (p + 3)
          + 1099511627776 * u8 buf (p + 2) + 281474976710656 * u8 buf (p + 1)
          + 72057594037927936 * u8 buf p
      else load64 buf p
    (true, p + 8, .fDouble bits)
  | EDT_INVALID => (false, p, out)

/-! ## Instances (`PlyParser.cpp`, lines 473-693) -/

/-- The list loop of `PropertyInstance::ParseInstance` (lines 643-649), `n` iterations left:
whether the loop ran to its end, the cursor, and the value list. The local `v` is reused
across the iterations. -/
def PropertyInstance.parseListValues (F : FloatLib) (buf : Buf) (eType : EDataType) :
    Nat → Nat → ValueUnion → List ValueUnion → Bool × Nat × List ValueUnion
  | 0, p, _, acc => (true, p, acc)
  | n + 1, p, v, acc =>
    let s := SkipSpaces buf p
    if !s.1 then (false, s.2, acc)
    else
      let r := PropertyInstance.ParseValue F buf s.2 eType v
      PropertyInstance.parseListValues F buf eType n r.2.1 r.2.2 (acc ++ [r.2.2])

/-- `PropertyInstance::ParseInstance` (lines 625-661): the return value, `*p_szOut` and
`*p_pcOut`. The results of `ParseValue` are not looked at. On `return false`, `*p_szOut` is
the entry cursor. -/
def PropertyInstance.ParseInstance (F : FloatLib) (buf : Buf) (p : Nat) (prop : Property)
    (pOut : PropertyInstance) : Bool × Nat × PropertyInstance :=
  let s := SkipSpaces buf p
  if !s.1 then (false, p, pOut)
  else if prop.bIsList then
    let c := PropertyInstance.ParseValue F buf s.2 prop.eFirstType .unset
    let iNum := PropertyInstance.ConvertTo F c.2.2 prop.eFirstType
    let l := PropertyInstance.parseListValues F buf prop.eType iNum c.2.1 c.2.2 pOut.avList
    if !l.1 then (false, p, { avList := l.2.2 })
    else (true, SkipSpacesAndLineEnd buf l.2.1, { avList := l.2.2 })
  else
    let r := PropertyInstance.ParseValue F buf s.2 prop.eType .unset
    (true, SkipSpacesAndLineEnd buf r.2.1, { avList := pOut.avList ++ [r.2.2] })

/-- The list loop of `PropertyInstance::ParseInstanceBinary` (lines 678-682). -/
def PropertyInstance.parseListValuesBinary (buf : Buf) (eType : EDataType) (p_bBE : Bool) :
    Nat → Nat → ValueUnion → List ValueUnion → Nat × List ValueUnion
  | 0, p, _, acc => (p, acc)
  | n + 1, p, v, acc =>
    let r := PropertyInstance.ParseValueBinary buf p eType v p_bBE
    PropertyInstance.parseListValuesBinary buf eType p_bBE n r.2.1 r.2.2 (acc ++ [r.2.2])

/-- `PropertyInstance::ParseInstanceBinary` (lines 663-693). -/
def PropertyInstance.ParseInstanceBinary (F : FloatLib) (buf : Buf) (p : Nat) (prop : Property)
    (pOut : PropertyInstance) (p_bBE : Bool) : Bool × Nat × PropertyInstance :=
  if prop.bIsList then
    let c := PropertyInstance.ParseValueBinary buf p prop.eFirstType .unset p_bBE
    let iNum := PropertyInstance.ConvertTo F c.2.2 prop.eFirstType
    let l := PropertyInstance.parseListValuesBinary buf prop.eType p_bBE iNum c.2.1 c.2.2
      pOut.avList
    (true, l.1, { avList := l.2 })
  else
    let r := PropertyInstance.ParseValueBinary buf p prop.eType .unset p_bBE
    (true, r.2.1, { avList := pOut.avList ++ [r.2.2] })

/-- `std::vector::resize(n)`: cut to `n` entries or fill up with default-constructed ones. -/
def resize {α : Type} (l : List α) (n : Nat) (d : α) : List α :=
  l.take n ++ List.replicate (n - l.length) d

/-- The property loop of `ElementInstance::ParseInstance` (lines 590-600) over the pairs of a
property instance of `*p_pcOut` and its declaration: on a failed property the rest of the line
is skipped and a default value is appended. -/
def ElementInstance.parseProperties (F : FloatLib) (buf : Buf) :
    List (PropertyInstance × Property) → Nat → List PropertyInstance →
      Nat × List PropertyInstance
  | [], p, acc => (p, acc)
  | (i, a) :: rest, p, acc =>
    let r := PropertyInstance.ParseInstance F buf p a i
    if !r.1 then
      let q := (SkipLine buf r.2.1).2
      let v := PropertyInstance.DefaultValue a.eType
      ElementInstance.parseProperties F buf rest q (acc ++ [{ avList := r.2.2.avList ++ [v] }])
    else ElementInstance.parseProperties F buf rest r.2.1 (acc ++ [r.2.2])

/-- `ElementInstance::ParseInstance` (lines 580-603): the return value, `*p_szOut` and
`*p_pcOut`. The first `return false` comes before the `resize` and before any write to
`*p_szOut`. -/
def ElementInstance.ParseInstance (F : FloatLib) (buf : Buf) (p : Nat) (pcElement : Element)
    (pOut : ElementInstance) : Bool × Nat × ElementInstance :=
  let s := SkipSpaces buf p
  if !s.1 then (false, p, pOut)
  else
    let slots := resize pOut.alProperties pcElement.alProperties.length {}
    let r := ElementInstance.parseProperties F buf (slots.zip pcElement.alProperties) s.2 []
    (true, r.1, { alProperties := r.2 })

/-- The property loop of `ElementInstance::ParseInstanceBinary` (lines 613-620). It calls
`PropertyInstance::ParseInstance`, the text routine, as the source does; a failed property
gets a default value appended and nothing is skipped. -/
def ElementInstance.parsePropertiesBinary (F : FloatLib) (buf : Buf) :
    List (PropertyInstance × Property) → Nat → List PropertyInstance →
      Nat × List PropertyInstance
  | [], p, acc => (p, acc)
  | (i, a) :: rest, p, acc =>
    let r := PropertyInstance.ParseInstance F buf p a i
    if !r.1 then
      let v := PropertyInstance.DefaultValue a.eType
      ElementInstance.parsePropertiesBinary F buf rest r.2.1
        (acc ++ [{ avList := r.2.2.avList ++ [v] }])
    else ElementInstance.parsePropertiesBinary F buf rest r.2.1 (acc ++ [r.2.2])

/-- `ElementInstance::ParseInstanceBinary` (lines 605-623); `p_bBE` is not used by the body. -/
def ElementInstance.ParseInstanceBinary (F : FloatLib) (buf : Buf) (p : Nat)
    (pcElement : Element) (pOut : ElementInstance) (_p_bBE : Bool) :
    Bool × Nat × ElementInstance :=
  let slots := resize pOut.alProperties pcElement.alProperties.length {}
  let r := ElementInstance.parsePropertiesBinary F buf (slots.zip pcElement.alProperties) p []
  (true, r.1, { alProperties := r.2 })

/-- The loop of `ParseInstanceList` for an element of unknown semantic (lines 538-542). -/
def ElementInstanceList.skipLines (buf : Buf) : Nat → Nat → Nat
  | 0, p => p
  | n + 1, p =>
    ElementInstanceList.skipLines buf n (SkipLine buf (DOM.SkipComments buf p).2).2

/-- The loop of `ParseInstanceList` for a known element (lines 548-556), `n` iterations left,
`i` the index written next. -/
def ElementInstanceList.parseInstances (F : FloatLib) (buf : Buf) (pcElement : Element) :
    Nat → Nat → Nat → List ElementInstance → Nat × List ElementInstance
  | 0, _, p, l => (p, l)
  | n + 1, i, p, l =>
    let q := (DOM.SkipComments buf p).2
    let r := ElementInstance.ParseInstance F buf q pcElement {}
    ElementInstanceList.parseInstances F buf pcElement n (i + 1) r.2.1 (l.set i r.2.2)

/-- `ElementInstanceList::ParseInstanceList` (lines 531-560). -/
def ElementInstanceList.ParseInstanceList (F : FloatLib) (buf : Buf) (p : Nat)
    (pcElement : Element) (pOut : ElementInstanceList) : Bool × Nat × ElementInstanceList :=
  if pcElement.eSemantic = EEST_INVALID then
    (true, ElementInstanceList.skipLines buf pcElement.NumOccur p, pOut)
  else
    let l := resize pOut.alInstances pcElement.NumOccur {}
    let r := ElementInstanceList.parseInstances F buf pcElement pcElement.NumOccur 0 p l
    (true, r.1, { alInstances := r.2 })

/-- The outcome of code that may write past the end of a `std::vector`. -/
inductive Checked (α : Type)
  | done (a : α)
  | outOfBounds
  deriving DecidableEq, Repr

/-- The loop of `ParseInstanceListBinary` (lines 569-575): `alInstances[i] = out` is checked
against the size of the vector, which this routine never changes. -/
def ElementInstanceList.parseInstancesBinary (F : FloatLib) (buf : Buf) (pcElement : Element)
    (p_bBE : Bool) : Nat → Nat → Nat → List ElementInstance →
      Checked (Nat × List ElementInstance)
  | 0, _, p, l => .done (p, l)
  | n + 1, i, p, l =>
    let r := ElementInstance.ParseInstanceBinary F buf p pcElement {} p_bBE
    if i < l.length then
      ElementInstanceList.parseInstancesBinary F buf pcElement p_bBE n (i + 1) r.2.1
        (l.set i r.2.2)
    else .outOfBounds

/-- `ElementInstanceList::ParseInstanceListBinary` (lines 562-578). -/
def ElementInstanceList.ParseInstanceListBinary (F : FloatLib) (buf : Buf) (p : Nat)
    (pcElement : Element) (pOut : ElementInstanceList) (p_bBE : Bool) :
    Checked (Bool × Nat × ElementInstanceList) :=
  match ElementInstanceList.parseInstancesBinary F buf pcElement p_bBE pcElement.NumOccur 0 p
      pOut.alInstances with
  | .done r => .done (true, r.1, { alInstances := r.2 })
  | .outOfBounds => .outOfBounds

/-- The constructor `ElementInstanceList(const Element* pc)`: `reserve` allots storage and
leaves the vector empty. -/
def ElementInstanceList.mk_reserved (_pc : Element) : ElementInstanceList := {}

/-- The loop of `DOM::ParseElementInstanceLists` (lines 481-485) over the pairs of an element
and its slot in `alElementData`; the slot is overwritten before it is parsed into. -/
def DOM.parseLists (F : FloatLib) (buf : Buf) :
    List (Element × ElementInstanceList) → Nat → List ElementInstanceList →
      Nat × List ElementInstanceList
  | [], p, acc => (p, acc)
  | (i, _) :: rest, p, acc =>
    let r := ElementInstanceList.ParseInstanceList F buf p i (ElementInstanceList.mk_reserved i)
    DOM.parseLists F buf rest r.2.1 (acc ++ [r.2.2])

/-- `DOM::ParseElementInstanceLists` (lines 473-487): the return value and `*this`. -/
def DOM.ParseElementInstanceLists (F : FloatLib) (buf : Buf) (p : Nat) (dom : DOM) :
    Bool × DOM :=
  let slots := resize dom.alElementData dom.alElements.length {}
  let r := DOM.parseLists F buf (dom.alElements.zip slots) p []
  (true, { dom with alElementData := r.2 })

/-- The loop of `DOM::ParseElementInstanceListsBinary` (lines 497-501). -/
def DOM.parseListsBinary (F : FloatLib) (buf : Buf) (p_bBE : Bool) :
    List (Element × ElementInstanceList) → Nat → List ElementInstanceList →
      Checked (Nat × List ElementInstanceList)
  | [], p, acc => .done (p, acc)
  | (i, _) :: rest, p, acc =>
    match ElementInstanceList.ParseInstanceListBinary F buf p i
        (ElementInstanceList.mk_reserved i) p_bBE with
    | .done r => DOM.parseListsBinary F buf p_bBE rest r.2.1 (acc ++ [r.2.2])
    | .outOfBounds => .outOfBounds

/-- `DOM::ParseElementInstanceListsBinary` (lines 489-503). -/
def DOM.ParseElementInstanceListsBinary (F : FloatLib) (buf : Buf) (p : Nat) (dom : DOM)
    (p_bBE : Bool) : Checked (Bool × DOM) :=
  let slots := resize dom.alElementData dom.alElements.length {}
  match DOM.parseListsBinary F buf p_bBE (dom.alElements.zip slots) p [] with
  | .done r => .done (true, { dom with alElementData := r.2 })
  | .outOfBounds => .outOfBounds

/-- `DOM::ParseInstanceBinary` (lines 505-516): `none` when the header loop does not end within
`fuel` iterations. -/
def DOM.ParseInstanceBinary (F : FloatLib) (fuel : Nat) (buf : Buf) (p : Nat) (p_pcOut : DOM)
    (p_bBE : Bool) : Option (Checked (Bool × DOM)) :=
  match DOM.ParseHeader fuel buf p p_pcOut with
  | none => none
  | some h =>
    if !h.1 then some (.done (false, h.2.2))
    else
      match DOM.ParseElementInstanceListsBinary F buf h.2.1 h.2.2 p_bBE with
      | .outOfBounds => some .outOfBounds
      | .done r => some (.done (if !r.1 then (false, r.2) else (true, r.2)))

/-- `DOM::ParseInstance` (lines 518-529): `none` when the header loop does not end within
`fuel` iterations. -/
def DOM.ParseInstance (F : FloatLib) (fuel : Nat) (buf : Buf) (p : Nat) (p_pcOut : DOM) :
    Option (Bool × DOM) :=
  match DOM.ParseHeader fuel buf p p_pcOut with
  | none => none
  | some h =>
    if !h.1 then some (false, h.2.2)
    else
      let r := DOM.ParseElementInstanceLists F buf h.2.1 h.2.2
      some (if !r.1 then (false, r.2) else (true, r.2))

/-! ## Inputs and reference definitions used in the statements below -/

/-- The header with a `vertex` element (4 occurrences, float `x`, `y`, `z`) and a `face`
element (2 occurrences, a `uchar`-counted list of `int` named `vertex_index`). -/
def header_vertex_face : Buf :=
  bytes ("element vertex 4\nproperty float x\nproperty float y\nproperty float z\n" ++
    "element face 2\nproperty list uchar int vertex_index\nend_header\n")

/-- A binary file: one `vertex` with one `int` property, followed by the value 7 as four
little-endian bytes. -/
def file_int_seven : Buf :=
  bytes "element vertex 1\nproperty int x\nend_header\n" ++ [7, 0, 0, 0]

/-- A header whose first element has a name that is not a known element name. -/
def header_blob : Buf :=
  bytes ("element blob 5\nproperty float x\n" ++
    "element vertex 1\nproperty float x\nend_header\n")

/-- ASCII `toupper`. -/
def toUpper (c : Nat) : Nat := if 97 ≤ c ∧ c ≤ 122 then c - 32 else c

/-- The type keywords other than `float64`, each with the tag the comments and the branches of
`ParseDataType` give it. -/
def typeKeywords : List (String × EDataType) :=
  [ ("char", EDT_Char), ("int8", EDT_Char), ("uchar", EDT_UChar), ("uint8", EDT_UChar),
    ("short", EDT_Short), ("int16", EDT_Short), ("ushort", EDT_UShort), ("uint16", EDT_UShort),
    ("int32", EDT_Int), ("int", EDT_Int), ("uint32", EDT_UInt), ("uint", EDT_UInt),
    ("float32", EDT_Float), ("float", EDT_Float), ("double64", EDT_Double),
    ("double", EDT_Double) ]

/-- The byte widths of the table in `PlyParser.h`, lines 25-40. -/
def width : EDataType → Nat
  | EDT_Char | EDT_UChar => 1
  | EDT_Short | EDT_UShort => 2
  | EDT_Int | EDT_UInt | EDT_Float => 4
  | EDT_Double => 8
  | EDT_INVALID => 0

/-- The value of a byte sequence read little-endian: the first byte is the least
significant. -/
def littleEndian : List Nat → Nat
  | [] => 0
  | b :: bs => b + 256 * littleEndian bs

/-- The value of a byte sequence read big-endian: the first byte is the most significant. -/
def bigEndian (bs : List Nat) : Nat := littleEndian bs.reverse

/-- The signed value of the `w`-bit pattern `x` (two's complement), which is what sign
extension to a wider signed type preserves. -/
def signExtend (w x : Nat) : Int := if x < 2 ^ (w - 1) then (x : Int) else (x : Int) - 2 ^ w

/-- The `n` bytes at the cursor. -/
def bytesAt (buf : Buf) (p n : Nat) : List Nat := (List.range n).map (fun i => u8 buf (p + i))

/-- A float library for texts without floating-point fields: `fast_atof_move` reads nothing. -/
def noFloats : FloatLib :=
  { fast_atof_move := fun _ p => (p, 0), toDouble := id, floatToUInt := id, doubleToUInt := id }

/-- A header with CR LF line ends. -/
def header_crlf : Buf :=
  bytes "element vertex 1\r\nproperty float x\r\nend_header\r\n"

/-- The header `header_crlf` with a comment line in front. -/
def header_crlf_comment : Buf :=
  bytes "comment made by hand\r\nelement vertex 1\r\nproperty float x\r\nend_header\r\n"

/-- The same header and comment line with LF line ends. -/
def header_lf_comment : Buf :=
  bytes "comment made by hand\nelement vertex 1\nproperty float x\nend_header\n"

/-- A header with LF line ends. -/
def header_lf : Buf :=
  bytes "element vertex 1\nproperty float x\nend_header\n"

/-- A header that starts with a line that is no comment, element, property or `end_header`. -/
def header_obj_info : Buf :=
  bytes "obj_info made by hand\nelement vertex 1\nproperty float x\nend_header\n"

/-- The keywords of `Property::ParseSemantic` other than `specular_power`, each with the tag of
its branch. -/
def semanticKeywords : List (String × ESemantic) :=
  [ ("x", EST_XCoord), ("y", EST_YCoord), ("z", EST_ZCoord), ("red", EST_Red),
    ("green", EST_Green), ("blue", EST_Blue), ("alpha", EST_Alpha),
    ("vertex_index", EST_VertexIndex), ("vertex_indices", EST_VertexIndex),
    ("material_index", EST_MaterialIndex), ("ambient_red", EST_AmbientRed),
    ("ambient_green", EST_AmbientGreen), ("ambient_blue", EST_AmbientBlue),
    ("ambient_alpha", EST_AmbientAlpha), ("diffuse_red", EST_DiffuseRed),
    ("diffuse_green", EST_DiffuseGreen), ("diffuse_blue", EST_DiffuseBlue),
    ("diffuse_alpha", EST_DiffuseAlpha), ("specular_red", EST_SpecularRed),
    ("specular_green", EST_SpecularGreen), ("specular_blue", EST_SpecularBlue),
    ("specular_alpha", EST_SpecularAlpha), ("opacity", EST_Opacity), ("r", EST_Red),
    ("g", EST_Green), ("b", EST_Blue) ]

/-- The comparisons of the branches of `Property::ParseDataType`: keyword and length. -/
def typeBranches : List (String × Nat) :=
  [ ("char", 4), ("int8", 4), ("uchar", 5), ("uint8", 5), ("short", 5), ("int16", 5),
    ("ushort", 6), ("uint16", 6), ("int32", 5), ("uint32", 6), ("int", 3), ("uint", 4),
    ("float32", 7), ("float", 5), ("float64", 7), ("double64", 8), ("double", 6) ]

/-- The value of a string of decimal digits. -/
def digitsValue (d : List Nat) : Nat := d.foldl (fun v c => v * 10 + (c - 48)) 0

/-- The element names with the tag of their branch in `Element::ParseSemantic`. -/
def elementKeywords : List (String × EElementSemantic) :=
  [ ("vertex", EEST_Vertex), ("face", EEST_Face), ("tristrips", EEST_TriStrip),
    ("edge", EEST_Edge), ("material", EEST_Material) ]

/-- The unsigned integer types. -/
def isUnsignedType (eType : EDataType) : Bool :=
  eType == EDT_UInt || eType == EDT_UShort || eType == EDT_UChar

/-- The signed integer types. -/
def isSignedType (eType : EDataType) : Bool :=
  eType == EDT_Int || eType == EDT_Short || eType == EDT_Char

/-- The text of a decimal integer, given as a minus sign (or none) and a digit string. -/
def numText (x : Bool × List Nat) : List Nat := (if x.1 then [45] else []) ++ x.2

/-- A decimal integer that is well formed for a property of type `eType`: a non-empty string
of digits, with a magnitude of at most `2^31 - 1` for a signed type, and without sign and
below `2^32` for an unsigned type. -/
def wellFormedNumber (eType : EDataType) (x : Bool × List Nat) : Prop :=
  x.2 ≠ [] ∧ (∀ c ∈ x.2, isDigit c = true) ∧
  ((isSignedType eType = true ∧ digitsValue x.2 ≤ 2147483647) ∨
   (isUnsignedType eType = true ∧ x.1 = false ∧ digitsValue x.2 < 4294967296))

/-- The value a decimal integer stands for, in the payload of its type. -/
def numberValue (eType : EDataType) (x : Bool × List Nat) : ValueUnion :=
  if isUnsignedType eType then .iUInt (digitsValue x.2)
  else .iInt (if x.1 then -(digitsValue x.2 : Int) else digitsValue x.2)

/-- Blank, tab, CR or LF: what `SkipSpacesAndLineEnd` steps over. -/
def isBlank (c : Nat) : Bool := c == 32 || c == 9 || c == 13 || c == 10

/-- A separator or a line end: a non-empty text of blanks, tabs, CR and LF. -/
def isBlankText (s : List Nat) : Prop := s ≠ [] ∧ ∀ c ∈ s, isBlank c = true

/-- A data line: the numbers with the separator `sep` between them and the line end `eol`
after the last one. -/
def renderLine (sep eol : List Nat) : List (Bool × List Nat) → List Nat
  | [] => eol
  | x :: xs => numText x ++ ((if xs.isEmpty then [] else sep) ++ renderLine sep eol xs)

/-- The lines of one element. -/
def renderLines (sep eol : List Nat) : List (List (Bool × List Nat)) → List Nat
  | [] => []
  | l :: ls => renderLine sep eol l ++ renderLines sep eol ls

/-- A data section: the lines of every element, in the order of the elements. -/
def renderData (sep eol : List Nat) : List (List (List (Bool × List Nat))) → List Nat
  | [] => []
  | e :: es => renderLines sep eol e ++ renderData sep eol es

/-- The element instance a data line stands for: one value per declared property. -/
def expectedInstance (props : List Property) (line : List (Bool × List Nat)) :
    ElementInstance :=
  { alProperties := List.zipWith (fun a x => { avList := [numberValue a.eType x] }) props line }

/-- The instance list the lines of an element stand for. -/
def expectedList (el : Element) (lines : List (List (Bool × List Nat))) :
    ElementInstanceList :=
  { alInstances := lines.map (expectedInstance el.alProperties) }

/-- The lines of a recognized element with scalar integer properties: as many lines as the
element occurs, each with one well-formed number per declared property. -/
def wellFormedLines (el : Element) (lines : List (List (Bool × List Nat))) : Prop :=
  el.eSemantic ≠ EEST_INVALID ∧ lines.length = el.NumOccur ∧
  ∀ line ∈ lines,
    List.Forall₂ (fun a x => a.bIsList = false ∧ wellFormedNumber a.eType x)
      el.alProperties line

/-- A text without its leading blanks and line ends. -/
def strip (s : List Nat) : List Nat := s.dropWhile isBlank

/-- The next text that is no blank and no line end does not start with `c` or `C`. -/
def okHead (s : List Nat) : Prop := toLower ((strip s).headD 0) ≠ 99

/-- A file with two elements and three data lines. -/
def file_two_elements : Buf :=
  bytes ("element vertex 2\nproperty int x\nproperty uchar y\nelement face 1\n" ++
    "property short a\nend_header\n-5 200\n7 0\n-40000\n")

/-- The declarations of `file_two_elements`. -/
def dom_two_elements : DOM :=
  { alElements :=
      [ { eSemantic := EEST_Vertex, NumOccur := 2,
          alProperties := [ { eType := EDT_Int, Semantic := EST_XCoord },
                            { eType := EDT_UChar, Semantic := EST_YCoord } ] },
        { eSemantic := EEST_Face, NumOccur := 1,
          alProperties := [ { eType := EDT_Short, szName := bytes "a" } ] } ] }

/-- The numbers of the data section of `file_two_elements`. -/
def data_two_elements : List (List (List (Bool × List Nat))) :=
  [ [ [(true, bytes "5"), (false, bytes "200")], [(false, bytes "7"), (false, bytes "0")] ],
    [ [(true, bytes "40000")] ] ]

/-- Three data lines with CR LF line ends. -/
def data_crlf : Buf := bytes "1 2 3\r\n4 5 6\r\n7\r\n"

/-- The same three data lines with LF line ends. -/
def data_lf : Buf := bytes "1 2 3\n4 5 6\n7\n"

/-- The same three data lines with CR line ends. -/
def data_cr : Buf := bytes "1 2 3\r4 5 6\r7\r"

/-- A header whose second property line has an unknown type keyword. -/
def header_bad_type : Buf :=
  bytes "element vertex 1\nproperty float x\nproperty foo q\nproperty float z\nend_header\n"

/-- The header `header_bad_type` without the bad line. -/
def header_good_types : Buf :=
  bytes "element vertex 1\nproperty float x\nproperty float z\nend_header\n"

/-- A header (43 bytes, LF line ends) for one `vertex` with one `int` property. -/
def header_int : Buf := bytes "element vertex 1\nproperty int x\nend_header\n"

/-- The header `header_int` with CR LF line ends (46 bytes). -/
def header_int_crlf : Buf := bytes "element vertex 1\r\nproperty int x\r\nend_header\r\n"

/-- Two data lines, the first with one value only. -/
def data_short_line : Buf := bytes "1\n2 3\n"

/-- Two data lines with two values each. -/
def data_full_lines : Buf := bytes "1 2\n3 4\n"

/-- A `vertex` element with two occurrences and two `int` properties. -/
def element_two_ints : Element :=
  { eSemantic := EEST_Vertex, NumOccur := 2,
    alProperties := [{ eType := EDT_Int }, { eType := EDT_Int }] }

/-- A header that ends inside the property name `gree`, without a line end (36 bytes). -/
def header_gree : Buf := bytes "element vertex 1\nproperty float gree"

/-- A header that ends with `end_header`, without a line end (44 bytes). -/
def header_no_eol : Buf := bytes "element vertex 1\nproperty float x\nend_header"

/-- What `ParseHeader` guarantees of a property declaration: a valid value type, and a valid
count type when it is a list. -/
def validDeclaration (a : Property) : Prop :=
  a.eType ≠ EDT_INVALID ∧ (a.bIsList = true → a.eFirstType ≠ EDT_INVALID)

/-- The declarations of `header_vertex_face`. -/
def dom_vertex_face : DOM :=
  { alElements :=
      [ { eSemantic := EEST_Vertex, NumOccur := 4,
          alProperties :=
            [ { eType := EDT_Float, Semantic := EST_XCoord },
              { eType := EDT_Float, Semantic := EST_YCoord },
              { eType := EDT_Float, Semantic := EST_ZCoord } ] },
        { eSemantic := EEST_Face, NumOccur := 2,
          alProperties :=
            [ { eType := EDT_Int, Semantic := EST_VertexIndex, bIsList := true,
                eFirstType := EDT_UChar } ] } ] }

/-- A property declaration that a call of `ParseProperty` on a fresh `Property` accepted. -/
def declaredBy (buf : Buf) (a : Property) : Prop :=
  ∃ q : Nat, (Property.ParseProperty buf q {}).1 = true ∧
    (Property.ParseProperty buf q {}).2.2 = a

/-- A list property with a `uchar` count and `int` values. -/
def list_uchar_int : Property := { eType := EDT_Int, bIsList := true, eFirstType := EDT_UChar }

/-- A `face` element with one occurrence and the list property `list_uchar_int`. -/
def element_one_list : Element :=
  { eSemantic := EEST_Face, NumOccur := 1, alProperties := [list_uchar_int] }

/-- A `vertex` element with one occurrence and two `int` properties. -/
def element_one_two_ints : Element :=
  { eSemantic := EEST_Vertex, NumOccur := 1,
    alProperties := [{ eType := EDT_Int }, { eType := EDT_Int }] }

/-- A list line that announces three values and holds two, followed by another line. -/
def data_list_short : Buf := bytes "3 1 2\n4 5 6 7\n"

/-- A data section that ends after one value, without a line end (2 bytes, NUL at index 2). -/
def data_one_value : Buf := bytes "1 "

/-- The values the list loop of the text routine reads before the line ends, at most `n`: each
value stands behind optional blanks and tabs and is read by `ParseValue` into the slot that
holds `v`; the reading ends where a line end (CR, LF or NUL) stands in place of the next
value. -/
def listValuesRead (F : FloatLib) (buf : Buf) (eType : EDataType) :
    Nat → Nat → ValueUnion → List ValueUnion
  | 0, _, _ => []
  | n + 1, p, v =>
    if IsLineEnd (peek buf (SkipSpaces buf p).2) then []
    else
      let r := PropertyInstance.ParseValue F buf (SkipSpaces buf p).2 eType v
      r.2.2 :: listValuesRead F buf eType n r.2.1 r.2.2

/-- Whether the line ends before `n` list values are read. -/
def listEndsEarly (F : FloatLib) (buf : Buf) (eType : EDataType) :
    Nat → Nat → ValueUnion → Bool
  | 0, _, _ => false
  | n + 1, p, v =>
    if IsLineEnd (peek buf (SkipSpaces buf p).2) then true
    else
      let r := PropertyInstance.ParseValue F buf (SkipSpaces buf p).2 eType v
      listEndsEarly F buf eType n r.2.1 r.2.2

/-- Whether the line ends before the text of property `a`, which starts at `p`, is complete:
in front of its first number (behind blanks and tabs), or, for a list, before as many values
as its count says were read. -/
def endsEarly (F : FloatLib) (buf : Buf) (p : Nat) (a : Property) : Bool :=
  IsLineEnd (peek buf (SkipSpaces buf p).2) ||
    (a.bIsList &&
      listEndsEarly F buf a.eType
        (PropertyInstance.ConvertTo F
          (PropertyInstance.ParseValue F buf (SkipSpaces buf p).2 a.eFirstType .unset).2.2
          a.eFirstType)
        (PropertyInstance.ParseValue F buf (SkipSpaces buf p).2 a.eFirstType .unset).2.1
        (PropertyInstance.ParseValue F buf (SkipSpaces buf p).2 a.eFirstType .unset).2.2)

/-- The list values of property `a`, which starts at `p`, that are read before the line ends:
none for a scalar property and when the line ends in front of the count. -/
def valuesReadBefore (F : FloatLib) (buf : Buf) (p : Nat) (a : Property) : List ValueUnion :=
  if IsLineEnd (peek buf (SkipSpaces buf p).2) || !a.bIsList then []
  else
    listValuesRead F buf a.eType
      (PropertyInstance.ConvertTo F
        (PropertyInstance.ParseValue F buf (SkipSpaces buf p).2 a.eFirstType .unset).2.2
        a.eFirstType)
      (PropertyInstance.ParseValue F buf (SkipSpaces buf p).2 a.eFirstType .unset).2.1
      (PropertyInstance.ParseValue F buf (SkipSpaces buf p).2 a.eFirstType .unset).2.2

/-- A text file whose only property is named `radius`. -/
def file_int_radius : Buf := bytes "element vertex 1\nproperty int radius\nend_header\n5\n"

/-- The same file with the property named `x`. -/
def file_int_x : Buf := bytes "element vertex 1\nproperty int x\nend_header\n5\n"

/-- The same file with the property named `specular_power`. -/
def file_int_specular_power : Buf :=
  bytes "element vertex 1\nproperty int specular_power\nend_header\n5\n"

/-- The file `file_int_x` with CR LF line ends and a comment line in front. -/
def file_int_crlf_comment : Buf :=
  bytes "comment made by hand\r\nelement vertex 1\r\nproperty int x\r\nend_header\r\n5\r\n"

/-- A list line that holds the count 3 and no value, followed by another line. -/
def data_count_only : Buf := bytes "3\n4 5 6 7\n"

theorem u8_lt (buf : Buf) (p : Nat) : u8 buf p < 256 := Nat.mod_lt _ (by decide)

theorem toInt32_eq_signExtend (x : Nat) (h : x < 4294967296) :
    toInt32 (x : Int) = signExtend 32 x := by
  unfold toInt32 signExtend
  norm_num
  split_ifs <;> omega

theorem toInt16_eq_signExtend (x : Nat) (h : x < 65536) :
    toInt16 (x : Int) = signExtend 16 x := by
  unfold toInt16 signExtend
  norm_num
  split_ifs <;> omega

theorem toInt8_eq_signExtend (x : Nat) (h : x < 256) :
    toInt8 (x : Int) = signExtend 8 x := by
  unfold toInt8 signExtend
  norm_num
  split_ifs <;> omega

theorem swap32_bytes (b0 b1 b2 b3 : Nat) (h0 : b0 < 256) (h1 : b1 < 256) (h2 : b2 < 256)
    (h3 : b3 < 256) :
    swap32 (b0 + 256 * b1 + 65536 * b2 + 16777216 * b3)
      = b3 + 256 * b2 + 65536 * b1 + 16777216 * b0 := by
  have e0 : (b0 + 256 * b1 + 65536 * b2 + 16777216 * b3) / 256 ^ 0 % 256 = b0 := by
    norm_num; omega
  have e1 : (b0 + 256 * b1 + 65536 * b2 + 16777216 * b3) / 256 ^ 1 % 256 = b1 := by
    norm_num; omega
  have e2 : (b0 + 256 * b1 + 65536 * b2 + 16777216 * b3) / 256 ^ 2 % 256 = b2 := by
    norm_num; omega
  have e3 : (b0 + 256 * b1 + 65536 * b2 + 16777216 * b3) / 256 ^ 3 % 256 = b3 := by
    norm_num; omega
  simp only [swap32, byteOf, e0, e1, e2, e3]

theorem swap16_bytes (b0 b1 : Nat) (h0 : b0 < 256) (h1 : b1 < 256) :
    swap16 (b0 + 256 * b1) = b1 + 256 * b0 := by
  have f0 : (b0 + 256 * b1) / 256 ^ 0 % 256 = b0 := by norm_num; omega
  have f1 : (b0 + 256 * b1) / 256 ^ 1 % 256 = b1 := by norm_num; omega
  simp only [swap16, byteOf, f0, f1]

theorem bytesAt_two (buf : Buf) (p : Nat) : bytesAt buf p 2 = [u8 buf p, u8 buf (p + 1)] := rfl

theorem bytesAt_four (buf : Buf) (p : Nat) :
    bytesAt buf p 4 = [u8 buf p, u8 buf (p + 1), u8 buf (p + 2), u8 buf (p + 3)] := rfl

theorem takeWhile_drop_stop (f : Nat → Bool) (buf : Buf) (p : Nat)
    (h : f (peek buf p) = false) : (buf.drop p).takeWhile f = [] := by
  cases hd : buf.drop p with
  | nil => rfl
  | cons c t =>
    have hc : peek buf p = c := by
      have h1 : (buf.drop p).head? = some c := by rw [hd]; rfl
      rw [List.head?_drop] at h1
      simp [peek, List.getD_eq_getElem?_getD, h1]
    rw [hc] at h
    simp [List.takeWhile, h]

theorem scan_stop (f : Nat → Bool) (buf : Buf) (p : Nat) (h : f (peek buf p) = false) :
    scan f buf p = p := by
  simp [scan, takeWhile_drop_stop f buf p h]

theorem strtol10_stop (buf : Buf) (p : Nat) (h : isDigit (peek buf p) = false) :
    strtol10 buf p = (0, p) := by
  simp [strtol10, takeWhile_drop_stop isDigit buf p h]

theorem le_scan (f : Nat → Bool) (buf : Buf) (p : Nat) : p ≤ scan f buf p :=
  Nat.le_add_right _ _

theorem le_SkipSpaces (buf : Buf) (p : Nat) : p ≤ (SkipSpaces buf p).2 :=
  le_scan _ buf p

theorem le_SkipLine (buf : Buf) (p : Nat) : p ≤ (SkipLine buf p).2 := by
  have := le_scan (fun c => c != 13 && c != 10 && c != 0) buf p
  simp only [SkipLine]
  split_ifs <;> simp only <;> omega

theorem peek_of_length_le (buf : Buf) (p : Nat) (h : buf.length ≤ p) : peek buf p = 0 := by
  simp [peek, List.getD_eq_getElem?_getD, List.getElem?_eq_none h]

theorem SkipSpaces_of_length_le (buf : Buf) (p : Nat) (h : buf.length ≤ p) :
    SkipSpaces buf p = (false, p) := by
  have h0 := peek_of_length_le buf p h
  have h1 : scan (fun c => c == 32 || c == 9) buf p = p := scan_stop _ buf p (by simp [h0])
  simp [SkipSpaces, h1, h0, IsLineEnd]

/-- The bound of `SkipCommentsAux` is never what ends the recursion: from the number of bytes
left on, a larger bound gives the same result. -/
theorem SkipCommentsAux_succ (buf : Buf) :
    ∀ (n p : Nat), buf.length ≤ n + p →
      DOM.SkipCommentsAux (n + 1) buf p = DOM.SkipCommentsAux n buf p := by
  have e : ∀ m q, DOM.SkipCommentsAux (m + 1) buf q =
      if !(SkipSpaces buf q).1 then (false, q)
      else if ASSIMP_strincmp buf (SkipSpaces buf q).2 "comment" 7 == 0 then
        (true, (DOM.SkipCommentsAux m buf (SkipLine buf ((SkipSpaces buf q).2 + 7)).2).2)
      else (false, q) := fun _ _ => rfl
  intro n
  induction n with
  | zero =>
    intro p h
    simp [DOM.SkipCommentsAux, SkipSpaces_of_length_le buf p (by omega)]
  | succ n ih =>
    intro p h
    have h1 := le_SkipSpaces buf p
    have h2 := le_SkipLine buf ((SkipSpaces buf p).2 + 7)
    rw [e (n + 1) p, e n p, ih _ (by omega)]

theorem le_SkipComments (buf : Buf) (p : Nat) : p ≤ (DOM.SkipComments buf p).2 := by
  have key : ∀ (n p : Nat), p ≤ (DOM.SkipCommentsAux n buf p).2 := by
    intro n
    induction n with
    | zero => intro p; simp [DOM.SkipCommentsAux]
    | succ n ih =>
      intro p
      have h1 := le_SkipSpaces buf p
      have h2 := le_SkipLine buf ((SkipSpaces buf p).2 + 7)
      have h4 := ih (SkipLine buf ((SkipSpaces buf p).2 + 7)).2
      simp only [DOM.SkipCommentsAux]
      split_ifs <;> simp only <;> omega
  exact key _ p

theorem SkipComments_of_length_le (buf : Buf) (p : Nat) (h : buf.length ≤ p) :
    DOM.SkipComments buf p = (false, p) := by
  unfold DOM.SkipComments
  cases hn : buf.length with
  | zero => rfl
  | succ k => simp [DOM.SkipCommentsAux, SkipSpaces_of_length_le buf p h]

theorem le_ite_snd {α : Type} (p : Nat) (c : Prop) [Decidable c] (a b : α × Nat)
    (ha : p ≤ a.2) (hb : p ≤ b.2) : p ≤ (if c then a else b).2 := by
  split_ifs <;> assumption

theorem le_ParseDataType (buf : Buf) (p : Nat) : p ≤ (Property.ParseDataType buf p).2 := by
  unfold Property.ParseDataType
  show p ≤ Prod.snd (ite _ _ _ : EDataType × Nat)
  apply le_ite_snd <;> dsimp only <;>
    repeat' (first
      | exact Nat.le_add_right _ _
      | exact Nat.le_refl _
      | apply le_ite_snd)

theorem le_ParseSemantic (buf : Buf) (p : Nat) : p ≤ (Property.ParseSemantic buf p).2 := by
  unfold Property.ParseSemantic
  show p ≤ Prod.snd (ite _ _ _ : ESemantic × Nat)
  apply le_ite_snd <;> dsimp only <;>
    repeat' (first
      | exact Nat.le_add_right _ _
      | exact Nat.le_refl _
      | exact le_scan _ _ _
      | apply le_ite_snd)

theorem le_SkipSpacesAndLineEnd (buf : Buf) (p : Nat) : p ≤ SkipSpacesAndLineEnd buf p :=
  le_scan _ buf p


theorem le_parseName (buf : Buf) (p q : Nat) (o : Property)
    (h : (Property.parseName buf p q o).1 = true) : q ≤ (Property.parseName buf p q o).2.1 := by
  have h1 := le_SkipSpaces buf q
  have h2 := le_ParseSemantic buf (SkipSpaces buf q).2
  have h3 := le_SkipSpacesAndLineEnd buf (Property.ParseSemantic buf (SkipSpaces buf q).2).2
  simp only [Property.parseName] at h ⊢
  split_ifs at h ⊢ <;> first
    | (simp at h; done)
    | (simp only; omega)

/-- A property line that parses moves the cursor forward. -/
theorem lt_ParseProperty (buf : Buf) (p : Nat) (pOut : Property)
    (h : (Property.ParseProperty buf p pOut).1 = true) :
    p < (Property.ParseProperty buf p pOut).2.1 := by
  have h0 := le_SkipSpaces buf p
  have h1 := le_SkipSpaces buf ((SkipSpaces buf p).2 + 9)
  have h2 := le_ParseDataType buf (SkipSpaces buf ((SkipSpaces buf p).2 + 9)).2
  have h3 := le_ParseDataType buf ((SkipSpaces buf ((SkipSpaces buf p).2 + 9)).2 + 5)
  have h4 := le_SkipSpaces buf
    (Property.ParseDataType buf ((SkipSpaces buf ((SkipSpaces buf p).2 + 9)).2 + 5)).2
  have h5 := le_ParseDataType buf (SkipSpaces buf
    (Property.ParseDataType buf ((SkipSpaces buf ((SkipSpaces buf p).2 + 9)).2 + 5)).2).2
  simp only [Property.ParseProperty] at h ⊢
  split_ifs at h ⊢ <;> (have hq := le_parseName _ _ _ _ h; omega)

theorem ParseProperty_of_length_le (buf : Buf) (p : Nat) (pOut : Property)
    (h : buf.length ≤ p) : Property.ParseProperty buf p pOut = (false, p, pOut) := by
  simp [Property.ParseProperty, SkipSpaces_of_length_le buf p h]

/-- The bound of `Element.parseProperties` is never what ends the loop: from the number of
bytes left on, a larger bound gives the same result. -/
theorem parseProperties_succ (buf : Buf) :
    ∀ (n p : Nat) (acc : List Property), buf.length ≤ n + p →
      Element.parseProperties (n + 1) buf p acc = Element.parseProperties n buf p acc := by
  have e : ∀ m q acc, Element.parseProperties (m + 1) buf q acc =
      if !(Property.ParseProperty buf (DOM.SkipComments buf q).2 {}).1 then
        ((Property.ParseProperty buf (DOM.SkipComments buf q).2 {}).2.1, acc)
      else Element.parseProperties m buf
        (Property.ParseProperty buf (DOM.SkipComments buf q).2 {}).2.1
        (acc ++ [(Property.ParseProperty buf (DOM.SkipComments buf q).2 {}).2.2]) :=
    fun _ _ _ => rfl
  intro n
  induction n with
  | zero =>
    intro p acc h
    have h1 : buf.length ≤ p := by omega
    rw [e 0 p acc, SkipComments_of_length_le buf p h1, ParseProperty_of_length_le buf p _ h1]
    rfl
  | succ n ih =>
    intro p acc h
    rw [e (n + 1) p acc, e n p acc]
    cases hr : (Property.ParseProperty buf (DOM.SkipComments buf p).2 {}).1 with
    | false => rfl
    | true =>
      have h1 := le_SkipComments buf p
      have h2 := lt_ParseProperty buf _ _ hr
      simp only [Bool.not_true, Bool.false_eq_true, if_false]
      exact ih _ _ (by omega)

/-- The model of `DOM::SkipComments` does not depend on its bound: every bound from the
length of the buffer on gives the same result. -/
theorem SkipComments_bound (buf : Buf) (p k : Nat) :
    DOM.SkipCommentsAux (buf.length + k) buf p = DOM.SkipComments buf p := by
  induction k with
  | zero => rfl
  | succ k ih => rw [← ih]; exact SkipCommentsAux_succ buf (buf.length + k) p (by omega)

/-- The model of the property loop of `Element::ParseElement` does not depend on its bound:
every bound from the length of the buffer on gives the same result. -/
theorem parseProperties_bound (buf : Buf) (p k : Nat) (acc : List Property) :
    Element.parseProperties (buf.length + k) buf p acc
      = Element.parseProperties buf.length buf p acc := by
  induction k with
  | zero => rfl
  | succ k ih => rw [← ih]; exact parseProperties_succ buf (buf.length + k) p acc (by omega)

/-! ### The header loop without progress -/

/-- When an iteration of the header loop neither skips a comment, nor parses an element, nor
finds `end_header`, no later iteration does: the loop does not end. -/
theorem ParseHeader_no_progress (buf : Buf) (q : Nat) (e : Element)
    (hS : DOM.SkipComments buf q = (false, q))
    (hE : Element.ParseElement buf q {} = (false, q, e))
    (hH : ASSIMP_strincmp buf q "end_header" 10 ≠ 0) (fuel : Nat) (dom : DOM) :
    DOM.ParseHeader fuel buf q dom = none := by
  induction fuel with
  | zero => rfl
  | succ k ih =>
    simp only [DOM.ParseHeader, hS, hE]
    simpa [hH] using ih

/-! ### The binary path on a line end -/

theorem SkipSpaces_of_lineEnd (buf : Buf) (p : Nat) (h : IsLineEnd (peek buf p) = true) :
    SkipSpaces buf p = (false, p) := by
  have h1 : scan (fun c => c == 32 || c == 9) buf p = p := by
    apply scan_stop
    simp only [IsLineEnd, Bool.or_eq_true, beq_iff_eq] at h
    rcases h with (h | h) | h <;> simp [h]
  simp [SkipSpaces, h1, h]

theorem ParseInstance_of_lineEnd (F : FloatLib) (buf : Buf) (p : Nat) (a : Property)
    (i : PropertyInstance) (h : IsLineEnd (peek buf p) = true) :
    PropertyInstance.ParseInstance F buf p a i = (false, p, i) := by
  simp [PropertyInstance.ParseInstance, SkipSpaces_of_lineEnd buf p h]

theorem parsePropertiesBinary_of_lineEnd (F : FloatLib) (buf : Buf) (p : Nat)
    (h : IsLineEnd (peek buf p) = true) :
    ∀ (l : List (PropertyInstance × Property)) (acc : List PropertyInstance),
      ElementInstance.parsePropertiesBinary F buf l p acc
        = (p, acc ++ l.map (fun x =>
            { avList := x.1.avList ++ [PropertyInstance.DefaultValue x.2.eType] })) := by
  intro l
  induction l with
  | nil => intro acc; simp [ElementInstance.parsePropertiesBinary]
  | cons x t ih =>
    intro acc
    obtain ⟨i, a⟩ := x
    simp only [ElementInstance.parsePropertiesBinary, ParseInstance_of_lineEnd F buf p a i h]
    simp only [Bool.not_false, if_true]
    rw [ih]
    simp

/-- A type tag other than `EDT_INVALID` is returned only in front of a blank or a line end. -/
theorem ParseDataType_valid_terminated (buf : Buf) (p : Nat)
    (h : (Property.ParseDataType buf p).1 ≠ EDT_INVALID) :
    IsSpaceOrNewLine (peek buf (Property.ParseDataType buf p).2) = true := by
  have key : ∀ r : EDataType × Nat,
      (if !(IsSpace (peek buf r.2) || IsLineEnd (peek buf r.2)) then (EDT_INVALID, r.2)
        else r).1 ≠ EDT_INVALID →
      IsSpaceOrNewLine (peek buf
        (if !(IsSpace (peek buf r.2) || IsLineEnd (peek buf r.2)) then (EDT_INVALID, r.2)
          else r).2) = true := by
    intro r
    split_ifs with hc
    · simp
    · intro _
      cases h1 : IsSpace (peek buf r.2) <;> cases h2 : IsLineEnd (peek buf r.2) <;>
        simp_all [IsSpaceOrNewLine]
  exact key _ h

theorem ParseDataType_no_match (buf : Buf) (p : Nat)
    (h : ∀ b ∈ typeBranches, ASSIMP_strincmp buf p b.1 b.2 ≠ 0) :
    Property.ParseDataType buf p = (EDT_INVALID, p) := by
  simp only [typeBranches, List.mem_cons, List.mem_singleton, forall_eq_or_imp, forall_eq,
    List.not_mem_nil, false_implies, implies_true, and_true] at h
  obtain ⟨h1, h2, h3, h4, h5, h6, h7, h8, h9, h10, h11, h12, h13, h14, h15, h16, h17⟩ := h
  simp [Property.ParseDataType, h1, h2, h3, h4, h5, h6, h7, h8, h9, h10, h11, h12, h13, h14,
    h15, h16, h17]

/-! ### Text at the cursor -/

theorem peek_eq_headD (buf : Buf) (p : Nat) : peek buf p = (buf.drop p).headD 0 := by
  cases hd : buf.drop p with
  | nil =>
    have : buf.length ≤ p := List.drop_eq_nil_iff.mp hd
    simp [peek_of_length_le buf p this]
  | cons c t =>
    have h1 : (buf.drop p).head? = some c := by rw [hd]; rfl
    rw [List.head?_drop] at h1
    simp [peek, List.getD_eq_getElem?_getD, h1]

theorem peek_of_drop (buf : Buf) (p : Nat) (s : List Nat) (h : buf.drop p = s) :
    peek buf p = s.headD 0 := by rw [peek_eq_headD, h]

theorem drop_add_of_drop (buf : Buf) (p : Nat) (a r : List Nat) (h : buf.drop p = a ++ r) :
    buf.drop (p + a.length) = r := by
  rw [← List.drop_drop, h, List.drop_left]

theorem takeWhile_append_stop (f : Nat → Bool) (a r : List Nat) (ha : ∀ c ∈ a, f c = true)
    (hr : r = [] ∨ f (r.headD 0) = false) : (a ++ r).takeWhile f = a := by
  induction a with
  | nil =>
    cases r with
    | nil => rfl
    | cons c t =>
      rcases hr with hr | hr
      · cases hr
      · simp only [List.headD_cons] at hr
        simp [List.takeWhile, hr]
  | cons c t ih =>
    have hc := ha c (List.mem_cons_self _ _)
    simp [List.takeWhile, hc, ih (fun x hx => ha x (List.mem_cons_of_mem _ hx))]

theorem scan_append (f : Nat → Bool) (buf : Buf) (p : Nat) (a r : List Nat)
    (h : buf.drop p = a ++ r) (ha : ∀ c ∈ a, f c = true)
    (hr : r = [] ∨ f (r.headD 0) = false) : scan f buf p = p + a.length := by
  simp [scan, h, takeWhile_append_stop f a r ha hr]

theorem drop_scan (f : Nat → Bool) (buf : Buf) (p : Nat) :
    buf.drop (scan f buf p) = (buf.drop p).dropWhile f := by
  have e := List.takeWhile_append_dropWhile f (buf.drop p)
  exact drop_add_of_drop buf p _ _ e.symm

theorem foldl_digits_mod (d : List Nat) (a : Nat) :
    d.foldl (fun v c => (v * 10 + (c - 48)) % 4294967296) (a % 4294967296)
      = (d.foldl (fun v c => v * 10 + (c - 48)) a) % 4294967296 := by
  induction d generalizing a with
  | nil => simp
  | cons c t ih =>
    simp only [List.foldl_cons]
    rw [← ih]
    congr 1
    omega

theorem strtol10_digits (buf : Buf) (p : Nat) (d r : List Nat) (h : buf.drop p = d ++ r)
    (hd : ∀ c ∈ d, isDigit c = true) (hr : isDigit (r.headD 0) = false) :
    strtol10 buf p = (digitsValue d % 4294967296, p + d.length) := by
  have ht := takeWhile_append_stop isDigit d r hd (Or.inr hr)
  have hm := foldl_digits_mod d 0
  simp only [Nat.zero_mod] at hm
  simp only [strtol10, h, ht, digitsValue]
  norm_num
  exact hm

/-! ### Decimal integers -/

theorem toInt32_small (v : Nat) (h : v ≤ 2147483647) :
    toInt32 (v : Int) = v ∧ toInt32 (toInt32 (v : Int) * -1) = -(v : Int) := by
  unfold toInt32
  constructor <;> omega

theorem ne_minus_of_isDigit (c : Nat) (h : isDigit c = true) : (c == 45) = false := by
  simp only [isDigit, Bool.and_eq_true, decide_eq_true_eq] at h
  simp; omega

theorem ParseValue_signed_digits (F : FloatLib) (buf : Buf) (p : Nat) (d rest : List Nat)
    (out : ValueUnion) (eType : EDataType) (ht : eType ∈ [EDT_Int, EDT_Short, EDT_Char])
    (hne : d ≠ []) (hd : ∀ c ∈ d, isDigit c = true) (hr : isDigit (rest.headD 0) = false)
    (hv : digitsValue d ≤ 2147483647) (h : buf.drop p = d ++ rest) :
    PropertyInstance.ParseValue F buf p eType out
      = (true, p + d.length, .iInt (digitsValue d)) := by
  have hp : (peek buf p == 45) = false := by
    rw [peek_of_drop buf p _ h]
    cases d with
    | nil => exact absurd rfl hne
    | cons c t => exact ne_minus_of_isDigit c (hd c (List.mem_cons_self _ _))
  have hs := strtol10_digits buf p d rest h hd hr
  rw [Nat.mod_eq_of_lt (by omega)] at hs
  have hi := (toInt32_small _ hv).1
  simp only [List.mem_cons, List.mem_singleton, List.not_mem_nil, or_false] at ht
  rcases ht with ht | ht | ht <;> subst ht <;>
    simp [PropertyInstance.ParseValue, hp, hs, hi]

theorem ParseValue_signed_minus_digits (F : FloatLib) (buf : Buf) (p : Nat)
    (d rest : List Nat) (out : ValueUnion) (eType : EDataType)
    (ht : eType ∈ [EDT_Int, EDT_Short, EDT_Char])
    (hd : ∀ c ∈ d, isDigit c = true) (hr : isDigit (rest.headD 0) = false)
    (hv : digitsValue d ≤ 2147483647) (h : buf.drop p = 45 :: (d ++ rest)) :
    PropertyInstance.ParseValue F buf p eType out
      = (true, p + 1 + d.length, .iInt (-(digitsValue d : Int))) := by
  have hp : (peek buf p == 45) = true := by
    rw [peek_of_drop buf p _ h]; rfl
  have h1 : buf.drop (p + 1) = d ++ rest := drop_add_of_drop buf p [45] (d ++ rest) h
  have hs := strtol10_digits buf (p + 1) d rest h1 hd hr
  rw [Nat.mod_eq_of_lt (by omega)] at hs
  have hi := (toInt32_small _ hv).2
  rw [mul_neg_one] at hi
  simp only [List.mem_cons, List.mem_singleton, List.not_mem_nil, or_false] at ht
  rcases ht with ht | ht | ht <;> subst ht <;>
    simp [PropertyInstance.ParseValue, hp, hs, hi]

theorem ParseValue_unsigned_digits (F : FloatLib) (buf : Buf) (p : Nat) (d rest : List Nat)
    (out : ValueUnion) (eType : EDataType) (ht : eType ∈ [EDT_UInt, EDT_UShort, EDT_UChar])
    (hd : ∀ c ∈ d, isDigit c = true) (hr : isDigit (rest.headD 0) = false)
    (hv : digitsValue d < 4294967296) (h : buf.drop p = d ++ rest) :
    PropertyInstance.ParseValue F buf p eType out
      = (true, p + d.length, .iUInt (digitsValue d)) := by
  have hs := strtol10_digits buf p d rest h hd hr
  rw [Nat.mod_eq_of_lt hv] at hs
  simp only [List.mem_cons, List.mem_singleton, List.not_mem_nil, or_false] at ht
  rcases ht with ht | ht | ht <;> subst ht <;>
    simp [PropertyInstance.ParseValue, hs]

theorem ParseValue_unsigned_minus (F : FloatLib) (buf : Buf) (p : Nat)
    (out : ValueUnion) (eType : EDataType) (ht : eType ∈ [EDT_UInt, EDT_UShort, EDT_UChar])
    (h : peek buf p = 45) :
    PropertyInstance.ParseValue F buf p eType out = (true, p, .iUInt 0) := by
  have hs := strtol10_stop buf p (by rw [h]; decide)
  simp only [List.mem_cons, List.mem_singleton, List.not_mem_nil, or_false] at ht
  rcases ht with ht | ht | ht <;> subst ht <;>
    simp [PropertyInstance.ParseValue, hs]

/-! ### Keywords at the cursor -/

theorem strincmpLoop_match (buf : Buf) :
    ∀ (s kw tail r : List Nat) (p : Nat), buf.drop p = s ++ r →
      s.map toLower = kw.map toLower →
      strincmpLoop s.length buf p (kw ++ tail) = true := by
  intro s
  induction s with
  | nil => intro kw tail r p _ _; rfl
  | cons c t ih =>
    intro kw tail r p h hm
    cases kw with
    | nil => simp at hm
    | cons k kt =>
      simp only [List.map_cons, List.cons.injEq] at hm
      have hp : peek buf p = c := by rw [peek_of_drop buf p _ h]; rfl
      have h1 : buf.drop (p + 1) = t ++ r := drop_add_of_drop buf p [c] (t ++ r) h
      have hrec := ih kt tail r (p + 1) h1 hm.2
      simp only [List.length_cons, strincmpLoop, hp, List.cons_append, List.headD_cons,
        List.tail_cons, hm.1, bne_self_eq_false, Bool.false_eq_true, if_false, hrec]
      split_ifs <;> rfl

theorem strincmp_match (buf : Buf) (p : Nat) (s r : List Nat) (kw : String)
    (h : buf.drop p = s ++ r) (hm : s.map toLower = (bytes kw).map toLower) :
    ASSIMP_strincmp buf p kw s.length = 0 := by
  have := strincmpLoop_match buf s (bytes kw) [] r p h hm
  simp only [List.append_nil] at this
  simp [ASSIMP_strincmp, this]

theorem strincmp_first (buf : Buf) (p n : Nat) (kw : String)
    (h : toLower (peek buf p) ≠ toLower ((bytes kw).headD 0)) :
    ASSIMP_strincmp buf p kw (n + 1) = 1 := by
  have hl : strincmpLoop (n + 1) buf p (bytes kw) = false := by
    simp only [strincmpLoop]
    rw [if_pos (by simpa using h)]
  simp [ASSIMP_strincmp, hl]

theorem head_of_map_toLower (s : List Nat) (k : Nat) (kt : List Nat)
    (hs : s.map toLower = k :: kt) : toLower (s.headD 0) = k := by
  cases s with
  | nil => simp at hs
  | cons c t => simp only [List.map_cons, List.cons.injEq] at hs; simpa using hs.1

theorem toLower_lt_of_space (c : Nat) (h : IsSpaceOrNewLine c = true) : toLower c < 65 := by
  simp only [IsSpaceOrNewLine, IsSpace, IsLineEnd, Bool.or_eq_true, beq_iff_eq] at h
  rcases h with (h | h) | (h | h) | h <;> subst h <;> decide

theorem SkipSpaces_nonspace (buf : Buf) (p : Nat) (h : IsSpace (peek buf p) = false) :
    SkipSpaces buf p = (!IsLineEnd (peek buf p), p) := by
  have h1 : scan (fun c => c == 32 || c == 9) buf p = p :=
    scan_stop _ buf p (by simpa [IsSpace] using h)
  simp [SkipSpaces, h1]

theorem not_space_of_toLower (c : Nat) (h : 97 ≤ toLower c) :
    IsSpace c = false ∧ IsLineEnd c = false := by
  have : ¬ IsSpaceOrNewLine c = true := fun hc => by
    have := toLower_lt_of_space c hc; omega
  simp only [IsSpaceOrNewLine, Bool.or_eq_true, not_or, Bool.not_eq_true] at this
  exact this

theorem ParseSemantic_element (buf : Buf) (p : Nat) (kw : String × EElementSemantic)
    (hk : kw ∈ elementKeywords) (s rest : List Nat) (hs : s.map toLower = bytes kw.1)
    (ht : IsSpaceOrNewLine (rest.headD 0) = true) (h : buf.drop p = s ++ rest) :
    Element.ParseSemantic buf p = (kw.2, p + s.length) := by
  have hterm : (IsSpace (peek buf (p + s.length)) || IsLineEnd (peek buf (p + s.length)))
      = true := by
    rw [peek_of_drop buf _ _ (drop_add_of_drop buf p s rest h)]
    simpa [IsSpaceOrNewLine] using ht
  have hpk : 0 < s.length → peek buf p = s.headD 0 := by
    intro hpos
    rw [peek_of_drop buf p _ h]
    cases s with
    | nil => simp at hpos
    | cons c t => rfl
  have hlen : s.length = (bytes kw.1).length := by rw [← hs, List.length_map]
  simp only [elementKeywords, List.mem_cons, List.mem_singleton, List.not_mem_nil,
    or_false] at hk
  rcases hk with hk | hk | hk | hk | hk <;> subst hk
  · have hl : s.length = 6 := by rw [hlen]; decide
    have hm := strincmp_match buf p s rest "vertex" h (by rw [hs]; decide)
    rw [hl] at hm hterm ⊢
    simp [Element.ParseSemantic, hm, hterm]
  · have hl : s.length = 4 := by rw [hlen]; decide
    have h0 := head_of_map_toLower s 102 [97, 99, 101] (by rw [hs]; decide)
    have hv := strincmp_first buf p 5 "vertex" (by rw [hpk (by omega), h0]; decide)
    have hm := strincmp_match buf p s rest "face" h (by rw [hs]; decide)
    rw [hl] at hm hterm ⊢
    simp [Element.ParseSemantic, hv, hm, hterm]
  · have hl : s.length = 9 := by rw [hlen]; decide
    have h0 := head_of_map_toLower s 116 [114, 105, 115, 116, 114, 105, 112, 115]
      (by rw [hs]; decide)
    have hv := strincmp_first buf p 5 "vertex" (by rw [hpk (by omega), h0]; decide)
    have hf := strincmp_first buf p 3 "face" (by rw [hpk (by omega), h0]; decide)
    have hm := strincmp_match buf p s rest "tristrips" h (by rw [hs]; decide)
    rw [hl] at hm hterm ⊢
    simp [Element.ParseSemantic, hv, hf, hm, hterm]
  · have hl : s.length = 4 := by rw [hlen]; decide
    have h0 := head_of_map_toLower s 101 [100, 103, 101] (by rw [hs]; decide)
    have hv := strincmp_first buf p 5 "vertex" (by rw [hpk (by omega), h0]; decide)
    have hf := strincmp_first buf p 3 "face" (by rw [hpk (by omega), h0]; decide)
    have hts := strincmp_first buf p 8 "tristrips" (by rw [hpk (by omega), h0]; decide)
    have hm := strincmp_match buf p s rest "edge" h (by rw [hs]; decide)
    rw [hl] at hm hterm ⊢
    simp [Element.ParseSemantic, hv, hf, hts, hm, hterm]
  · have hl : s.length = 8 := by rw [hlen]; decide
    have h0 := head_of_map_toLower s 109 [97, 116, 101, 114, 105, 97, 108]
      (by rw [hs]; decide)
    have hv := strincmp_first buf p 5 "vertex" (by rw [hpk (by omega), h0]; decide)
    have hf := strincmp_first buf p 3 "face" (by rw [hpk (by omega), h0]; decide)
    have hts := strincmp_first buf p 8 "tristrips" (by rw [hpk (by omega), h0]; decide)
    have he := strincmp_first buf p 3 "edge" (by rw [hpk (by omega), h0]; decide)
    have hm := strincmp_match buf p s rest "material" h (by rw [hs]; decide)
    rw [hl] at hm hterm ⊢
    simp [Element.ParseSemantic, hv, hf, hts, he, hm, hterm]

theorem elementKeywords_valid (kw : String × EElementSemantic) (hk : kw ∈ elementKeywords) :
    kw.2 ≠ EEST_INVALID ∧ 97 ≤ (bytes kw.1).headD 0 := by
  simp only [elementKeywords, List.mem_cons, List.mem_singleton, List.not_mem_nil,
    or_false] at hk
  rcases hk with hk | hk | hk | hk | hk <;> subst hk <;> decide

theorem ParseElement_element (buf : Buf) (p : Nat) (kw : String × EElementSemantic)
    (hk : kw ∈ elementKeywords) (s d rest : List Nat) (hs : s.map toLower = bytes kw.1)
    (hne : d ≠ []) (hd : ∀ c ∈ d, isDigit c = true) (hr : isDigit (rest.headD 0) = false)
    (hv : digitsValue d < 4294967296)
    (h : buf.drop p = bytes "element " ++ (s ++ 32 :: (d ++ rest))) :
    (Element.ParseElement buf p {}).1 = true ∧
    (Element.ParseElement buf p {}).2.2.eSemantic = kw.2 ∧
    (Element.ParseElement buf p {}).2.2.NumOccur = digitsValue d := by
  obtain ⟨hvalid, hfirst⟩ := elementKeywords_valid kw hk
  -- the keyword `element` and the blank after it
  have hb : bytes "element " = bytes "element" ++ [32] := by decide
  have h' : buf.drop p = bytes "element" ++ (32 :: (s ++ 32 :: (d ++ rest))) := by
    rw [h, hb]; simp
  have hp0 : peek buf p = 101 := by rw [peek_of_drop buf p _ h]; rfl
  have hS1 : SkipSpaces buf p = (true, p) := by
    rw [SkipSpaces_nonspace buf p (by rw [hp0]; decide), hp0]; rfl
  have hK : ASSIMP_strincmp buf p "element" 7 = 0 :=
    strincmp_match buf p (bytes "element") _ "element" h' (by decide)
  have h7 : buf.drop (p + 7) = 32 :: (s ++ 32 :: (d ++ rest)) :=
    drop_add_of_drop buf p (bytes "element") _ h'
  have hp7 : peek buf (p + 7) = 32 := by rw [peek_of_drop buf _ _ h7]; rfl
  have h8 : buf.drop (p + 8) = s ++ 32 :: (d ++ rest) :=
    drop_add_of_drop buf (p + 7) [32] _ h7
  -- the name
  have hs0 : 97 ≤ toLower (s.headD 0) := by
    cases hbk : bytes kw.1 with
    | nil => rw [hbk] at hfirst; simp at hfirst
    | cons k kt =>
      rw [hbk] at hs hfirst
      rw [head_of_map_toLower s k kt hs]; simpa using hfirst
  have hslen : 0 < s.length := by
    cases s with
    | nil => simp [toLower] at hs0
    | cons c t => simp
  have hp8 : peek buf (p + 8) = s.headD 0 := by
    rw [peek_of_drop buf _ _ h8]
    cases s with
    | nil => simp at hslen
    | cons c t => rfl
  have hns := not_space_of_toLower _ hs0
  have hS2 : SkipSpaces buf (p + 8) = (true, p + 8) := by
    rw [SkipSpaces_nonspace buf _ (by rw [hp8]; exact hns.1), hp8, hns.2]; rfl
  have hSem := ParseSemantic_element buf (p + 8) kw hk s (32 :: (d ++ rest)) hs rfl h8
  -- the blank and the number
  have h9 : buf.drop (p + 8 + s.length) = [32] ++ (d ++ rest) :=
    drop_add_of_drop buf (p + 8) s _ h8
  have hd0 : isDigit ((d ++ rest).headD 0) = true := by
    cases d with
    | nil => exact absurd rfl hne
    | cons c t => simpa using hd c (List.mem_cons_self _ _)
  have hd0x : IsSpace ((d ++ rest).headD 0) = false ∧
      IsLineEnd ((d ++ rest).headD 0) = false := by
    simp only [isDigit, Bool.and_eq_true, decide_eq_true_eq] at hd0
    simp only [IsSpace, IsLineEnd, Bool.or_eq_false_iff, beq_eq_false_iff_ne]
    omega
  have hsc : scan (fun c => c == 32 || c == 9) buf (p + 8 + s.length)
      = p + 8 + s.length + 1 :=
    scan_append _ buf _ [32] (d ++ rest) h9 (by simp) (Or.inr (by simpa [IsSpace] using hd0x.1))
  have h10 : buf.drop (p + 8 + s.length + 1) = d ++ rest :=
    drop_add_of_drop buf _ [32] _ h9
  have hp10 : peek buf (p + 8 + s.length + 1) = (d ++ rest).headD 0 :=
    peek_of_drop buf _ _ h10
  have hS3 : SkipSpaces buf (p + 8 + s.length) = (true, p + 8 + s.length + 1) := by
    simp only [SkipSpaces, hsc, hp10, hd0x.2]
    rfl
  have hN := strtol10_digits buf _ d rest h10 hd hr
  rw [Nat.mod_eq_of_lt hv] at hN
  simp [Element.ParseElement, hS1, hK, hp7, IsSpace, hS2, hSem, hvalid, hS3, hN]

/-! ### Lines of decimal integers -/

theorem SkipSpacesAndLineEnd_eq (buf : Buf) (p : Nat) :
    SkipSpacesAndLineEnd buf p = scan isBlank buf p := rfl

theorem drop_SkipSpacesAndLineEnd (buf : Buf) (p : Nat) :
    buf.drop (SkipSpacesAndLineEnd buf p) = strip (buf.drop p) :=
  drop_scan isBlank buf p

theorem strip_cons_blank (c : Nat) (s : List Nat) (h : isBlank c = true) :
    strip (c :: s) = strip s := by
  simp [strip, List.dropWhile, h]

theorem strip_blank_append (s t : List Nat) (h : ∀ c ∈ s, isBlank c = true) :
    strip (s ++ t) = strip t := by
  induction s with
  | nil => rfl
  | cons c s ih =>
    rw [List.cons_append, strip_cons_blank c _ (h c (List.mem_cons_self _ _))]
    exact ih (fun d hd => h d (List.mem_cons_of_mem _ hd))

theorem blankText_head (s t : List Nat) (h : isBlankText s) :
    isDigit ((s ++ t).headD 0) = false := by
  obtain ⟨hne, hb⟩ := h
  cases s with
  | nil => exact absurd rfl hne
  | cons c s =>
    have := hb c (List.mem_cons_self _ _)
    simp only [isBlank, Bool.or_eq_true, beq_iff_eq] at this
    simp only [List.cons_append, List.headD_cons, isDigit, Bool.and_eq_false_iff,
      decide_eq_false_iff_not]
    omega

theorem strip_of_head (s : List Nat) (h : isBlank (s.headD 0) = false) : strip s = s := by
  cases s with
  | nil => rfl
  | cons c t => simp only [List.headD_cons] at h; simp [strip, List.dropWhile, h]

theorem head_strip (s : List Nat) : isBlank ((strip s).headD 0) = false := by
  induction s with
  | nil => rfl
  | cons c t ih =>
    cases hc : isBlank c with
    | true => rw [strip_cons_blank c t hc]; exact ih
    | false => rw [strip_of_head (c :: t) (by simpa using hc)]; simpa using hc

/-- The first character of a well-formed number is a digit or the minus sign. -/
theorem numText_head (eType : EDataType) (x : Bool × List Nat) (after : List Nat)
    (h : wellFormedNumber eType x) :
    isDigit ((numText x ++ after).headD 0) = true ∨ (numText x ++ after).headD 0 = 45 := by
  obtain ⟨b, d⟩ := x
  obtain ⟨hne, hd, _⟩ := h
  cases b with
  | true => right; rfl
  | false =>
    left
    cases d with
    | nil => exact absurd rfl hne
    | cons c t => simpa [numText] using hd c (List.mem_cons_self _ _)

theorem head_facts (c : Nat) (h : isDigit c = true ∨ c = 45) :
    IsSpace c = false ∧ IsLineEnd c = false ∧ isBlank c = false ∧ toLower c ≠ 99 := by
  simp only [isDigit, Bool.and_eq_true, decide_eq_true_eq] at h
  simp only [IsSpace, IsLineEnd, isBlank, toLower, Bool.or_eq_false_iff, beq_eq_false_iff_ne]
  refine ⟨by omega, by omega, by omega, ?_⟩
  split_ifs <;> omega

theorem types_cases (eType : EDataType) :
    (isSignedType eType = true → eType ∈ [EDT_Int, EDT_Short, EDT_Char]) ∧
    (isUnsignedType eType = true → eType ∈ [EDT_UInt, EDT_UShort, EDT_UChar]) ∧
    (isSignedType eType = true → isUnsignedType eType = false) := by
  cases eType <;> decide

theorem ParseValue_number (F : FloatLib) (buf : Buf) (p : Nat) (eType : EDataType)
    (x : Bool × List Nat) (after : List Nat) (out : ValueUnion)
    (hw : wellFormedNumber eType x) (ha : isDigit (after.headD 0) = false)
    (h : buf.drop p = numText x ++ after) :
    PropertyInstance.ParseValue F buf p eType out
      = (true, p + (numText x).length, numberValue eType x) := by
  obtain ⟨b, d⟩ := x
  obtain ⟨hne, hd, hty⟩ := hw
  obtain ⟨hs, hu, hsu⟩ := types_cases eType
  rcases hty with ⟨hsig, hv⟩ | ⟨huns, hb, hv⟩
  · have hnu := hsu hsig
    cases b with
    | false =>
      have := ParseValue_signed_digits F buf p d after out eType (hs hsig) hne hd ha hv
        (by simpa [numText] using h)
      simpa [numText, numberValue, hnu] using this
    | true =>
      have := ParseValue_signed_minus_digits F buf p d after out eType (hs hsig) hd ha hv
        (by simpa [numText] using h)
      simpa [numText, numberValue, hnu, Nat.add_comm, Nat.add_assoc, Nat.add_left_comm]
        using this
  · simp only at hb
    subst hb
    have := ParseValue_unsigned_digits F buf p d after out eType (hu huns) hd ha hv
      (by simpa [numText] using h)
    simpa [numText, numberValue, huns] using this

/-- A scalar property on a well-formed number: the value is stored and the cursor goes to
the next text that is no blank and no line end. -/
theorem ParseInstance_number (F : FloatLib) (buf : Buf) (p : Nat) (a : Property)
    (x : Bool × List Nat) (after : List Nat)
    (hl : a.bIsList = false) (hw : wellFormedNumber a.eType x)
    (ha : isDigit (after.headD 0) = false) (h : buf.drop p = numText x ++ after) :
    ∃ p', PropertyInstance.ParseInstance F buf p a {}
        = (true, p', { avList := [numberValue a.eType x] }) ∧
      buf.drop p' = strip after := by
  have hh := head_facts _ (numText_head a.eType x after hw)
  have hpk : peek buf p = (numText x ++ after).headD 0 := peek_of_drop buf p _ h
  have hS : SkipSpaces buf p = (true, p) := by
    rw [SkipSpaces_nonspace buf p (by rw [hpk]; exact hh.1), hpk, hh.2.1]; rfl
  have hV := ParseValue_number F buf p a.eType x after .unset hw ha h
  refine ⟨SkipSpacesAndLineEnd buf (p + (numText x).length), ?_, ?_⟩
  · simp [PropertyInstance.ParseInstance, hS, hl, hV]
  · rw [drop_SkipSpacesAndLineEnd, drop_add_of_drop buf p _ _ h]

theorem isBlank_IsSpace (c : Nat) (h : isBlank c = false) : IsSpace c = false := by
  simp only [isBlank, IsSpace, Bool.or_eq_false_iff] at h ⊢
  exact ⟨h.1.1.1, h.1.1.2⟩

theorem SkipComments_no_comment (buf : Buf) (p : Nat) (h1 : IsSpace (peek buf p) = false)
    (h2 : toLower (peek buf p) ≠ 99) : (DOM.SkipComments buf p).2 = p := by
  unfold DOM.SkipComments
  cases buf.length with
  | zero => rfl
  | succ n =>
    have hS : SkipSpaces buf p = (!IsLineEnd (peek buf p), p) := SkipSpaces_nonspace buf p h1
    have hc : ASSIMP_strincmp buf p "comment" 7 = 1 :=
      strincmp_first buf p 6 "comment" (by simpa using h2)
    simp only [DOM.SkipCommentsAux, hS, hc]
    split_ifs <;> first | rfl | simp_all

theorem strip_number (eType : EDataType) (x : Bool × List Nat) (after : List Nat)
    (h : wellFormedNumber eType x) : strip (numText x ++ after) = numText x ++ after :=
  strip_of_head _ (head_facts _ (numText_head eType x after h)).2.2.1

theorem renderLine_cons (sep eol : List Nat) (x : Bool × List Nat)
    (xs : List (Bool × List Nat)) (t : List Nat) :
    renderLine sep eol (x :: xs) ++ t
      = numText x ++ (((if xs.isEmpty then [] else sep) ++ renderLine sep eol xs) ++ t) := by
  simp [renderLine, List.append_assoc]

theorem okHead_line (sep eol : List Nat) (he : isBlankText eol)
    (P : Property → Bool × List Nat → Prop) (props : List Property)
    (line : List (Bool × List Nat)) (t : List Nat)
    (hP : ∀ a x, P a x → wellFormedNumber a.eType x)
    (hw : List.Forall₂ P props line) (ht : okHead t) :
    okHead (renderLine sep eol line ++ t) := by
  cases hw with
  | nil => simpa [okHead, renderLine, strip_blank_append eol t he.2] using ht
  | @cons a x props1 line1 hax _ =>
    unfold okHead
    rw [renderLine_cons, strip_number a.eType x _ (hP a x hax)]
    exact (head_facts _ (numText_head a.eType x _ (hP a x hax))).2.2.2

theorem okHead_lines (sep eol : List Nat) (he : isBlankText eol)
    (P : Property → Bool × List Nat → Prop) (props : List Property)
    (hP : ∀ a x, P a x → wellFormedNumber a.eType x) (t : List Nat) (ht : okHead t) :
    ∀ lines : List (List (Bool × List Nat)),
      (∀ line ∈ lines, List.Forall₂ P props line) →
      okHead (renderLines sep eol lines ++ t) := by
  intro lines
  induction lines with
  | nil => intro _; simpa [renderLines] using ht
  | cons l ls ih =>
    intro hw
    have := okHead_line sep eol he P props l (renderLines sep eol ls ++ t) hP
      (hw l (List.mem_cons_self _ _))
      (ih (fun line hl => hw line (List.mem_cons_of_mem _ hl)))
    simpa [renderLines, List.append_assoc] using this

theorem okHead_data (sep eol : List Nat) (he : isBlankText eol) (els : List Element)
    (data : List (List (List (Bool × List Nat))))
    (hw : List.Forall₂ wellFormedLines els data) : okHead (renderData sep eol data) := by
  induction hw with
  | nil => simp [okHead, renderData, strip, toLower]
  | @cons el lines els1 data1 h _ ih =>
    exact okHead_lines sep eol he _ el.alProperties (fun a x hx => hx.2) _ ih lines h.2.2

/-- The next text after a blank-free position: its first character as the code sees it. -/
theorem peek_strip (buf : Buf) (p : Nat) (s : List Nat) (h : buf.drop p = strip s) :
    isBlank (peek buf p) = false ∧ peek buf p = (strip s).headD 0 := by
  have := peek_of_drop buf p _ h
  exact ⟨by rw [this]; exact head_strip s, this⟩

theorem after_head (sep eol : List Nat) (hs : isBlankText sep) (he : isBlankText eol)
    (xs : List (Bool × List Nat)) (t : List Nat) :
    isDigit ((((if xs.isEmpty then [] else sep) ++ renderLine sep eol xs) ++ t).headD 0)
      = false := by
  cases xs with
  | nil => simpa [renderLine] using blankText_head eol t he
  | cons y ys =>
    simpa [List.append_assoc] using blankText_head sep (renderLine sep eol (y :: ys) ++ t) hs

/-- The property loop on a line of well-formed numbers. -/
theorem parseProperties_line (F : FloatLib) (buf : Buf) (sep eol : List Nat)
    (hs : isBlankText sep) (he : isBlankText eol) (props : List Property)
    (line : List (Bool × List Nat))
    (hw : List.Forall₂ (fun a x => a.bIsList = false ∧ wellFormedNumber a.eType x) props line) :
    ∀ (p : Nat) (acc : List PropertyInstance) (t : List Nat), line ≠ [] →
      buf.drop p = renderLine sep eol line ++ t →
      ∃ p', ElementInstance.parseProperties F buf
          ((List.replicate props.length ({} : PropertyInstance)).zip props) p acc
          = (p', acc ++ List.zipWith (fun a x => { avList := [numberValue a.eType x] })
              props line) ∧
        buf.drop p' = strip t := by
  induction hw with
  | nil => intro p acc t hne; exact absurd rfl hne
  | @cons a x props1 line1 hax hrest ih =>
    intro p acc t _ h
    rw [renderLine_cons] at h
    obtain ⟨p1, hI, hd1⟩ := ParseInstance_number F buf p a x _ hax.1 hax.2
      (after_head sep eol hs he line1 t) h
    simp only [List.length_cons, List.replicate_succ, List.zip_cons_cons,
      ElementInstance.parseProperties, hI, Bool.not_true, Bool.false_eq_true, if_false,
      List.zipWith_cons_cons]
    cases hrest with
    | nil =>
      refine ⟨p1, by simp [ElementInstance.parseProperties], ?_⟩
      rw [hd1]
      simp [renderLine, strip_blank_append eol t he.2]
    | @cons b y props2 line2 hby hrest1 =>
      have hd2 : buf.drop p1 = renderLine sep eol (y :: line2) ++ t := by
        rw [hd1]
        have : strip (sep ++ (renderLine sep eol (y :: line2) ++ t))
            = renderLine sep eol (y :: line2) ++ t := by
          rw [strip_blank_append sep _ hs.2, renderLine_cons,
            strip_number b.eType y _ hby.2]
        simpa [List.append_assoc] using this
      obtain ⟨p2, hL, hd3⟩ := ih p1 (acc ++ [{ avList := [numberValue a.eType x] }]) t
        (by simp) hd2
      refine ⟨p2, ?_, hd3⟩
      simpa [List.append_assoc] using hL

theorem resize_nil {α : Type} (n : Nat) (d : α) : resize [] n d = List.replicate n d := by
  simp [resize]

theorem length_resize {α : Type} (l : List α) (n : Nat) (d : α) : (resize l n d).length = n := by
  simp [resize]; omega

/-- One data line: the instance holds the numbers of the line in the order of the declared
properties, and the cursor goes to the next text that is no blank and no line end. -/
theorem ParseInstance_line (F : FloatLib) (buf : Buf) (sep eol : List Nat)
    (hs : isBlankText sep) (he : isBlankText eol) (p : Nat) (el : Element)
    (line : List (Bool × List Nat)) (t : List Nat)
    (hw : List.Forall₂ (fun a x => a.bIsList = false ∧ wellFormedNumber a.eType x)
      el.alProperties line)
    (h : buf.drop p = strip (renderLine sep eol line ++ t)) :
    ∃ b p', ElementInstance.ParseInstance F buf p el {}
        = (b, p', expectedInstance el.alProperties line) ∧
      buf.drop p' = strip t := by
  obtain ⟨hb, hpk⟩ := peek_strip buf p _ h
  have hS : SkipSpaces buf p = (!IsLineEnd (peek buf p), p) :=
    SkipSpaces_nonspace buf p (isBlank_IsSpace _ hb)
  cases hl : line with
  | nil =>
    subst hl
    have hp : el.alProperties = [] := List.forall₂_nil_right_iff.1 hw
    have h2 : buf.drop p = strip t := by
      rw [h]; simp [renderLine, strip_blank_append eol t he.2]
    cases hle : IsLineEnd (peek buf p) with
    | true =>
      refine ⟨false, p, ?_, h2⟩
      simp [ElementInstance.ParseInstance, hS, hle, expectedInstance, hp]
    | false =>
      refine ⟨true, p, ?_, h2⟩
      simp [ElementInstance.ParseInstance, hS, hle, expectedInstance, hp, resize,
        ElementInstance.parseProperties]
  | cons x xs =>
    subst hl
    have hex : ∃ a : Property, wellFormedNumber a.eType x := by
      generalize el.alProperties = ps at hw
      cases hw with
      | cons hax _ => exact ⟨_, hax.2⟩
    obtain ⟨a, hax⟩ := hex
    · have hh := head_facts _ (numText_head a.eType x
        (((if xs.isEmpty then [] else sep) ++ renderLine sep eol xs) ++ t) hax)
      have h2 : buf.drop p = renderLine sep eol (x :: xs) ++ t := by
        rw [h, renderLine_cons, strip_number a.eType x _ hax]
      have hpk2 : peek buf p = (numText x ++
          (((if xs.isEmpty then [] else sep) ++ renderLine sep eol xs) ++ t)).headD 0 := by
        rw [← renderLine_cons]; exact peek_of_drop buf p _ h2
      obtain ⟨p1, hL, hd⟩ := parseProperties_line F buf sep eol hs he el.alProperties
        (x :: xs) hw p [] t
        (by simp) h2
      refine ⟨true, p1, ?_, hd⟩
      have hle : IsLineEnd (peek buf p) = false := by rw [hpk2]; exact hh.2.1
      have hr : resize ([] : List PropertyInstance) el.alProperties.length {}
          = List.replicate el.alProperties.length {} := resize_nil _ _
      simp only [ElementInstance.ParseInstance, hS, hle, hr, hL, expectedInstance]
      simp

theorem set_append_replicate {α : Type} (l : List α) (n : Nat) (d x : α) :
    (l ++ List.replicate (n + 1) d).set l.length x = (l ++ [x]) ++ List.replicate n d := by
  induction l with
  | nil => simp [List.replicate_succ]
  | cons a l ih => simpa using ih

/-- The lines of one element. -/
theorem parseInstances_lines (F : FloatLib) (buf : Buf) (sep eol : List Nat)
    (hs : isBlankText sep) (he : isBlankText eol) (el : Element) (t : List Nat)
    (ht : okHead t) :
    ∀ (lines : List (List (Bool × List Nat))),
      (∀ line ∈ lines, List.Forall₂
        (fun a x => a.bIsList = false ∧ wellFormedNumber a.eType x) el.alProperties line) →
      ∀ (l : List ElementInstance) (p : Nat),
      buf.drop p = strip (renderLines sep eol lines ++ t) →
      ∃ p', ElementInstanceList.parseInstances F buf el lines.length l.length p
          (l ++ List.replicate lines.length ({} : ElementInstance))
          = (p', l ++ lines.map (expectedInstance el.alProperties)) ∧
        buf.drop p' = strip t := by
  intro lines
  induction lines with
  | nil =>
    intro _ l p h
    exact ⟨p, by simp [ElementInstanceList.parseInstances], by simpa [renderLines] using h⟩
  | cons line ls ih =>
    intro hw l p h
    have hok : okHead (renderLines sep eol (line :: ls) ++ t) :=
      okHead_lines sep eol he _ el.alProperties (fun a x hx => hx.2) t ht (line :: ls) hw
    obtain ⟨hb, hpk⟩ := peek_strip buf p _ h
    have hC : (DOM.SkipComments buf p).2 = p :=
      SkipComments_no_comment buf p (isBlank_IsSpace _ hb) (by rw [hpk]; exact hok)
    have h2 : buf.drop p = strip (renderLine sep eol line ++ (renderLines sep eol ls ++ t)) := by
      rw [h]; simp [renderLines, List.append_assoc]
    obtain ⟨b, p1, hI, hd⟩ := ParseInstance_line F buf sep eol hs he p el line
      (renderLines sep eol ls ++ t)
      (hw line (List.mem_cons_self _ _)) h2
    obtain ⟨p2, hL, hd2⟩ := ih (fun x hx => hw x (List.mem_cons_of_mem _ hx))
      (l ++ [expectedInstance el.alProperties line]) p1 hd
    refine ⟨p2, ?_, hd2⟩
    simp only [List.length_cons, ElementInstanceList.parseInstances, hC, hI,
      set_append_replicate]
    simpa [List.append_assoc] using hL

/-- The instance list of one recognized element. -/
theorem ParseInstanceList_lines (F : FloatLib) (buf : Buf) (sep eol : List Nat)
    (hs : isBlankText sep) (he : isBlankText eol) (p : Nat) (el : Element)
    (lines : List (List (Bool × List Nat))) (t : List Nat)
    (hw : wellFormedLines el lines) (ht : okHead t)
    (h : buf.drop p = strip (renderLines sep eol lines ++ t)) :
    ∃ p', ElementInstanceList.ParseInstanceList F buf p el (ElementInstanceList.mk_reserved el)
        = (true, p', expectedList el lines) ∧
      buf.drop p' = strip t := by
  obtain ⟨hsem, hlen, hl⟩ := hw
  obtain ⟨p1, hL, hd⟩ := parseInstances_lines F buf sep eol hs he el t ht lines hl [] p h
  refine ⟨p1, ?_, hd⟩
  have hr : resize ([] : List ElementInstance) lines.length {}
      = List.replicate lines.length {} := resize_nil _ _
  simp only [List.length_nil, List.nil_append] at hL
  simp only [ElementInstanceList.ParseInstanceList, hsem, if_false,
    ElementInstanceList.mk_reserved, ← hlen, hr, hL, expectedList]

/-- The loop over the elements. -/
theorem parseLists_data (F : FloatLib) (buf : Buf) (sep eol : List Nat)
    (hs : isBlankText sep) (he : isBlankText eol) (els : List Element)
    (data : List (List (List (Bool × List Nat))))
    (hw : List.Forall₂ wellFormedLines els data) :
    ∀ (slots : List ElementInstanceList) (p : Nat) (acc : List ElementInstanceList),
      slots.length = els.length → buf.drop p = strip (renderData sep eol data) →
      (DOM.parseLists F buf (els.zip slots) p acc).2
        = acc ++ List.zipWith expectedList els data := by
  induction hw with
  | nil => intro slots p acc _ _; simp [DOM.parseLists]
  | @cons el lines els1 data1 h hrest ih =>
    intro slots p acc hlen hd
    cases slots with
    | nil => simp at hlen
    | cons s ss =>
      obtain ⟨p1, hL, hd1⟩ := ParseInstanceList_lines F buf sep eol hs he p el
        lines (renderData sep eol data1) h (okHead_data sep eol he els1 data1 hrest)
        (by simpa [renderData] using hd)
      have := ih ss p1 (acc ++ [expectedList el lines]) (by simpa using hlen) hd1
      simp only [List.zip_cons_cons, DOM.parseLists, hL, List.zipWith_cons_cons]
      simpa [List.append_assoc] using this

theorem zipWith_lists (dom : DOM) (data : List (List (List (Bool × List Nat))))
    (hW : List.Forall₂ wellFormedLines dom.alElements data) :
    (List.zipWith expectedList dom.alElements data).length = dom.alElements.length ∧
    ∀ (k : Nat) (el : Element) (lines : List (List (Bool × List Nat))),
      dom.alElements[k]? = some el → data[k]? = some lines →
      (List.zipWith expectedList dom.alElements data)[k]? = some (expectedList el lines) ∧
      (expectedList el lines).alInstances.length = el.NumOccur ∧
      ∀ (j : Nat) (row : List (Bool × List Nat)), lines[j]? = some row →
        (expectedList el lines).alInstances[j]?
          = some (expectedInstance el.alProperties row) ∧
        (expectedInstance el.alProperties row).alProperties.length
          = el.alProperties.length ∧
        ∀ (i : Nat) (a : Property) (x : Bool × List Nat),
          el.alProperties[i]? = some a → row[i]? = some x →
          (expectedInstance el.alProperties row).alProperties[i]?
            = some { avList := [numberValue a.eType x] } := by
  refine ⟨by simp [hW.length_eq], ?_⟩
  intro k el lines hk hl
  have hwf : wellFormedLines el lines := by
    have := List.forall₂_iff_get.1 hW
    have hk1 := List.getElem?_eq_some.1 hk
    have hl1 := List.getElem?_eq_some.1 hl
    obtain ⟨h1, e1⟩ := hk1
    obtain ⟨h2, e2⟩ := hl1
    have := this.2 k h1 h2
    simpa [e1, e2] using this
  refine ⟨by simp [List.getElem?_zipWith, hk, hl], by simp [expectedList, hwf.2.1], ?_⟩
  intro j row hj
  have hline := hwf.2.2 row (by
    obtain ⟨hlt, e⟩ := List.getElem?_eq_some.1 hj
    exact e ▸ List.getElem_mem hlt)
  refine ⟨by simp [expectedList, hj], by simp [expectedInstance, hline.length_eq], ?_⟩
  intro i a x ha hx
  simp [expectedInstance, List.getElem?_zipWith, ha, hx]

theorem wellFormed_two_elements :
    List.Forall₂ wellFormedLines dom_two_elements.alElements data_two_elements := by
  refine List.Forall₂.cons ⟨by decide, rfl, ?_⟩
    (List.Forall₂.cons ⟨by decide, rfl, ?_⟩ .nil)
  · intro row hr
    simp only [data_two_elements, List.mem_cons, List.mem_singleton, List.not_mem_nil,
      or_false] at hr
    rcases hr with rfl | rfl
    · exact .cons ⟨rfl, by decide, by decide, .inl ⟨rfl, by decide⟩⟩
        (.cons ⟨rfl, by decide, by decide, .inr ⟨rfl, rfl, by decide⟩⟩ .nil)
    · exact .cons ⟨rfl, by decide, by decide, .inl ⟨rfl, by decide⟩⟩
        (.cons ⟨rfl, by decide, by decide, .inr ⟨rfl, rfl, by decide⟩⟩ .nil)
  · intro row hr
    simp only [List.mem_singleton] at hr
    subst hr
    exact .cons ⟨rfl, by decide, by decide, .inl ⟨rfl, by decide⟩⟩ .nil

/-- The decode order behind a header that was parsed: when `ParseHeader` returns on a text
file, with recognized elements of scalar integer properties, and the data section holds,
element after element in declaration order, `NumOccur` lines of one well-formed decimal integer
per declared property (any non-empty blank text as separator and as line end), then
`DOM::ParseInstance` returns true, `alElementData` is as long as `alElements`, the k-th
instance list has `NumOccur` instances of element k, and property i of instance j of element
k holds the i-th number of that line. -/
theorem ParseInstance_decodes_in_order (F : FloatLib) (fuel : Nat) (buf : Buf) (h : Nat)
    (dom : DOM) (sep eol : List Nat) (data : List (List (List (Bool × List Nat))))
    (hs : isBlankText sep) (he : isBlankText eol)
    (hH : DOM.ParseHeader fuel buf 0 {} = some (true, SkipSpacesAndLineEnd buf h, dom))
    (hD : buf.drop h = renderData sep eol data)
    (hW : List.Forall₂ wellFormedLines dom.alElements data) :
    ∃ d : DOM, DOM.ParseInstance F fuel buf 0 {} = some (true, d) ∧
      d.alElements = dom.alElements ∧
      d.alElementData.length = dom.alElements.length ∧
      ∀ (k : Nat) (el : Element) (lines : List (List (Bool × List Nat))),
        dom.alElements[k]? = some el → data[k]? = some lines →
        ∃ il : ElementInstanceList, d.alElementData[k]? = some il ∧
          il.alInstances.length = el.NumOccur ∧
          ∀ (j : Nat) (row : List (Bool × List Nat)), lines[j]? = some row →
            ∃ inst : ElementInstance, il.alInstances[j]? = some inst ∧
              inst.alProperties.length = el.alProperties.length ∧
              ∀ (i : Nat) (a : Property) (x : Bool × List Nat),
                el.alProperties[i]? = some a → row[i]? = some x →
                inst.alProperties[i]? = some { avList := [numberValue a.eType x] } := by
  have hd : buf.drop (SkipSpacesAndLineEnd buf h) = strip (renderData sep eol data) := by
    rw [drop_SkipSpacesAndLineEnd, hD]
  have hL := parseLists_data F buf sep eol hs he dom.alElements data hW
    (resize dom.alElementData dom.alElements.length {}) (SkipSpacesAndLineEnd buf h) []
    (length_resize _ _ _) hd
  obtain ⟨hlen, hpt⟩ := zipWith_lists dom data hW
  refine ⟨{ dom with alElementData := List.zipWith expectedList dom.alElements data }, ?_, rfl,
    hlen, ?_⟩
  · simp only [DOM.ParseInstance, hH, DOM.ParseElementInstanceLists, hL]
    simp
  · intro k el lines hk hl
    obtain ⟨h1, h2, h3⟩ := hpt k el lines hk hl
    refine ⟨_, h1, h2, ?_⟩
    intro j row hj
    obtain ⟨h4, h5, h6⟩ := h3 j row hj
    exact ⟨_, h4, h5, h6⟩

/-- The decode order on `file_two_elements`: the hypotheses hold, and after the parse the
first property of the only `face` instance holds -40000. -/
theorem ParseInstance_decodes_in_order_witness :
    DOM.ParseHeader 3 file_two_elements 0 {}
      = some (true, SkipSpacesAndLineEnd file_two_elements 92, dom_two_elements) ∧
    file_two_elements.drop 92 = renderData [32] [10] data_two_elements ∧
    ∃ d : DOM, DOM.ParseInstance noFloats 3 file_two_elements 0 {} = some (true, d) ∧
      d.alElementData.length = 2 ∧
      ∃ (il : ElementInstanceList) (inst : ElementInstance),
        d.alElementData[1]? = some il ∧ il.alInstances.length = 1 ∧
        il.alInstances[0]? = some inst ∧
        inst.alProperties[0]? = some { avList := [.iInt (-40000)] } := by
  have hH : DOM.ParseHeader 3 file_two_elements 0 {}
      = some (true, SkipSpacesAndLineEnd file_two_elements 92, dom_two_elements) := by decide!
  have hD : file_two_elements.drop 92 = renderData [32] [10] data_two_elements := by decide!
  obtain ⟨d, h1, _, h3, h4⟩ := ParseInstance_decodes_in_order noFloats 3 file_two_elements 92
    dom_two_elements [32] [10] data_two_elements ⟨by decide, by decide⟩
    ⟨by decide, by decide⟩ hH hD wellFormed_two_elements
  obtain ⟨il, h5, h6, h7⟩ := h4 1 _ _ rfl rfl
  obtain ⟨inst, h8, _, h9⟩ := h7 0 _ rfl
  exact ⟨hH, hD, d, h1, h3, il, inst, h5, h6, h8, h9 0 _ _ rfl rfl⟩

/-! ### The branches of the type recognizer -/

theorem ite_rule {α : Type} (P : α → Prop) (c : Prop) [Decidable c] (a b : α)
    (ha : c → P a) (hb : P b) : P (if c then a else b) := by
  split_ifs with h
  · exact ha h
  · exact hb

/-- Either no branch of `ParseDataType` matches and the cursor stays, or the keyword of a
branch stands at the entry cursor and the cursor is beyond it by the length of that branch. -/
theorem ParseDataType_cursor (buf : Buf) (p : Nat) :
    Property.ParseDataType buf p = (EDT_INVALID, p) ∨
    ∃ b ∈ typeBranches, ASSIMP_strincmp buf p b.1 b.2 = 0 ∧
      (Property.ParseDataType buf p).2 = p + b.2 := by
  have key : ∀ r : EDataType × Nat,
      (r = (EDT_INVALID, p) ∨
        ∃ b ∈ typeBranches, ASSIMP_strincmp buf p b.1 b.2 = 0 ∧ r.2 = p + b.2) →
      ((if !(IsSpace (peek buf r.2) || IsLineEnd (peek buf r.2)) then (EDT_INVALID, r.2)
        else r) = (EDT_INVALID, p) ∨
       ∃ b ∈ typeBranches, ASSIMP_strincmp buf p b.1 b.2 = 0 ∧
        (if !(IsSpace (peek buf r.2) || IsLineEnd (peek buf r.2)) then (EDT_INVALID, r.2)
          else r).2 = p + b.2) := by
    intro r hr
    rcases hr with rfl | ⟨b, hb, h0, hc⟩
    · left; split_ifs <;> rfl
    · right; refine ⟨b, hb, h0, ?_⟩; split_ifs <;> exact hc
  refine key _ ?_
  repeat' apply ite_rule (fun r : EDataType × Nat => r = (EDT_INVALID, p) ∨
    ∃ b ∈ typeBranches, ASSIMP_strincmp buf p b.1 b.2 = 0 ∧ r.2 = p + b.2)
  all_goals first
    | exact Or.inl rfl
    | (intro h
       simp only [Bool.or_eq_true, beq_iff_eq] at h
       first
         | exact Or.inr ⟨(_, _), by simp [typeBranches], h, rfl⟩
         | (rcases h with h | h <;> exact Or.inr ⟨(_, _), by simp [typeBranches], h, rfl⟩))

/-! ### The header loop behind a property line that fails -/

/-- The header loop at the property line that follows the bad one (cursor 49) makes no
step. -/
theorem ParseHeader_bad_type_stuck (fuel : Nat) (dom : DOM) :
    DOM.ParseHeader fuel header_bad_type 49 dom = none :=
  ParseHeader_no_progress header_bad_type 49 {} (by decide!) (by decide!) (by decide!) fuel dom

/-! ### Binary lists and the types of declared properties -/

/-- The list loop of the binary routine keeps what is in the list and appends one value per
iteration. -/
theorem parseListValuesBinary_length (buf : Buf) (eType : EDataType) (be : Bool) :
    ∀ (n p : Nat) (v : ValueUnion) (acc : List ValueUnion),
      ∃ vs : List ValueUnion,
        (PropertyInstance.parseListValuesBinary buf eType be n p v acc).2 = acc ++ vs ∧
        vs.length = n := by
  intro n
  induction n with
  | zero => intro p v acc; exact ⟨[], by simp [PropertyInstance.parseListValuesBinary], rfl⟩
  | succ k ih =>
    intro p v acc
    obtain ⟨vs, h1, h2⟩ := ih (PropertyInstance.ParseValueBinary buf p eType v be).2.1
      (PropertyInstance.ParseValueBinary buf p eType v be).2.2
      (acc ++ [(PropertyInstance.ParseValueBinary buf p eType v be).2.2])
    refine ⟨(PropertyInstance.ParseValueBinary buf p eType v be).2.2 :: vs, ?_, by simp [h2]⟩
    simp only [PropertyInstance.parseListValuesBinary, h1]
    simp

theorem parseName_fields (buf : Buf) (p q : Nat) (o : Property) :
    (Property.parseName buf p q o).2.2.eType = o.eType ∧
    (Property.parseName buf p q o).2.2.bIsList = o.bIsList ∧
    (Property.parseName buf p q o).2.2.eFirstType = o.eFirstType := by
  simp only [Property.parseName]
  split_ifs <;> simp

/-- A property line that `ParseProperty` accepts into a fresh `Property` has a valid value
type; it is a list exactly when the keyword `list` and a blank follow `property`, and then the
count type is valid too, otherwise the count type is the one the constructor set. -/
theorem ParseProperty_valid (buf : Buf) (p : Nat)
    (h : (Property.ParseProperty buf p {}).1 = true) :
    validDeclaration (Property.ParseProperty buf p {}).2.2 ∧
    (Property.ParseProperty buf p {}).2.2.bIsList
      = (ASSIMP_strincmp buf (SkipSpaces buf ((SkipSpaces buf p).2 + 9)).2 "list" 4 == 0 &&
          IsSpace (peek buf ((SkipSpaces buf ((SkipSpaces buf p).2 + 9)).2 + 4))) ∧
    ((Property.ParseProperty buf p {}).2.2.bIsList = false →
      (Property.ParseProperty buf p {}).2.2.eFirstType = EDT_UChar) := by
  simp only [validDeclaration, Property.ParseProperty] at h ⊢
  split_ifs at h ⊢ with h1 h2 h3 h4 h5 h6 h7 h8
  all_goals simp only [(parseName_fields _ _ _ _).1, (parseName_fields _ _ _ _).2.1,
    (parseName_fields _ _ _ _).2.2]
  · exact ⟨⟨h7, fun _ => h5⟩, h4.symm, fun hc => absurd hc (by decide)⟩
  · exact ⟨⟨h8, fun hc => absurd hc (by decide)⟩, (Bool.eq_false_iff.mpr h4).symm,
      fun _ => trivial⟩

/-- The property loop of `ParseElement` appends only what `ParseProperty` accepted. -/
theorem parseProperties_declared (buf : Buf) :
    ∀ (n p : Nat) (acc : List Property), (∀ a ∈ acc, declaredBy buf a) →
      ∀ a ∈ (Element.parseProperties n buf p acc).2, declaredBy buf a := by
  intro n
  induction n with
  | zero => intro p acc hacc; simpa [Element.parseProperties] using hacc
  | succ k ih =>
    intro p acc hacc
    simp only [Element.parseProperties]
    split_ifs with hc
    · exact hacc
    · apply ih
      intro a ha
      rcases List.mem_append.1 ha with ha | ha
      · exact hacc a ha
      · rw [List.mem_singleton] at ha
        exact ⟨_, by simpa using hc, ha.symm⟩

/-- The properties of an element that `ParseElement` fills in, started on an element without
property, are what `ParseProperty` accepted. -/
theorem ParseElement_declared (buf : Buf) (p : Nat) :
    ∀ a ∈ (Element.ParseElement buf p {}).2.2.alProperties, declaredBy buf a := by
  simp only [Element.ParseElement]
  split_ifs
  all_goals first
    | (intro a ha; simp at ha; done)
    | (intro a ha
       refine parseProperties_declared buf _ _ _ ?_ a ha
       intro b hb
       exact absurd hb (List.not_mem_nil b))

/-- The header loop adds only elements whose properties are what `ParseProperty` accepted. -/
theorem ParseHeader_declared (buf : Buf) :
    ∀ (fuel p : Nat) (dom : DOM) (r : Bool × Nat × DOM),
      DOM.ParseHeader fuel buf p dom = some r →
      (∀ e ∈ dom.alElements, ∀ a ∈ e.alProperties, declaredBy buf a) →
      ∀ e ∈ r.2.2.alElements, ∀ a ∈ e.alProperties, declaredBy buf a := by
  intro fuel
  induction fuel with
  | zero => intro p dom r h; simp [DOM.ParseHeader] at h
  | succ k ih =>
    intro p dom r h hd
    simp only [DOM.ParseHeader] at h
    split_ifs at h
    · refine ih _ _ _ h ?_
      intro e he
      rcases List.mem_append.1 he with he | he
      · exact hd e he
      · rw [List.mem_singleton] at he
        subst he
        exact ParseElement_declared buf _
    · simp only [Option.some.injEq] at h
      rw [← h]
      exact hd
    · exact ih _ _ _ h hd

theorem ParseValueBinary_valid (buf : Buf) (q : Nat) (eType : EDataType) (out : ValueUnion)
    (be : Bool) (h : eType ≠ EDT_INVALID) :
    (PropertyInstance.ParseValueBinary buf q eType out be).1 = true := by
  cases eType <;> first | rfl | exact absurd rfl h

/-! ### Scanning loops, skipped lines and failed properties -/

theorem headD_dropWhile (f : Nat → Bool) (hf : f 0 = false) (l : List Nat) :
    f ((l.dropWhile f).headD 0) = false := by
  induction l with
  | nil => simpa using hf
  | cons c t ih =>
    cases hc : f c with
    | true => simpa [List.dropWhile, hc] using ih
    | false => simp [List.dropWhile, hc]

/-- A scanning loop whose condition is false on NUL stops on a byte that fails it. -/
theorem peek_scan (f : Nat → Bool) (hf : f 0 = false) (buf : Buf) (p : Nat) :
    f (peek buf (scan f buf p)) = false := by
  rw [peek_of_drop buf _ _ (drop_scan f buf p)]
  exact headD_dropWhile f hf _

theorem getD_takeWhile (f : Nat → Bool) (l : List Nat) :
    ∀ j : Nat, j < (l.takeWhile f).length → f (l.getD j 0) = true := by
  induction l with
  | nil => intro j hj; simp at hj
  | cons c t ih =>
    intro j hj
    cases hc : f c with
    | false => simp [List.takeWhile, hc] at hj
    | true =>
      cases j with
      | zero => simpa using hc
      | succ k =>
        simp only [List.takeWhile, hc, List.length_cons, Nat.add_lt_add_iff_right] at hj
        simpa using ih k hj

/-- Every byte a scanning loop steps over satisfies its condition. -/
theorem peek_before_scan (f : Nat → Bool) (buf : Buf) (p k : Nat) (h1 : p ≤ k)
    (h2 : k < scan f buf p) : f (peek buf k) = true := by
  have hj : k - p < ((buf.drop p).takeWhile f).length := by
    unfold scan at h2; omega
  have := getD_takeWhile f (buf.drop p) (k - p) hj
  have e : (buf.drop p).getD (k - p) 0 = peek buf k := by
    simp only [peek, List.getD_eq_getElem?_getD, List.getElem?_drop]
    congr 2
    omega
  rwa [e] at this

/-- `SkipLine` goes to the first CR, LF or NUL at or after the cursor, and steps over it unless
it is NUL. -/
theorem SkipLine_spec (buf : Buf) (p : Nat) :
    ∃ e : Nat, p ≤ e ∧ IsLineEnd (peek buf e) = true ∧
      (∀ k : Nat, p ≤ k → k < e → IsLineEnd (peek buf k) = false) ∧
      (SkipLine buf p).2 = if peek buf e = 0 then e else e + 1 := by
  refine ⟨scan (fun c => c != 13 && c != 10 && c != 0) buf p, le_scan _ buf p, ?_, ?_, ?_⟩
  · have := peek_scan (fun c => c != 13 && c != 10 && c != 0) (by decide) buf p
    generalize peek buf (scan (fun c => c != 13 && c != 10 && c != 0) buf p) = c at this
    simp only [IsLineEnd]
    simp only [Bool.and_eq_false_iff, bne_eq_false_iff_eq] at this
    rcases this with (h | h) | h <;> simp [h]
  · intro k h1 h2
    have := peek_before_scan (fun c => c != 13 && c != 10 && c != 0) buf p k h1 h2
    generalize peek buf k = c at this
    simp only [Bool.and_eq_true, bne_iff_ne, ne_eq] at this
    simp [IsLineEnd, this.1.1, this.1.2, this.2]
  · simp only [SkipLine]
    split_ifs with h1 h2 h2 <;> simp_all

/-! ### Properties that end early -/

theorem SkipSpaces_fst (buf : Buf) (p : Nat) :
    (SkipSpaces buf p).1 = !IsLineEnd (peek buf (SkipSpaces buf p).2) := rfl

/-- The list loop of the text routine: it fails exactly when the line ends early, and the list
is what it was, followed by the values read before the line ended. -/
theorem parseListValues_spec (F : FloatLib) (buf : Buf) (eType : EDataType) :
    ∀ (n p : Nat) (v : ValueUnion) (acc : List ValueUnion),
      (PropertyInstance.parseListValues F buf eType n p v acc).1
        = !listEndsEarly F buf eType n p v ∧
      (PropertyInstance.parseListValues F buf eType n p v acc).2.2
        = acc ++ listValuesRead F buf eType n p v := by
  intro n
  induction n with
  | zero => intro p v acc; simp [PropertyInstance.parseListValues, listEndsEarly, listValuesRead]
  | succ k ih =>
    intro p v acc
    simp only [PropertyInstance.parseListValues, listEndsEarly, listValuesRead, SkipSpaces_fst]
    cases hl : IsLineEnd (peek buf (SkipSpaces buf p).2) with
    | true => simp
    | false =>
      simp only [Bool.not_false, Bool.not_true, Bool.false_eq_true, if_false]
      obtain ⟨h1, h2⟩ := ih
        (PropertyInstance.ParseValue F buf (SkipSpaces buf p).2 eType v).2.1
        (PropertyInstance.ParseValue F buf (SkipSpaces buf p).2 eType v).2.2
        (acc ++ [(PropertyInstance.ParseValue F buf (SkipSpaces buf p).2 eType v).2.2])
      exact ⟨h1, by rw [h2]; simp⟩

/-- The text routine for one property: it returns false exactly when the line ends early,
then with the cursor it was given and the list it was given followed by the values read
before the line ended. -/
theorem ParseInstance_spec (F : FloatLib) (buf : Buf) (p : Nat) (a : Property)
    (i : PropertyInstance) :
    (PropertyInstance.ParseInstance F buf p a i).1 = !endsEarly F buf p a ∧
    (endsEarly F buf p a = true →
      (PropertyInstance.ParseInstance F buf p a i).2.1 = p ∧
      (PropertyInstance.ParseInstance F buf p a i).2.2.avList
        = i.avList ++ valuesReadBefore F buf p a) := by
  simp only [PropertyInstance.ParseInstance, endsEarly, valuesReadBefore, SkipSpaces_fst]
  cases hl : IsLineEnd (peek buf (SkipSpaces buf p).2) with
  | true => simp
  | false =>
    cases hb : a.bIsList with
    | false => simp
    | true =>
      obtain ⟨h1, h2⟩ := parseListValues_spec F buf a.eType
        (PropertyInstance.ConvertTo F
          (PropertyInstance.ParseValue F buf (SkipSpaces buf p).2 a.eFirstType .unset).2.2
          a.eFirstType)
        (PropertyInstance.ParseValue F buf (SkipSpaces buf p).2 a.eFirstType .unset).2.1
        (PropertyInstance.ParseValue F buf (SkipSpaces buf p).2 a.eFirstType .unset).2.2
        i.avList
      simp only [Bool.not_false, Bool.not_true, Bool.false_eq_true, if_false, if_true,
        Bool.false_or, Bool.true_and, Bool.or_false, h1]
      cases he : listEndsEarly F buf a.eType
        (PropertyInstance.ConvertTo F
          (PropertyInstance.ParseValue F buf (SkipSpaces buf p).2 a.eFirstType .unset).2.2
          a.eFirstType)
        (PropertyInstance.ParseValue F buf (SkipSpaces buf p).2 a.eFirstType .unset).2.1
        (PropertyInstance.ParseValue F buf (SkipSpaces buf p).2 a.eFirstType .unset).2.2 with
      | false => simp
      | true => simp [h2]

/-- The header loop behind the keyword `r` of the name `radius` (cursor 31) makes no step. -/
theorem ParseHeader_radius_stuck (fuel : Nat) (dom : DOM) :
    DOM.ParseHeader fuel file_int_radius 31 dom = none :=
  ParseHeader_no_progress file_int_radius 31 {} (by decide!) (by decide!) (by decide!) fuel dom

/-- The header loop inside the name `specular_power` (cursor 37) makes no step. -/
theorem ParseHeader_specular_power_stuck (fuel : Nat) (dom : DOM) :
    DOM.ParseHeader fuel file_int_specular_power 37 dom = none :=
  ParseHeader_no_progress file_int_specular_power 37 {} (by decide!) (by decide!) (by decide!)
    fuel dom

/-- The header loop on the LF behind the comment line (cursor 21) makes no step. -/
theorem ParseHeader_crlf_stuck (fuel : Nat) (dom : DOM) :
    DOM.ParseHeader fuel file_int_crlf_comment 21 dom = none :=
  ParseHeader_no_progress file_int_crlf_comment 21 {} (by decide!) (by decide!) (by decide!)
    fuel dom

/-! ## Theorems -/

/-- C1, the code at the failing input: on a text that starts with `float64`, whatever
follows, `ParseDataType` takes the branch of `float` (tried before `float64`), stops after 5
characters on the `6` and answers `EDT_INVALID`, while its alias `double` yields `EDT_Double`;
each of the 16 other keywords, in lower and in upper case, followed by a blank, a tab, CR, LF
or NUL, yields its tag with the cursor right after the keyword. -/
theorem ParseDataType_float64_invalid :
    (∀ rest : Buf, Property.ParseDataType (bytes "float64" ++ rest) 0 = (EDT_INVALID, 5)) ∧
    (∀ rest : Buf, Property.ParseDataType (bytes "double " ++ rest) 0 = (EDT_Double, 6)) ∧
    (∀ kw ∈ typeKeywords, ∀ t ∈ [32, 9, 13, 10, 0],
      Property.ParseDataType (bytes kw.1 ++ [t]) 0 = (kw.2, kw.1.length) ∧
      Property.ParseDataType ((bytes kw.1).map toUpper ++ [t]) 0 = (kw.2, kw.1.length)) :=
  ⟨fun _ => rfl, fun _ => rfl, by decide!⟩

set_option maxRecDepth 1000000 in
/-- C2: on the vertex/face header `ParseHeader` ends after three iterations of its loop (with
any larger bound as well), returns true with the cursor after `end_header`, and `alElements`
holds exactly the `vertex` element (4 occurrences; three non-list `float` properties `x`, `y`,
`z`) followed by the `face` element (2 occurrences; one list property, count type `uchar`,
value type `int`, semantic vertex index). -/
theorem ParseHeader_vertex_face (n : Nat) :
    DOM.ParseHeader (n + 3) header_vertex_face 0 {} =
      some (true, 131,
        { alElements :=
            [ { eSemantic := EEST_Vertex, NumOccur := 4, szName := [],
                alProperties :=
                  [ { eType := EDT_Float, Semantic := EST_XCoord, bIsList := false },
                    { eType := EDT_Float, Semantic := EST_YCoord, bIsList := false },
                    { eType := EDT_Float, Semantic := EST_ZCoord, bIsList := false } ] },
              { eSemantic := EEST_Face, NumOccur := 2, szName := [],
                alProperties :=
                  [ { eType := EDT_Int, Semantic := EST_VertexIndex, bIsList := true,
                      eFirstType := EDT_UChar } ] } ],
          alElementData := [] }) := by
  rfl

set_option maxRecDepth 1000000 in
/-- C3, the code at the failing input (one `int` property, value 7 in little-endian bytes):
`ElementInstance::ParseInstanceBinary` decodes the property with the text routine, which
stores 0 and does not move the cursor, where the binary routine it does not call yields 7 and
cursor 4; and `DOM::ParseInstanceBinary` on the whole file ends in the write `alInstances[0]`
to a vector of size 0. -/
theorem ParseInstanceBinary_int_seven (F : FloatLib) (n : Nat) :
    ElementInstance.ParseInstanceBinary F [7, 0, 0, 0] 0
        { eSemantic := EEST_Vertex, NumOccur := 1, alProperties := [{ eType := EDT_Int }] }
        {} false
      = (true, 0, { alProperties := [{ avList := [.iInt 0] }] }) ∧
    PropertyInstance.ParseInstanceBinary F [7, 0, 0, 0] 0 { eType := EDT_Int } {} false
      = (true, 4, { avList := [.iInt 7] }) ∧
    DOM.ParseInstanceBinary F (n + 2) file_int_seven 0 {} false = some .outOfBounds :=
  ⟨rfl, rfl, rfl⟩

/-- C4, the code at the failing input: for `EDT_UChar`, whose width is 1,
`ParseValueBinary` returns true and advances the cursor by 2, for either value of the
big-endian flag; for the seven other types it returns true and advances by the width. -/
theorem ParseValueBinary_uchar_advance (buf : Buf) (p : Nat) (out : ValueUnion) (be : Bool) :
    PropertyInstance.ParseValueBinary buf p EDT_UChar out be = (true, p + 2, .iUInt (u8 buf p)) ∧
    width EDT_UChar = 1 ∧
    ((PropertyInstance.ParseValueBinary buf p EDT_Char out be).1 = true ∧
      (PropertyInstance.ParseValueBinary buf p EDT_Char out be).2.1 = p + width EDT_Char) ∧
    ((PropertyInstance.ParseValueBinary buf p EDT_Short out be).1 = true ∧
      (PropertyInstance.ParseValueBinary buf p EDT_Short out be).2.1 = p + width EDT_Short) ∧
    ((PropertyInstance.ParseValueBinary buf p EDT_UShort out be).1 = true ∧
      (PropertyInstance.ParseValueBinary buf p EDT_UShort out be).2.1 = p + width EDT_UShort) ∧
    ((PropertyInstance.ParseValueBinary buf p EDT_Int out be).1 = true ∧
      (PropertyInstance.ParseValueBinary buf p EDT_Int out be).2.1 = p + width EDT_Int) ∧
    ((PropertyInstance.ParseValueBinary buf p EDT_UInt out be).1 = true ∧
      (PropertyInstance.ParseValueBinary buf p EDT_UInt out be).2.1 = p + width EDT_UInt) ∧
    ((PropertyInstance.ParseValueBinary buf p EDT_Float out be).1 = true ∧
      (PropertyInstance.ParseValueBinary buf p EDT_Float out be).2.1 = p + width EDT_Float) ∧
    ((PropertyInstance.ParseValueBinary buf p EDT_Double out be).1 = true ∧
      (PropertyInstance.ParseValueBinary buf p EDT_Double out be).2.1 = p + width EDT_Double) :=
  ⟨rfl, rfl, ⟨rfl, rfl⟩, ⟨rfl, rfl⟩, ⟨rfl, rfl⟩, ⟨rfl, rfl⟩, ⟨rfl, rfl⟩, ⟨rfl, rfl⟩, ⟨rfl, rfl⟩⟩

/-- C5: on a little-endian host `ParseValueBinary` decodes the integer types by byte order.
Without the big-endian flag the bytes at the cursor are read little-endian, with the flag
big-endian (which for four bytes exchanges bytes 0 and 3, 1 and 2, and for two bytes exchanges
bytes 0 and 1); one-byte types do not depend on the flag. `UInt`, `UShort` and `UChar` store
the value itself in the unsigned payload (zero extension), `Int`, `Short` and `Char` store the
two's-complement value of the 32, 16 or 8 bits in the signed payload (sign extension). -/
theorem ParseValueBinary_integer_byte_order (buf : Buf) (p : Nat) (out : ValueUnion) :
    (PropertyInstance.ParseValueBinary buf p EDT_UInt out false).2.2
        = .iUInt (littleEndian (bytesAt buf p 4)) ∧
    (PropertyInstance.ParseValueBinary buf p EDT_UInt out true).2.2
        = .iUInt (bigEndian (bytesAt buf p 4)) ∧
    (PropertyInstance.ParseValueBinary buf p EDT_Int out false).2.2
        = .iInt (signExtend 32 (littleEndian (bytesAt buf p 4))) ∧
    (PropertyInstance.ParseValueBinary buf p EDT_Int out true).2.2
        = .iInt (signExtend 32 (bigEndian (bytesAt buf p 4))) ∧
    (PropertyInstance.ParseValueBinary buf p EDT_UShort out false).2.2
        = .iUInt (littleEndian (bytesAt buf p 2)) ∧
    (PropertyInstance.ParseValueBinary buf p EDT_UShort out true).2.2
        = .iUInt (bigEndian (bytesAt buf p 2)) ∧
    (PropertyInstance.ParseValueBinary buf p EDT_Short out false).2.2
        = .iInt (signExtend 16 (littleEndian (bytesAt buf p 2))) ∧
    (PropertyInstance.ParseValueBinary buf p EDT_Short out true).2.2
        = .iInt (signExtend 16 (bigEndian (bytesAt buf p 2))) ∧
    (∀ be, (PropertyInstance.ParseValueBinary buf p EDT_UChar out be).2.2
        = .iUInt (u8 buf p)) ∧
    (∀ be, (PropertyInstance.ParseValueBinary buf p EDT_Char out be).2.2
        = .iInt (signExtend 8 (u8 buf p))) := by
  have h0 := u8_lt buf p
  have h1 := u8_lt buf (p + 1)
  have h2 := u8_lt buf (p + 2)
  have h3 := u8_lt buf (p + 3)
  have l4 : littleEndian (bytesAt buf p 4) = load32 buf p := by
    simp only [bytesAt_four, littleEndian, load32, Nat.add_zero]; omega
  have b4 : bigEndian (bytesAt buf p 4) = swap32 (load32 buf p) := by
    simp only [bytesAt_four, bigEndian, List.reverse_cons, List.reverse_nil, List.nil_append,
      List.cons_append, littleEndian, load32, swap32_bytes _ _ _ _ h0 h1 h2 h3, Nat.add_zero]
    omega
  have l2 : littleEndian (bytesAt buf p 2) = load16 buf p := by
    simp only [bytesAt_two, littleEndian, load16, Nat.add_zero]; omega
  have b2 : bigEndian (bytesAt buf p 2) = swap16 (load16 buf p) := by
    simp only [bytesAt_two, bigEndian, List.reverse_cons, List.reverse_nil, List.nil_append,
      List.cons_append, littleEndian, load16, swap16_bytes _ _ h0 h1, Nat.add_zero]
    omega
  have r32 : load32 buf p < 4294967296 := by unfold load32; omega
  have s32 : swap32 (load32 buf p) < 4294967296 := by
    unfold load32; rw [swap32_bytes _ _ _ _ h0 h1 h2 h3]; omega
  have r16 : load16 buf p < 65536 := by unfold load16; omega
  have s16 : swap16 (load16 buf p) < 65536 := by
    unfold load16; rw [swap16_bytes _ _ h0 h1]; omega
  rw [l4, b4, l2, b2]
  refine ⟨rfl, rfl, ?_, ?_, rfl, rfl, ?_, ?_, fun _ => rfl, fun _ => ?_⟩
  · exact congrArg ValueUnion.iInt (toInt32_eq_signExtend _ r32)
  · exact congrArg ValueUnion.iInt (toInt32_eq_signExtend _ s32)
  · exact congrArg ValueUnion.iInt (toInt16_eq_signExtend _ r16)
  · exact congrArg ValueUnion.iInt (toInt16_eq_signExtend _ s16)
  · exact congrArg ValueUnion.iInt (toInt8_eq_signExtend _ h0)

/-- C6, the code at the failing input: for a list of `double` counted by a `uchar`, on the
line `2 1.5 2.5`, `ParseInstance` returns true with two values, both read from the text of the
first one (cursor 2), and leaves the cursor there instead of at the next line (cursor 10). -/
theorem ParseInstance_double_list (F : FloatLib) :
    PropertyInstance.ParseInstance F (bytes "2 1.5 2.5\n") 0
        { eType := EDT_Double, bIsList := true, eFirstType := EDT_UChar } {}
      = (true, 2,
          { avList :=
              [ .fDouble (F.toDouble (F.fast_atof_move (bytes "2 1.5 2.5\n") 2).2),
                .fDouble (F.toDouble (F.fast_atof_move (bytes "2 1.5 2.5\n") 2).2) ] }) := by
  have h1 : SkipSpaces (bytes "2 1.5 2.5\n") 0 = (true, 0) := by decide!
  have h2 : PropertyInstance.ParseValue F (bytes "2 1.5 2.5\n") 0 EDT_UChar .unset
      = (true, 1, .iUInt 2) := rfl
  have h3 : PropertyInstance.parseListValues F (bytes "2 1.5 2.5\n") EDT_Double 2 1
      (.iUInt 2) []
      = (true, 2, [ .fDouble (F.toDouble (F.fast_atof_move (bytes "2 1.5 2.5\n") 2).2),
                .fDouble (F.toDouble (F.fast_atof_move (bytes "2 1.5 2.5\n") 2).2) ]) := rfl
  have h4 : SkipSpacesAndLineEnd (bytes "2 1.5 2.5\n") 2 = 2 := by decide!
  simp only [PropertyInstance.ParseInstance, h1, h2, PropertyInstance.ConvertTo,
    ValueUnion.getUInt, h3, h4]
  rfl

/-- C8, the code at the failing input: when the data section ends before the instances of a
`vertex` element with one `int` property (cursor on NUL), `ParseInstanceList` stores
`NumOccur = 2` instances that have no property instance at all. -/
theorem ParseInstanceList_truncated (F : FloatLib) :
    ElementInstanceList.ParseInstanceList F (bytes "") 0
        { eSemantic := EEST_Vertex, NumOccur := 2, alProperties := [{ eType := EDT_Int }] } {}
      = (true, 0, { alInstances := [{ alProperties := [] }, { alProperties := [] }] }) :=
  rfl

/-- The header loop at the unknown name `blob` (cursor 8) makes no step. -/
theorem ParseHeader_blob_stuck (fuel : Nat) (dom : DOM) :
    DOM.ParseHeader fuel header_blob 8 dom = none := by
  have hS : DOM.SkipComments header_blob 8 = (false, 8) := by decide!
  have hE : Element.ParseElement header_blob 8 {} = (false, 8, {}) := by decide!
  have hH : ASSIMP_strincmp header_blob 8 "end_header" 10 = 1 := by decide!
  induction fuel with
  | zero => rfl
  | succ k ih =>
    simp only [DOM.ParseHeader, hS, hE, hH]
    simpa using ih

/-- C9, the code at the failing input: on a header whose first element line is
`element blob 5`, `ParseElement` stores an element with an empty name, no occurrence and no
property and leaves the cursor on `blob` (cursor 8); from there `ParseHeader` never reaches
`end_header`, whatever the number of iterations. -/
theorem ParseHeader_blob_diverges (fuel : Nat) :
    Element.ParseElement header_blob 0 {}
      = (true, 8, { eSemantic := EEST_INVALID, szName := [], NumOccur := 0, alProperties := [] })
    ∧ DOM.ParseHeader fuel header_blob 0 {} = none := by
  have hS : DOM.SkipComments header_blob 0 = (false, 0) := by decide!
  have hE : Element.ParseElement header_blob 0 {}
      = (true, 8, { eSemantic := EEST_INVALID, szName := [], NumOccur := 0,
                    alProperties := [] }) := by decide!
  refine ⟨hE, ?_⟩
  cases fuel with
  | zero => rfl
  | succ k =>
    simp only [DOM.ParseHeader, hS, hE]
    simpa using ParseHeader_blob_stuck k _

/-- C10, the code at the failing input: on `property float radius` the name starts with the
keyword `r`, so `ParseProperty` returns true with the semantic `EST_INVALID`, the name `r` and
the cursor on `adius` (cursor 16, the next line starts at 22); likewise `bar` is stored as `b`
and `zmin` as `z`. On `property float nx` the name is the whole token and the cursor is at
the next line. -/
theorem ParseProperty_radius :
    Property.ParseProperty (bytes "property float radius\n") 0 {}
      = (true, 16, { eType := EDT_Float, Semantic := EST_INVALID, szName := bytes "r" }) ∧
    Property.ParseProperty (bytes "property float bar\n") 0 {}
      = (true, 16, { eType := EDT_Float, Semantic := EST_INVALID, szName := bytes "b" }) ∧
    Property.ParseProperty (bytes "property float zmin\n") 0 {}
      = (true, 16, { eType := EDT_Float, Semantic := EST_INVALID, szName := bytes "z" }) ∧
    Property.ParseProperty (bytes "property float nx\n") 0 {}
      = (true, 18, { eType := EDT_Float, Semantic := EST_INVALID, szName := bytes "nx" }) := by
  decide!

set_option maxRecDepth 1000000 in
/-- C11, the code at the failing input: with CR LF line ends a comment line changes the result.
The header `header_crlf` alone is parsed (one `vertex` with a float `x`), and so is the LF
header with a comment line in front; but with the comment line in front of the CR LF header
`SkipComments` stops on the LF of the comment line (cursor 21), `ParseElement` fails there, no
`end_header` stands there, and the header loop does not end within any number of iterations. -/
theorem ParseHeader_crlf_comment (n fuel : Nat) :
    DOM.ParseHeader (n + 2) header_crlf 0 {} =
      some (true, 48,
        { alElements :=
            [ { eSemantic := EEST_Vertex, NumOccur := 1,
                alProperties := [{ eType := EDT_Float, Semantic := EST_XCoord }] } ] }) ∧
    DOM.ParseHeader (n + 2) header_lf_comment 0 {} =
      some (true, 66,
        { alElements :=
            [ { eSemantic := EEST_Vertex, NumOccur := 1,
                alProperties := [{ eType := EDT_Float, Semantic := EST_XCoord }] } ] }) ∧
    DOM.SkipComments header_crlf_comment 0 = (true, 21) ∧
    peek header_crlf_comment 21 = 10 ∧
    DOM.ParseHeader fuel header_crlf_comment 0 {} = none := by
  have hS : DOM.SkipComments header_crlf_comment 0 = (true, 21) := by decide!
  have hE : Element.ParseElement header_crlf_comment 21 {} = (false, 21, {}) := by decide!
  refine ⟨rfl, rfl, hS, by decide!, ?_⟩
  cases fuel with
  | zero => rfl
  | succ k =>
    simp only [DOM.ParseHeader, hS, hE]
    have hH : ASSIMP_strincmp header_crlf_comment 21 "end_header" 10 = 1 := by decide!
    simpa [hH] using
      ParseHeader_no_progress header_crlf_comment 21 {} (by decide!) hE (by decide!) k {}

set_option maxRecDepth 1000000 in
/-- C12, the code at the failing input: a header line that is no comment, element, property or
`end_header` is not skipped. `header_lf` is parsed; with the line `obj_info made by hand` in
front of it the header loop makes no progress and does not end within any number of
iterations. -/
theorem ParseHeader_obj_info (n fuel : Nat) :
    DOM.ParseHeader (n + 2) header_lf 0 {} =
      some (true, 45,
        { alElements :=
            [ { eSemantic := EEST_Vertex, NumOccur := 1,
                alProperties := [{ eType := EDT_Float, Semantic := EST_XCoord }] } ] }) ∧
    DOM.ParseHeader fuel header_obj_info 0 {} = none :=
  ⟨rfl, ParseHeader_no_progress header_obj_info 0 {} (by decide!) (by decide!) (by decide!)
    fuel {}⟩

/-- C14, the code at the failing input: for every element that occurs at least once,
`ElementInstanceList::ParseInstanceListBinary` on the list the constructor built writes
`alInstances[0]` out of bounds: the constructor only reserves storage and leaves the length
0, and the binary routine does not resize. -/
theorem ParseInstanceListBinary_out_of_bounds (F : FloatLib) (buf : Buf) (p n : Nat)
    (pcElement : Element) (be : Bool) :
    ElementInstanceList.ParseInstanceListBinary F buf p { pcElement with NumOccur := n + 1 }
        (ElementInstanceList.mk_reserved { pcElement with NumOccur := n + 1 }) be
      = .outOfBounds ∧
    (ElementInstanceList.mk_reserved { pcElement with NumOccur := n + 1 }).alInstances.length
      = 0 := by
  simp [ElementInstanceList.ParseInstanceListBinary, ElementInstanceList.parseInstancesBinary,
    ElementInstanceList.mk_reserved]

set_option maxRecDepth 1000000 in
/-- C15, the code at the failing input: on a file with one `vertex` element, one scalar `int`
property and the data line `5`, `DOM::ParseInstance` decodes the value when the property is
named `x`. When it is named `radius`, `ParseElement` leaves the cursor behind the keyword `r`
(cursor 31, on `adius`), the header loop never ends and `DOM::ParseInstance` does not return,
whatever the number of iterations; likewise when the property is named `specular_power`, and
when the lines end in CR LF and a comment line stands in front. -/
theorem ParseInstance_radius_diverges (F : FloatLib) (n fuel : Nat) :
    Element.ParseElement file_int_radius 0 {}
      = (true, 31, { eSemantic := EEST_Vertex, NumOccur := 1,
                     alProperties := [{ eType := EDT_Int, szName := bytes "r" }] }) ∧
    DOM.ParseInstance F fuel file_int_radius 0 {} = none ∧
    DOM.ParseInstance F fuel file_int_specular_power 0 {} = none ∧
    DOM.ParseInstance F fuel file_int_crlf_comment 0 {} = none ∧
    DOM.ParseInstance F (n + 2) file_int_x 0 {}
      = some (true,
          { alElements :=
              [ { eSemantic := EEST_Vertex, NumOccur := 1,
                  alProperties := [{ eType := EDT_Int, Semantic := EST_XCoord }] } ],
            alElementData :=
              [ { alInstances := [{ alProperties := [{ avList := [.iInt 5] }] }] } ] }) := by
  have hE1 : Element.ParseElement file_int_radius 0 {}
      = (true, 31, { eSemantic := EEST_Vertex, NumOccur := 1,
                     alProperties := [{ eType := EDT_Int, szName := bytes "r" }] }) := by
    decide!
  have hE2 : Element.ParseElement file_int_specular_power 0 {}
      = (true, 37, { eSemantic := EEST_Vertex, NumOccur := 1,
                     alProperties := [{ eType := EDT_Int, szName := bytes "specula" }] }) := by
    decide!
  have hS1 : DOM.SkipComments file_int_radius 0 = (false, 0) := by decide!
  have hS2 : DOM.SkipComments file_int_specular_power 0 = (false, 0) := by decide!
  have hS3 : DOM.SkipComments file_int_crlf_comment 0 = (true, 21) := by decide!
  have hE3 : Element.ParseElement file_int_crlf_comment 21 {} = (false, 21, {}) := by decide!
  have hH3 : ASSIMP_strincmp file_int_crlf_comment 21 "end_header" 10 = 1 := by decide!
  have h1 : DOM.ParseHeader fuel file_int_radius 0 {} = none := by
    cases fuel with
    | zero => rfl
    | succ k =>
      simp only [DOM.ParseHeader, hS1, hE1]
      simpa using ParseHeader_radius_stuck k _
  have h2 : DOM.ParseHeader fuel file_int_specular_power 0 {} = none := by
    cases fuel with
    | zero => rfl
    | succ k =>
      simp only [DOM.ParseHeader, hS2, hE2]
      simpa using ParseHeader_specular_power_stuck k _
  have h3 : DOM.ParseHeader fuel file_int_crlf_comment 0 {} = none := by
    cases fuel with
    | zero => rfl
    | succ k =>
      simp only [DOM.ParseHeader, hS3, hE3]
      simpa [hH3] using ParseHeader_crlf_stuck k {}
  have h4 : DOM.ParseHeader (n + 2) file_int_x 0 {}
      = some (true, 43,
          { alElements :=
              [ { eSemantic := EEST_Vertex, NumOccur := 1,
                  alProperties := [{ eType := EDT_Int, Semantic := EST_XCoord }] } ] }) := rfl
  have hC : DOM.SkipComments file_int_x 43 = (false, 43) := by decide!
  have hS : SkipSpaces file_int_x 43 = (true, 43) := by decide!
  have hP : PropertyInstance.ParseInstance F file_int_x 43
      { eType := EDT_Int, Semantic := EST_XCoord } {} = (true, 45, { avList := [.iInt 5] }) :=
    rfl
  refine ⟨hE1, by simp [DOM.ParseInstance, h1], by simp [DOM.ParseInstance, h2],
    by simp [DOM.ParseInstance, h3], ?_⟩
  simp only [DOM.ParseInstance, h4, DOM.ParseElementInstanceLists, resize, List.length_cons,
    List.length_nil, List.take_nil, List.nil_append, List.replicate_succ, List.replicate_zero,
    List.zip_cons_cons, List.zip_nil_right, DOM.parseLists,
    ElementInstanceList.ParseInstanceList, ElementInstanceList.mk_reserved,
    ElementInstanceList.parseInstances, hC, ElementInstance.ParseInstance, hS,
    ElementInstance.parseProperties, hP]
  rfl

/-- C16: `Property::ParseDataType` returns a valid type only when the keyword of one of its
branches stands at the cursor and the character right after it, where the returned cursor
stands, is a blank, tab, CR, LF or NUL; `floatx`, `charx` and `int9` give `EDT_INVALID` (while
`float` in front of a terminator is accepted); and when no branch matches, the tag is
`EDT_INVALID` and the cursor is the one given. -/
theorem ParseDataType_needs_terminator (buf : Buf) (p : Nat) :
    ((Property.ParseDataType buf p).1 ≠ EDT_INVALID →
      IsSpaceOrNewLine (peek buf (Property.ParseDataType buf p).2) = true ∧
      ∃ b ∈ typeBranches, ASSIMP_strincmp buf p b.1 b.2 = 0 ∧
        (Property.ParseDataType buf p).2 = p + b.2) ∧
    ((∀ b ∈ typeBranches, ASSIMP_strincmp buf p b.1 b.2 ≠ 0) →
      Property.ParseDataType buf p = (EDT_INVALID, p)) ∧
    (∀ t ∈ [32, 9, 13, 10, 0],
      Property.ParseDataType (bytes "floatx" ++ [t]) 0 = (EDT_INVALID, 5) ∧
      Property.ParseDataType (bytes "charx" ++ [t]) 0 = (EDT_INVALID, 4) ∧
      Property.ParseDataType (bytes "int9" ++ [t]) 0 = (EDT_INVALID, 3) ∧
      Property.ParseDataType (bytes "float" ++ [t]) 0 = (EDT_Float, 5)) := by
  refine ⟨fun h => ⟨ParseDataType_valid_terminated buf p h, ?_⟩,
    ParseDataType_no_match buf p, by decide!⟩
  rcases ParseDataType_cursor buf p with h0 | h1
  · rw [h0] at h; exact absurd rfl h
  · exact h1

/-- C17, the code at the failing input: on every text the Double case of
`PropertyInstance::ParseValue` stores the widened float-parsed value and then returns false
with the cursor where it was, while the Float case returns true with the cursor after the
number. -/
theorem ParseValue_double_falls_through (F : FloatLib) (buf : Buf) (p : Nat)
    (out : ValueUnion) :
    PropertyInstance.ParseValue F buf p EDT_Double out
      = (false, p, .fDouble (F.toDouble (F.fast_atof_move buf p).2)) ∧
    PropertyInstance.ParseValue F buf p EDT_Float out
      = (true, (F.fast_atof_move buf p).1, .fFloat (F.fast_atof_move buf p).2) :=
  ⟨rfl, rfl⟩

/-- C18: for a non-empty string `d` of decimal digits with value at most `2^31 - 1`, followed by
a character that is no digit, `PropertyInstance::ParseValue` with type Int, Short or Char
returns true, stores the value for the text `d` and its negative for the text `-d`, and leaves
the cursor right after the last digit; with type UInt, UShort or UChar on a text that starts
with `-` it returns true, stores 0 and does not move the cursor. -/
theorem ParseValue_decimal (F : FloatLib) (buf : Buf) (p : Nat) (d rest : List Nat)
    (out : ValueUnion) (hne : d ≠ []) (hd : ∀ c ∈ d, isDigit c = true)
    (hr : isDigit (rest.headD 0) = false) (hv : digitsValue d ≤ 2 ^ 31 - 1) :
    (∀ eType ∈ [EDT_Int, EDT_Short, EDT_Char],
      (buf.drop p = d ++ rest →
        PropertyInstance.ParseValue F buf p eType out
          = (true, p + d.length, .iInt (digitsValue d))) ∧
      (buf.drop p = 45 :: (d ++ rest) →
        PropertyInstance.ParseValue F buf p eType out
          = (true, p + 1 + d.length, .iInt (-(digitsValue d : Int))))) ∧
    (∀ eType ∈ [EDT_UInt, EDT_UShort, EDT_UChar],
      peek buf p = 45 →
        PropertyInstance.ParseValue F buf p eType out = (true, p, .iUInt 0)) := by
  have hv' : digitsValue d ≤ 2147483647 := by norm_num at hv; exact hv
  exact ⟨fun eType ht =>
      ⟨ParseValue_signed_digits F buf p d rest out eType ht hne hd hr hv',
       ParseValue_signed_minus_digits F buf p d rest out eType ht hd hr hv'⟩,
    fun eType ht h => ParseValue_unsigned_minus F buf p out eType ht h⟩

/-- Witness of C18 on the texts `2147483647 12` and `-2147483647 12`. -/
theorem ParseValue_decimal_witness :
    PropertyInstance.ParseValue noFloats (bytes "-2147483647 12") 0 EDT_Int .unset
      = (true, 11, .iInt (-2147483647)) ∧
    PropertyInstance.ParseValue noFloats (bytes "2147483647 12") 0 EDT_Short .unset
      = (true, 10, .iInt 2147483647) ∧
    PropertyInstance.ParseValue noFloats (bytes "-2147483647 12") 0 EDT_UChar .unset
      = (true, 0, .iUInt 0) :=
  ⟨((ParseValue_decimal noFloats (bytes "-2147483647 12") 0 (bytes "2147483647")
      (bytes " 12") .unset (by decide) (by decide) (by decide) (by decide)).1
      EDT_Int (by decide)).2 (by decide),
   ((ParseValue_decimal noFloats (bytes "2147483647 12") 0 (bytes "2147483647")
      (bytes " 12") .unset (by decide) (by decide) (by decide) (by decide)).1
      EDT_Short (by decide)).1 (by decide),
   (ParseValue_decimal noFloats (bytes "-2147483647 12") 0 (bytes "2147483647")
      (bytes " 12") .unset (by decide) (by decide) (by decide) (by decide)).2
      EDT_UChar (by decide) (by decide)⟩

/-- C19, the code at the failing input: `specular_power` is compared over 6 characters and
stepped over by 7, so the cursor stops inside the keyword and the trailing check resets the
tag: in lower and in upper case, followed by a blank, a tab, CR, LF or NUL, the result is
`EST_INVALID` with cursor 7. Each of the 26 other keywords, in lower and in upper case and in
front of the same five characters, yields its tag with the cursor right after the keyword. -/
theorem ParseSemantic_specular_power :
    (∀ t ∈ [32, 9, 13, 10, 0],
      Property.ParseSemantic (bytes "specular_power" ++ [t]) 0 = (EST_INVALID, 7) ∧
      Property.ParseSemantic (bytes "SPECULAR_POWER" ++ [t]) 0 = (EST_INVALID, 7)) ∧
    (∀ kw ∈ semanticKeywords, ∀ t ∈ [32, 9, 13, 10, 0],
      Property.ParseSemantic (bytes kw.1 ++ [t]) 0 = (kw.2, kw.1.length) ∧
      Property.ParseSemantic ((bytes kw.1).map toUpper ++ [t]) 0 = (kw.2, kw.1.length)) :=
  ⟨by decide!, by decide!⟩

/-- C20: for each of the tokens `vertex`, `face`, `tristrips`, `edge` and `material`, written
in any letter case (`s`), `Element::ParseSemantic` in front of a blank, tab or line end returns
the semantic of the token with the cursor right after it, and `Element::ParseElement` on
`element <token> <n>` returns true and stores that semantic and `NumOccur = n`. -/
theorem ParseSemantic_known_elements (buf : Buf) (p : Nat) (kw : String × EElementSemantic)
    (s : List Nat) (hk : kw ∈ elementKeywords) (hs : s.map toLower = bytes kw.1) :
    (∀ rest : List Nat, IsSpaceOrNewLine (rest.headD 0) = true → buf.drop p = s ++ rest →
      Element.ParseSemantic buf p = (kw.2, p + s.length)) ∧
    (∀ d rest : List Nat, d ≠ [] → (∀ c ∈ d, isDigit c = true) →
      isDigit (rest.headD 0) = false → digitsValue d < 4294967296 →
      buf.drop p = bytes "element " ++ (s ++ 32 :: (d ++ rest)) →
      (Element.ParseElement buf p {}).1 = true ∧
      (Element.ParseElement buf p {}).2.2.eSemantic = kw.2 ∧
      (Element.ParseElement buf p {}).2.2.NumOccur = digitsValue d) :=
  ⟨fun rest ht h => ParseSemantic_element buf p kw hk s rest hs ht h,
   fun d rest hne hd hr hv h => ParseElement_element buf p kw hk s d rest hs hne hd hr hv h⟩

/-- Witness of C20 on `TriStrips 3` and on `element TriStrips 3`. -/
theorem ParseSemantic_known_elements_witness :
    ("tristrips", EEST_TriStrip) ∈ elementKeywords ∧
    (bytes "TriStrips").map toLower = bytes "tristrips" ∧
    Element.ParseSemantic (bytes "TriStrips 3") 0 = (EEST_TriStrip, 9) ∧
    (Element.ParseElement (bytes "element TriStrips 3\n") 0 {}).1 = true ∧
    (Element.ParseElement (bytes "element TriStrips 3\n") 0 {}).2.2.eSemantic = EEST_TriStrip ∧
    (Element.ParseElement (bytes "element TriStrips 3\n") 0 {}).2.2.NumOccur = 3 :=
  ⟨by decide, by decide,
   (ParseSemantic_known_elements (bytes "TriStrips 3") 0 ("tristrips", EEST_TriStrip)
      (bytes "TriStrips") (by decide) (by decide)).1 (bytes " 3") (by decide) (by decide),
   (ParseSemantic_known_elements (bytes "element TriStrips 3\n") 0 ("tristrips", EEST_TriStrip)
      (bytes "TriStrips") (by decide) (by decide)).2 (bytes "3") (bytes "\n") (by decide)
      (by decide) (by decide) (by decide) (by decide)⟩

/-- C21, the code at the failing input: with CR LF line ends `SkipLine` steps over the CR
only, so each iteration of the skipping loop of `ParseInstanceList` takes half a line. For an
unrecognized element with one occurrence the cursor is left on the LF of the first line
(cursor 6, the next line starts at 7), for two occurrences at the start of the second line
(cursor 7, not 14); the instances of a following `vertex` element with an `int` property are
then read from cursor 6, where `ElementInstance::ParseInstance` fails at once and stores an
instance without property. With LF or CR line ends the cursor is left at the start of the
third line (cursor 12), and from the start of the second CR LF line the `vertex` instance
holds the value 4. -/
theorem ParseInstanceList_skip_crlf (F : FloatLib) :
    ElementInstanceList.ParseInstanceList F data_crlf 0 { NumOccur := 1 } {}
      = (true, 6, { alInstances := [] }) ∧
    ElementInstanceList.ParseInstanceList F data_crlf 0 { NumOccur := 2 } {}
      = (true, 7, { alInstances := [] }) ∧
    ElementInstanceList.ParseInstanceList F data_crlf 6
        { eSemantic := EEST_Vertex, NumOccur := 1, alProperties := [{ eType := EDT_Int }] } {}
      = (true, 6, { alInstances := [{ alProperties := [] }] }) ∧
    ElementInstanceList.ParseInstanceList F data_crlf 7
        { eSemantic := EEST_Vertex, NumOccur := 1, alProperties := [{ eType := EDT_Int }] } {}
      = (true, 9, { alInstances := [{ alProperties := [{ avList := [.iInt 4] }] }] }) ∧
    ElementInstanceList.ParseInstanceList F data_lf 0 { NumOccur := 2 } {}
      = (true, 12, { alInstances := [] }) ∧
    ElementInstanceList.ParseInstanceList F data_cr 0 { NumOccur := 2 } {}
      = (true, 12, { alInstances := [] }) :=
  ⟨rfl, rfl, rfl, rfl, rfl, rfl⟩

set_option maxRecDepth 1000000 in
/-- C22, the code at the failing input: on `property foo q`, `property list uchar foo q` and
`property list foo int q` `ParseProperty` returns false with the cursor at the start of the next
line. The property loop of `ParseElement` ends at the first property that fails: on
`header_bad_type` the element keeps the property `x` only and the cursor stands on the line
`property float z` (cursor 49), where `ParseHeader` neither parses an element nor finds
`end_header` and does not end within any number of iterations. Without the bad line the
header is parsed with both properties. -/
theorem ParseHeader_bad_type_diverges (n fuel : Nat) :
    (Property.ParseProperty (bytes "property foo q\nproperty float z\n") 0 {}).1 = false ∧
    (Property.ParseProperty (bytes "property foo q\nproperty float z\n") 0 {}).2.1 = 15 ∧
    (Property.ParseProperty (bytes "property list uchar foo q\nproperty float z\n") 0 {}).1
      = false ∧
    (Property.ParseProperty (bytes "property list uchar foo q\nproperty float z\n") 0 {}).2.1
      = 26 ∧
    (Property.ParseProperty (bytes "property list foo int q\nproperty float z\n") 0 {}).1
      = false ∧
    (Property.ParseProperty (bytes "property list foo int q\nproperty float z\n") 0 {}).2.1
      = 24 ∧
    Element.ParseElement header_bad_type 0 {}
      = (true, 49, { eSemantic := EEST_Vertex, NumOccur := 1,
                     alProperties := [{ eType := EDT_Float, Semantic := EST_XCoord }] }) ∧
    DOM.ParseHeader fuel header_bad_type 0 {} = none ∧
    DOM.ParseHeader (n + 2) header_good_types 0 {}
      = some (true, 62,
          { alElements :=
              [ { eSemantic := EEST_Vertex, NumOccur := 1,
                  alProperties := [ { eType := EDT_Float, Semantic := EST_XCoord },
                                    { eType := EDT_Float, Semantic := EST_ZCoord } ] } ] }) := by
  have hS : DOM.SkipComments header_bad_type 0 = (false, 0) := by decide!
  have hE : Element.ParseElement header_bad_type 0 {}
      = (true, 49, { eSemantic := EEST_Vertex, NumOccur := 1,
                     alProperties := [{ eType := EDT_Float, Semantic := EST_XCoord }] }) := by
    decide!
  refine ⟨by decide!, by decide!, by decide!, by decide!, by decide!, by decide!, hE, ?_, ?_⟩
  · cases fuel with
    | zero => rfl
    | succ k =>
      simp only [DOM.ParseHeader, hS, hE]
      simpa using ParseHeader_bad_type_stuck k _
  · rfl

/-- C23, amended: `PropertyInstance::ParseInstance` returns false exactly when the line ends
early, that is in front of the first number of the property or, for a list, before as many
values as the count says were read. Inside the property loop of the text routine
`ElementInstance::ParseInstance` such a property gets exactly one more value,
`DefaultValue(eType)`, behind the list values read before the line ended; these are none for a
scalar property and for a list whose line ends in front of its count or right behind it, which
then hold the default value only. `DefaultValue(eType)` converts to 0 under `ConvertTo` for the
six integer types and is the float or double 0.0 (bit pattern 0) for the two others. The loop
goes on at the cursor `SkipLine` gives from the start of the property: on the NUL when the
data ends before a line terminator, right behind the line terminator when that is a LF, or a
CR that no LF follows. -/
theorem parseProperties_default (F : FloatLib) (buf : Buf) (p : Nat) (a : Property)
    (i : PropertyInstance) (rest : List (PropertyInstance × Property))
    (acc : List PropertyInstance)
    (h : (PropertyInstance.ParseInstance F buf p a i).1 = false) :
    (∀ j : PropertyInstance,
      (PropertyInstance.ParseInstance F buf p a j).1 = !endsEarly F buf p a) ∧
    endsEarly F buf p a = true ∧
    ElementInstance.parseProperties F buf ((i, a) :: rest) p acc
      = ElementInstance.parseProperties F buf rest (SkipLine buf p).2
          (acc ++ [{ avList := i.avList ++ valuesReadBefore F buf p a
                      ++ [PropertyInstance.DefaultValue a.eType] }]) ∧
    (a.bIsList = false → valuesReadBefore F buf p a = []) ∧
    (IsLineEnd (peek buf (SkipSpaces buf p).2) = true → valuesReadBefore F buf p a = []) ∧
    (IsLineEnd (peek buf (SkipSpaces buf
        (PropertyInstance.ParseValue F buf (SkipSpaces buf p).2 a.eFirstType .unset).2.1).2)
        = true → valuesReadBefore F buf p a = []) ∧
    (∀ t ∈ [EDT_Int, EDT_Short, EDT_Char, EDT_UInt, EDT_UShort, EDT_UChar],
      PropertyInstance.ConvertTo F (PropertyInstance.DefaultValue t) t = 0) ∧
    PropertyInstance.DefaultValue EDT_Float = .fFloat 0 ∧
    PropertyInstance.DefaultValue EDT_Double = .fDouble 0 ∧
    (∃ e : Nat, p ≤ e ∧ IsLineEnd (peek buf e) = true ∧
      (∀ k : Nat, p ≤ k → k < e → IsLineEnd (peek buf k) = false) ∧
      (peek buf e = 0 → (SkipLine buf p).2 = e) ∧
      (peek buf e = 10 → (SkipLine buf p).2 = e + 1) ∧
      (peek buf e = 13 → peek buf (e + 1) ≠ 10 → (SkipLine buf p).2 = e + 1)) := by
  have he : endsEarly F buf p a = true := by
    have h1 := (ParseInstance_spec F buf p a i).1
    rw [h] at h1
    cases hx : endsEarly F buf p a with
    | true => rfl
    | false => rw [hx] at h1; exact absurd h1 (by decide)
  obtain ⟨hc, hv⟩ := (ParseInstance_spec F buf p a i).2 he
  refine ⟨fun j => (ParseInstance_spec F buf p a j).1, he, ?_, ?_, ?_, ?_, ?_, rfl, rfl, ?_⟩
  · simp only [ElementInstance.parseProperties, h, hc, hv]
    simp
  · intro hl
    simp [valuesReadBefore, hl]
  · intro hl
    simp [valuesReadBefore, hl]
  · intro hl
    unfold valuesReadBefore
    split_ifs
    · rfl
    · cases hn : PropertyInstance.ConvertTo F
          (PropertyInstance.ParseValue F buf (SkipSpaces buf p).2 a.eFirstType .unset).2.2
          a.eFirstType with
      | zero => rfl
      | succ k => simp [listValuesRead, hl]
  · intro t ht
    simp only [List.mem_cons, List.mem_singleton, List.not_mem_nil, or_false] at ht
    rcases ht with rfl | rfl | rfl | rfl | rfl | rfl <;> rfl
  · obtain ⟨e, h1, h2, h3, h4⟩ := SkipLine_spec buf p
    refine ⟨e, h1, h2, h3, ?_, ?_, ?_⟩
    · intro h0; rw [h4, if_pos h0]
    · intro h0; rw [h4, if_neg (by rw [h0]; decide)]
    · intro h0 _; rw [h4, if_neg (by rw [h0]; decide)]

/-- Witness of C23, amended. On the list line `3 1 2` the values 1 and 2 stay in front of the
default value and the loop goes on at the start of the next line (cursor 6); on the list line
`3`, which holds the count only, the property holds the default value alone (cursor 2). -/
theorem parseProperties_default_witness :
    (PropertyInstance.ParseInstance noFloats data_list_short 0 list_uchar_int {}).1 = false ∧
    ElementInstance.parseProperties noFloats data_list_short [({}, list_uchar_int)] 0 []
      = (6, [{ avList := [.iInt 1, .iInt 2, .iUInt 0] }]) ∧
    (PropertyInstance.ParseInstance noFloats data_count_only 0 list_uchar_int {}).1 = false ∧
    ElementInstance.parseProperties noFloats data_count_only [({}, list_uchar_int)] 0 []
      = (2, [{ avList := [.iUInt 0] }]) :=
  ⟨by decide,
   (parseProperties_default noFloats data_list_short 0 list_uchar_int {} [] []
      (by decide)).2.2.1.trans (by decide!),
   by decide,
   (parseProperties_default noFloats data_count_only 0 list_uchar_int {} [] []
      (by decide)).2.2.1.trans (by decide!)⟩

/-- C23 as stated does not hold. On the list line `3 1 2` the list property fails after two
values and ends up with three values, 1, 2 and the default value, not with the default value
alone. On a data section that ends after the first of two values (`data_one_value`, NUL at
index 2) the second property fails and gets the default value, and the cursor stays on the
NUL: it is not moved past a line terminator. -/
theorem ParseInstance_default_not_alone :
    (∀ F : FloatLib,
      (PropertyInstance.ParseInstance F data_list_short 0 list_uchar_int {}).1 = false) ∧
    (∀ F : FloatLib,
      ElementInstance.ParseInstance F data_list_short 0 element_one_list {}
        = (true, 6, { alProperties := [{ avList := [.iInt 1, .iInt 2, .iUInt 0] }] })) ∧
    (∀ F : FloatLib,
      (PropertyInstance.ParseInstance F data_one_value 2 { eType := EDT_Int } {}).1 = false) ∧
    (∀ F : FloatLib,
      ElementInstance.ParseInstance F data_one_value 0 element_one_two_ints {}
        = (true, 2, { alProperties := [{ avList := [.iInt 1] }, { avList := [.iUInt 0] }] })) ∧
    data_one_value.length = 2 := by
  have hS : SkipSpaces data_list_short 0 = (true, 0) := by decide!
  have hL : SkipLine data_list_short 0 = (true, 6) := by decide!
  have hS1 : SkipSpaces data_list_short 1 = (true, 2) := by decide!
  have hS3 : SkipSpaces data_list_short 3 = (true, 4) := by decide!
  have hS5 : SkipSpaces data_list_short 5 = (false, 5) := by decide!
  have hV0 : ∀ F : FloatLib,
      PropertyInstance.ParseValue F data_list_short 0 EDT_UChar .unset
        = (true, 1, .iUInt 3) := fun _ => rfl
  have hV2 : ∀ (F : FloatLib) (v : ValueUnion),
      PropertyInstance.ParseValue F data_list_short 2 EDT_Int v
        = (true, 3, .iInt 1) := fun _ _ => rfl
  have hV4 : ∀ (F : FloatLib) (v : ValueUnion),
      PropertyInstance.ParseValue F data_list_short 4 EDT_Int v
        = (true, 5, .iInt 2) := fun _ _ => rfl
  have hN : ∀ F : FloatLib, PropertyInstance.ConvertTo F (.iUInt 3) EDT_UChar = 3 :=
    fun _ => rfl
  have h0 : ∀ F : FloatLib,
      PropertyInstance.ParseInstance F data_list_short 0 list_uchar_int {}
        = (false, 0, { avList := [.iInt 1, .iInt 2] }) := by
    intro F
    simp [PropertyInstance.ParseInstance, PropertyInstance.parseListValues, list_uchar_int,
      hS, hS1, hS3, hS5, hV0 F, hV2 F, hV4 F, hN F]
  have gS : SkipSpaces data_one_value 0 = (true, 0) := by decide!
  have gL : SkipLine data_one_value 2 = (false, 2) := by decide!
  have g0 : ∀ F : FloatLib,
      PropertyInstance.ParseInstance F data_one_value 0 { eType := EDT_Int } {}
        = (true, 2, { avList := [.iInt 1] }) := fun _ => rfl
  have g2 : ∀ F : FloatLib,
      PropertyInstance.ParseInstance F data_one_value 2 { eType := EDT_Int } {}
        = (false, 2, { avList := [] }) := fun _ => rfl
  refine ⟨fun F => by rw [h0 F], fun F => ?_, fun F => by rw [g2 F], fun F => ?_, rfl⟩
  · have hT : PropertyInstance.DefaultValue list_uchar_int.eType = .iUInt 0 := rfl
    simp only [ElementInstance.ParseInstance, hS, element_one_list, resize, List.length_cons,
      List.length_nil, List.take_nil, List.nil_append, List.replicate_succ, List.replicate_zero,
      List.zip_cons_cons, List.zip_nil_right, ElementInstance.parseProperties, h0 F, hL, hT]
    rfl
  · have hT : PropertyInstance.DefaultValue ({ eType := EDT_Int } : Property).eType
        = .iUInt 0 := rfl
    simp only [ElementInstance.ParseInstance, gS, element_one_two_ints, resize,
      List.length_cons, List.length_nil, List.take_nil, List.nil_append, List.replicate_succ,
      List.replicate_zero, List.zip_cons_cons, List.zip_nil_right,
      ElementInstance.parseProperties, g0 F, g2 F, gL, hT]
    rfl

/-- C24: `PropertyInstance::ParseInstanceBinary` returns true; what is in `avList` stays in
front, in order; a scalar property appends one value, a list property appends `n` values,
`n` being the count field decoded as `eFirstType` and converted by `ConvertTo<unsigned int>`.
For a signed count type the conversion is the value modulo `2^32`: a `Char` count byte 0xFF
asks for 4294967295 values. On the bytes 02 00 07 00 00 00 08 00 00 00 a list of `int` with a
`uchar` count (which takes two bytes) gets the values 7 and 8 behind the value it held. -/
theorem ParseInstanceBinary_appends (F : FloatLib) (buf : Buf) (p : Nat) (prop : Property)
    (pOut : PropertyInstance) (be : Bool) :
    (PropertyInstance.ParseInstanceBinary F buf p prop pOut be).1 = true ∧
    (∃ vs : List ValueUnion,
      (PropertyInstance.ParseInstanceBinary F buf p prop pOut be).2.2.avList
        = pOut.avList ++ vs ∧
      vs.length =
        if prop.bIsList then
          PropertyInstance.ConvertTo F
            (PropertyInstance.ParseValueBinary buf p prop.eFirstType .unset be).2.2
            prop.eFirstType
        else 1) ∧
    (∀ (t : EDataType) (i : Int), t ∈ [EDT_Int, EDT_Short, EDT_Char] →
      -2147483648 ≤ i → i < 2147483648 →
      PropertyInstance.ConvertTo F (.iInt i) t = (i % 4294967296).toNat) ∧
    (u8 buf p = 255 →
      PropertyInstance.ConvertTo F
        (PropertyInstance.ParseValueBinary buf p EDT_Char .unset be).2.2 EDT_Char
        = 4294967295) ∧
    PropertyInstance.ParseInstanceBinary F [2, 0, 7, 0, 0, 0, 8, 0, 0, 0] 0
        { eType := EDT_Int, bIsList := true, eFirstType := EDT_UChar }
        { avList := [.iInt 1] } false
      = (true, 10, { avList := [.iInt 1, .iInt 7, .iInt 8] }) := by
  refine ⟨?_, ?_, ?_, ?_, rfl⟩
  · unfold PropertyInstance.ParseInstanceBinary
    split_ifs <;> rfl
  · unfold PropertyInstance.ParseInstanceBinary
    split_ifs with hl
    · obtain ⟨vs, h1, h2⟩ := parseListValuesBinary_length buf prop.eType be
        (PropertyInstance.ConvertTo F
          (PropertyInstance.ParseValueBinary buf p prop.eFirstType .unset be).2.2
          prop.eFirstType)
        (PropertyInstance.ParseValueBinary buf p prop.eFirstType .unset be).2.1
        (PropertyInstance.ParseValueBinary buf p prop.eFirstType .unset be).2.2
        pOut.avList
      exact ⟨vs, h1, h2⟩
    · exact ⟨[_], rfl, rfl⟩
  · intro t i ht h1 h2
    have hi : toInt32 (toUInt32 i) = i := by
      unfold toInt32 toUInt32
      omega
    simp only [List.mem_cons, List.mem_singleton, List.not_mem_nil, or_false] at ht
    rcases ht with rfl | rfl | rfl <;>
      (show toUInt32 (toInt32 ((toUInt32 i : Nat) : Int)) = _; rw [hi]; rfl)
  · intro h
    show toUInt32 (toInt32 ((toUInt32 (toInt8 (u8 buf p)) : Nat) : Int)) = 4294967295
    rw [h]
    norm_num [toInt8, toInt32, toUInt32]
    rfl

set_option maxRecDepth 1000000 in
/-- C25, the code at the failing input: after `end_header` the header parser steps over one
character and then over every following blank, tab, CR and LF. With the 43-byte header
`header_int` the cursor is 43 when the first data byte is 07, and 44 when it is 0x20, 0x09,
0x0D or 0x0A: that byte is taken for the header, and the `int` whose bytes are 0A 00 00 00 is
then decoded as 0 from cursor 44 instead of 10 from cursor 43. With CR LF line ends (46 bytes)
the cursor is 46 in front of 07, and 50 in front of the data bytes 20 09 0D 0A 07. -/
theorem ParseHeader_eats_data_bytes (n : Nat) :
    header_int.length = 43 ∧
    (DOM.ParseHeader (n + 2) (header_int ++ [7, 0, 0, 0]) 0 {}).map (fun r => r.2.1)
      = some 43 ∧
    (DOM.ParseHeader (n + 2) (header_int ++ [32, 0, 0, 0]) 0 {}).map (fun r => r.2.1)
      = some 44 ∧
    (DOM.ParseHeader (n + 2) (header_int ++ [9, 0, 0, 0]) 0 {}).map (fun r => r.2.1)
      = some 44 ∧
    (DOM.ParseHeader (n + 2) (header_int ++ [13, 0, 0, 0]) 0 {}).map (fun r => r.2.1)
      = some 44 ∧
    (DOM.ParseHeader (n + 2) (header_int ++ [10, 0, 0, 0]) 0 {}).map (fun r => r.2.1)
      = some 44 ∧
    PropertyInstance.ParseValueBinary (header_int ++ [10, 0, 0, 0]) 43 EDT_Int .unset false
      = (true, 47, .iInt 10) ∧
    PropertyInstance.ParseValueBinary (header_int ++ [10, 0, 0, 0]) 44 EDT_Int .unset false
      = (true, 48, .iInt 0) ∧
    header_int_crlf.length = 46 ∧
    (DOM.ParseHeader (n + 2) (header_int_crlf ++ [7, 0, 0, 0]) 0 {}).map (fun r => r.2.1)
      = some 46 ∧
    (DOM.ParseHeader (n + 2) (header_int_crlf ++ [32, 9, 13, 10, 7]) 0 {}).map
      (fun r => r.2.1) = some 50 :=
  ⟨rfl, rfl, rfl, rfl, rfl, rfl, rfl, rfl, rfl, rfl, rfl⟩

/-- C26, the code at the failing input: `green` is compared over 4 characters and stepped
over by 5, `specular_power` is compared over 6 and stepped over by 7. Whatever the byte
`c` is, `gree` followed by `c` and a blank yields `EST_Green` with five characters taken, and
`specul` followed by `c` and a blank yields `EST_PhongPower` with seven characters taken:
`greex` is taken for `green`, `specula` for `specular_power`. The keyword `specular_power`
itself is not recognized. -/
theorem ParseSemantic_unsound :
    (∀ c < 256, Property.ParseSemantic (bytes "gree" ++ [c, 32]) 0 = (EST_Green, 5)) ∧
    (∀ c < 256, Property.ParseSemantic (bytes "specul" ++ [c, 32]) 0 = (EST_PhongPower, 7)) ∧
    Property.ParseSemantic (bytes "greex ") 0 = (EST_Green, 5) ∧
    Property.ParseSemantic (bytes "specula ") 0 = (EST_PhongPower, 7) ∧
    Property.ParseSemantic (bytes "specular_power ") 0 = (EST_INVALID, 7) :=
  ⟨by decide!, by decide!, by decide!, by decide!, by decide!⟩

set_option maxRecDepth 1000000 in
/-- C27, the code at the failing input: the buffer `header_gree` has no NUL in its 36 bytes,
so the terminating NUL stands at index 36; `ParseSemantic` takes `gree` for `green` and steps
over five characters, and `ParseElement` returns the cursor 37, beyond the NUL. Likewise
`ParseHeader` on `header_no_eol` (44 bytes, NUL at index 44) steps over 11 characters from
`end_header` on and returns the cursor 45. On `gree` and on `specul` alone `ParseSemantic`
returns the cursors 5 and 7, beyond the NUL at 4 and at 6. -/
theorem ParseHeader_cursor_beyond_nul (n : Nat) :
    header_gree.length = 36 ∧ 0 ∉ header_gree ∧
    Element.ParseElement header_gree 0 {}
      = (true, 37, { eSemantic := EEST_Vertex, NumOccur := 1,
                     alProperties := [{ eType := EDT_Float, Semantic := EST_Green }] }) ∧
    header_no_eol.length = 44 ∧ 0 ∉ header_no_eol ∧
    DOM.ParseHeader (n + 2) header_no_eol 0 {}
      = some (true, 45,
          { alElements :=
              [ { eSemantic := EEST_Vertex, NumOccur := 1,
                  alProperties := [{ eType := EDT_Float, Semantic := EST_XCoord }] } ] }) ∧
    Property.ParseSemantic (bytes "gree") 0 = (EST_Green, 5) ∧
    Property.ParseSemantic (bytes "specul") 0 = (EST_PhongPower, 7) :=
  ⟨rfl, by decide, by decide!, rfl, by decide, rfl, by decide!, by decide!⟩

/-- C28: every property declaration in the element list `ParseHeader` returns (those that
were in the list it was given apart) is the result of a call of `ParseProperty` on a fresh
`Property` that returned true. Its value type is not `EDT_INVALID`; it is a list exactly when
the keyword `list` followed `property` on its line, and then its count type is not
`EDT_INVALID` either; `ParseValueBinary` returns true for its value type, and for its count
type when it is a list. -/
theorem ParseHeader_declared_types_valid (fuel : Nat) (buf : Buf) (p : Nat) (dom : DOM)
    (r : Bool × Nat × DOM) (h : DOM.ParseHeader fuel buf p dom = some r)
    (hd : ∀ e ∈ dom.alElements, ∀ a ∈ e.alProperties, declaredBy buf a) :
    ∀ e ∈ r.2.2.alElements, ∀ a ∈ e.alProperties,
      a.eType ≠ EDT_INVALID ∧
      (a.bIsList = true → a.eFirstType ≠ EDT_INVALID) ∧
      (∃ q : Nat, (Property.ParseProperty buf q {}).1 = true ∧
        (Property.ParseProperty buf q {}).2.2 = a ∧
        a.bIsList
          = (ASSIMP_strincmp buf (SkipSpaces buf ((SkipSpaces buf q).2 + 9)).2 "list" 4 == 0 &&
              IsSpace (peek buf ((SkipSpaces buf ((SkipSpaces buf q).2 + 9)).2 + 4)))) ∧
      (∀ (q : Nat) (out : ValueUnion) (be : Bool),
        (PropertyInstance.ParseValueBinary buf q a.eType out be).1 = true) ∧
      (a.bIsList = true → ∀ (q : Nat) (out : ValueUnion) (be : Bool),
        (PropertyInstance.ParseValueBinary buf q a.eFirstType out be).1 = true) := by
  intro e he a ha
  obtain ⟨q, hq, rfl⟩ := ParseHeader_declared buf fuel p dom r h hd e he a ha
  obtain ⟨⟨h1, h2⟩, h3, _⟩ := ParseProperty_valid buf q hq
  exact ⟨h1, h2, ⟨q, hq, rfl, h3⟩,
    fun q2 out be => ParseValueBinary_valid buf q2 _ out be h1,
    fun hl q2 out be => ParseValueBinary_valid buf q2 _ out be (h2 hl)⟩

/-- Witness of C28 on the vertex/face header: the `face` element has a list property with
count type `uchar` and value type `int`, the `vertex` element three `float` properties. -/
theorem ParseHeader_declared_types_valid_witness :
    DOM.ParseHeader 3 header_vertex_face 0 {} = some (true, 131, dom_vertex_face) ∧
    ∀ e ∈ dom_vertex_face.alElements, ∀ a ∈ e.alProperties,
      a.eType ≠ EDT_INVALID ∧ (a.bIsList = true → a.eFirstType ≠ EDT_INVALID) :=
  ⟨by decide!, fun e he a ha =>
    ⟨(ParseHeader_declared_types_valid 3 header_vertex_face 0 {} (true, 131, dom_vertex_face)
        (by decide!) (fun e he => absurd he (List.not_mem_nil e)) e he a ha).1,
     (ParseHeader_declared_types_valid 3 header_vertex_face 0 {} (true, 131, dom_vertex_face)
        (by decide!) (fun e he => absurd he (List.not_mem_nil e)) e he a ha).2.1⟩⟩

/-- C29, the code at the failing input: every scalar property ends with
`SkipSpacesAndLineEnd`, which steps over the line end as well, so the check for a line that
ends early never sees it. For two `int` properties on the lines `1` and `2 3`
(`data_short_line`) the first instance holds 1 and 2, the 2 taken from the second line, and
the cursor is left inside the second line (cursor 4, on `3`; the line starts at 2); the second
instance holds 3 and a default value. On the lines `1 2` and `3 4` (`data_full_lines`) the
first instance holds 1 and 2 and the cursor is at the start of the second line. -/
theorem ParseInstance_short_line (F : FloatLib) :
    ElementInstance.ParseInstance F data_short_line 0 element_two_ints {}
      = (true, 4, { alProperties := [{ avList := [.iInt 1] }, { avList := [.iInt 2] }] }) ∧
    ElementInstanceList.ParseInstanceList F data_short_line 0 element_two_ints {}
      = (true, 6,
          { alInstances :=
              [ { alProperties := [{ avList := [.iInt 1] }, { avList := [.iInt 2] }] },
                { alProperties := [{ avList := [.iInt 3] }, { avList := [.iUInt 0] }] } ] }) ∧
    ElementInstance.ParseInstance F data_full_lines 0 element_two_ints {}
      = (true, 4, { alProperties := [{ avList := [.iInt 1] }, { avList := [.iInt 2] }] }) := by
  have hS0 : SkipSpaces data_short_line 0 = (true, 0) := by decide!
  have hS4 : SkipSpaces data_short_line 4 = (true, 4) := by decide!
  have hL6 : SkipLine data_short_line 6 = (false, 6) := by decide!
  have hC0 : DOM.SkipComments data_short_line 0 = (false, 0) := by decide!
  have hC4 : DOM.SkipComments data_short_line 4 = (false, 4) := by decide!
  have h0 : PropertyInstance.ParseInstance F data_short_line 0 { eType := EDT_Int } {}
      = (true, 2, { avList := [.iInt 1] }) := rfl
  have h2 : PropertyInstance.ParseInstance F data_short_line 2 { eType := EDT_Int } {}
      = (true, 4, { avList := [.iInt 2] }) := rfl
  have h4 : PropertyInstance.ParseInstance F data_short_line 4 { eType := EDT_Int } {}
      = (true, 6, { avList := [.iInt 3] }) := rfl
  have h6 : PropertyInstance.ParseInstance F data_short_line 6 { eType := EDT_Int } {}
      = (false, 6, { avList := [] }) := rfl
  have hI0 : ElementInstance.ParseInstance F data_short_line 0 element_two_ints {}
      = (true, 4, { alProperties := [{ avList := [.iInt 1] }, { avList := [.iInt 2] }] }) := by
    simp [ElementInstance.ParseInstance, ElementInstance.parseProperties, resize,
      element_two_ints, hS0, h0, h2]
  have hI4 : ElementInstance.ParseInstance F data_short_line 4 element_two_ints {}
      = (true, 6, { alProperties := [{ avList := [.iInt 3] }, { avList := [.iUInt 0] }] }) := by
    simp [ElementInstance.ParseInstance, ElementInstance.parseProperties, resize,
      element_two_ints, hS4, h4, h6, hL6, PropertyInstance.DefaultValue]
  have g0 : SkipSpaces data_full_lines 0 = (true, 0) := by decide!
  have g1 : PropertyInstance.ParseInstance F data_full_lines 0 { eType := EDT_Int } {}
      = (true, 2, { avList := [.iInt 1] }) := rfl
  have g2 : PropertyInstance.ParseInstance F data_full_lines 2 { eType := EDT_Int } {}
      = (true, 4, { avList := [.iInt 2] }) := rfl
  refine ⟨hI0, ?_, ?_⟩
  · have hsem : element_two_ints.eSemantic ≠ EEST_INVALID := by decide
    have hn : element_two_ints.NumOccur = 2 := rfl
    simp [ElementInstanceList.ParseInstanceList, ElementInstanceList.parseInstances, resize,
      hsem, hn, hC0, hC4, hI0, hI4]
  · simp [ElementInstance.ParseInstance, ElementInstance.parseProperties, resize,
      element_two_ints, g0, g1, g2]

/-- C30: on every text and at every cursor `PropertyInstance::ParseValue` gives the same
result, value and cursor for `UChar`, `UShort` and `UInt`, and the same for `Char`, `Short`
and `Int`. A non-empty digit string is stored with its value, whatever the width of the
declared type: below `2^32` for the unsigned types and up to `2^31 - 1` for the signed ones;
`300` as a `uchar` is stored as 300, `40000` as a `short` as 40000 and `-129` as a `char` as
-129. -/
theorem ParseValue_width_ignored (F : FloatLib) (buf : Buf) (p : Nat) (out : ValueUnion) :
    PropertyInstance.ParseValue F buf p EDT_UChar out
      = PropertyInstance.ParseValue F buf p EDT_UInt out ∧
    PropertyInstance.ParseValue F buf p EDT_UShort out
      = PropertyInstance.ParseValue F buf p EDT_UInt out ∧
    PropertyInstance.ParseValue F buf p EDT_Char out
      = PropertyInstance.ParseValue F buf p EDT_Int out ∧
    PropertyInstance.ParseValue F buf p EDT_Short out
      = PropertyInstance.ParseValue F buf p EDT_Int out ∧
    (∀ d rest : List Nat, d ≠ [] → (∀ c ∈ d, isDigit c = true) →
      isDigit (rest.headD 0) = false → buf.drop p = d ++ rest →
      (digitsValue d < 4294967296 →
        PropertyInstance.ParseValue F buf p EDT_UChar out
          = (true, p + d.length, .iUInt (digitsValue d))) ∧
      (digitsValue d ≤ 2147483647 →
        PropertyInstance.ParseValue F buf p EDT_Char out
          = (true, p + d.length, .iInt (digitsValue d)))) ∧
    PropertyInstance.ParseValue F (bytes "300 ") 0 EDT_UChar out = (true, 3, .iUInt 300) ∧
    PropertyInstance.ParseValue F (bytes "40000 ") 0 EDT_Short out = (true, 5, .iInt 40000) ∧
    PropertyInstance.ParseValue F (bytes "-129 ") 0 EDT_Char out = (true, 4, .iInt (-129)) := by
  refine ⟨rfl, rfl, rfl, rfl, ?_, rfl, rfl, rfl⟩
  intro d rest hne hd hr h
  exact ⟨fun hv => ParseValue_unsigned_digits F buf p d rest out EDT_UChar (by simp) hd hr hv h,
    fun hv => ParseValue_signed_digits F buf p d rest out EDT_Char (by simp) hne hd hr hv h⟩

end PLY
